import Mathlib

/-!
# pascal-scanner: symbol table, classifier and lexer of `scanner.c`

A shallow embedding of `src/scanner.c`.

* Characters are their character codes (`Nat`); a character array is the list
  of its cells; a C string is the run of cells before the first NUL.  Where the
  source does arithmetic on a cell (`getHash`), the cell is read as plain
  `char`, taken as signed: `charValue`.
* A record of the output that is printed with `%s` carries the character array
  handed to the conversion; `printed` gives what the conversion writes, and is
  undefined for an array without a NUL.
* The variables that the source reaches through pointers are passed in and out
  explicitly: `State` for the symbol table functions, `Scan` for the lexer,
  `Main` for the loop of `main`.  What the program prints is a list of `Output`
  records, in order.
* Every array access of the source that can leave its array is checked: the
  result is `none`, or a `Fault`, when it does (undefined behaviour in C).
* An uninitialised local of the source is an argument of its function.
* `strcmp` on two token buffers that are both full (12 characters, no
  terminator) and agree on all 12 cells reads on into the struct fields that
  follow the buffers.  What that part of the comparison yields depends on the
  memory layout, so the embedding takes it as a parameter `past` of type
  `Overrun`, and the results hold for every such parameter.
* Loops are recursive functions; where the recursion is on an iteration bound,
  the bound is large enough for every run that stays inside the arrays.
-/

namespace Scanner

/-! ## Constants and data model -/

abbrev LINE_LENGTH : Nat := 81
abbrev TOKEN_LENGTH : Nat := 12
abbrev TOKEN_TABLE_LENGTH : Nat := 23
abbrev SYMBOL_TABLE_LENGTH : Nat := 32

/-- The struct `token`: `char string[TOKEN_LENGTH]; int index; int ID;`. -/
structure token where
  string : List Nat
  index : Nat
  ID : Int
deriving DecidableEq, Repr

/-- The struct `symbolTable`: `token token[SYMBOL_TABLE_LENGTH]`. -/
structure symbolTable where
  token : Fin SYMBOL_TABLE_LENGTH → token

/-- The struct `tokenTable`: `token token[TOKEN_TABLE_LENGTH]`. -/
structure tokenTable where
  token : Fin TOKEN_TABLE_LENGTH → token

/-- One item written to the output file. -/
inductive Output where
  /-- `*ERROR: TOKEN "%s" IS DECLARED TWICE`, with the buffer given to `%s`. -/
  | declaredTwice (lexeme : List Nat)
  /-- `*ERROR: TOO MANY IDENTIFIERS IN PROGRAM, MAX IS 32`. -/
  | tooManyIdentifiers
  /-- `*ERROR: TOKEN %s WAS NOT DECLARED`, with the buffer given to `%s`. -/
  | notDeclared (lexeme : List Nat)
  /-- `*ERROR: CHARACTER '%c' NOT ALLOWED IN LANGUAGE*`. -/
  | notAllowed (c : Nat)
  /-- `*ERROR: TOO MANY CHARACTERS IN FOLLOWING TOKEN. MAX IS 12 CHARACTERS*`. -/
  | tooManyCharacters
  /-- A token record: the ID, the marker before the lexeme (if any), the buffer. -/
  | tokenRecord (ID : Int) (marker : Option Char) (lexeme : List Nat)
  /-- The blank line printed between two echoed lines. -/
  | blankLine
  /-- An echoed line: its number and the buffer given to `%s`. -/
  | lineEcho (lineNumber : Int) (text : List Nat)
  /-- The header `SYMBOL TABLE:` of the dump. -/
  | symbolTableHeader
  /-- One record of the dump: the printed index and the buffer given to `%s`. -/
  | symbolRecord (i : Nat) (lexeme : List Nat)
deriving DecidableEq, Repr

/-- What the pointer arguments of `checkSymbol` point at (`symTable`,
`beginReached`, `symbolCount`) together with what was written to `outputFile`. -/
structure State where
  symTable : symbolTable
  beginReached : Bool
  symbolCount : Int
  output : List Output

/-! ## C strings -/

/-- The C string held by a character array: the cells before the first NUL. -/
def cstr (s : List Nat) : List Nat := s.takeWhile (fun c => c != 0)

/-- The character codes of a string literal, without its terminator. -/
def lit (s : String) : List Nat := s.toList.map Char.toNat

/-- A 12-cell token buffer holding the given text, NUL-padded. -/
def buf (s : String) : List Nat :=
  (lit s).take TOKEN_LENGTH ++ List.replicate (TOKEN_LENGTH - (lit s).length) 0

/-- Outcome of a `strcmp` of two token buffers once it has run, all cells equal
and none NUL, past the last cell of both arrays. -/
abbrev Overrun := token → token → Bool

/-- The test `strcmp(a->string, b->string) == 0` on the buffers of two tokens. -/
def strcmp (past : Overrun) (a b : token) : Bool :=
  if cstr a.string = cstr b.string then
    if 0 ∈ a.string then true else past a b
  else false

/-- The test `strcmp(s, "...") == 0` of a buffer against a string literal that is
shorter than the buffer. -/
def strcmpLit (s : List Nat) (l : String) : Bool := cstr s = lit l

/-- What the conversion `%s` of `fprintf` writes for a character array: the C
string the array holds; `none` when the array holds no NUL, as the read then
goes on behind the last cell of the array. -/
def printed (s : List Nat) : Option (List Nat) := if 0 ∈ s then some (cstr s) else none

/-! ## Symbol table -/

/-- The value of a cell of a character array read as plain `char`.  Plain
`char` is taken as the signed 8-bit type it is on the common x86 ABIs: the
codes 128..255 are the values -128..-1. -/
def charValue (c : Nat) : Int := (((c + 128) % 256 : Nat) : Int) - 128

/-- The function `getHash`: the 12 cells of the buffer are added as `char`
values into an `int`, and `%` of C, which truncates toward zero, is applied
with the table length; the result has the sign of the sum. -/
def getHash (currentToken : token) : Int :=
  Int.tmod ((currentToken.string.take TOKEN_LENGTH).map charValue).sum SYMBOL_TABLE_LENGTH

/-- The read `symTable->token[i]`; `none` when `i` is outside the array. -/
def symbolTable.read (t : symbolTable) (i : Nat) : Option Scanner.token :=
  if h : i < SYMBOL_TABLE_LENGTH then some (t.token ⟨i, h⟩) else none

/-- The assignment `symTable->token[i] = tok` for a slot inside the array. -/
def symbolTable.write (t : symbolTable) (i : Fin SYMBOL_TABLE_LENGTH) (tok : Scanner.token) :
    symbolTable :=
  ⟨Function.update t.token i tok⟩

/-- The duplicate scan of `addSymbol`: whether some slot compares equal to the
token (the loop stops at the first such slot, after printing one diagnostic). -/
def isDuplicate (past : Overrun) (currentToken : token) (symTable : symbolTable) : Bool :=
  (List.finRange SYMBOL_TABLE_LENGTH).any (fun i => strcmp past (symTable.token i) currentToken)

/-- The probe loop of `addSymbol`, `while (symTable->token[tableSlot].ID != 0)`,
with its body; the result is the slot the loop stops at.  The loop condition
reads `token[tableSlot]` before the body can wrap, so reaching
`tableSlot = SYMBOL_TABLE_LENGTH` is an out-of-bounds read (`none`). -/
def probe (symTable : symbolTable) : Nat → Nat → Option (Fin SYMBOL_TABLE_LENGTH)
  | 0, _ => none
  | fuel + 1, tableSlot =>
    if h : tableSlot < SYMBOL_TABLE_LENGTH then
      if (symTable.token ⟨tableSlot, h⟩).ID ≠ 0 then
        if tableSlot = SYMBOL_TABLE_LENGTH then probe symTable fuel 0
        else if tableSlot < SYMBOL_TABLE_LENGTH then probe symTable fuel (tableSlot + 1)
        else probe symTable fuel tableSlot
      else some ⟨tableSlot, h⟩
    else none

/-- The function `addSymbol`.  The source tests the hashed slot once before it
enters the probe loop; the loop tests the same slot first, so both are the one
call of `probe`.  With a negative hash that first read,
`symTable->token[tableSlot].ID`, is outside the array (`none`). -/
def addSymbol (past : Overrun) (currentToken : token) (s : State) : Option State :=
  if isDuplicate past currentToken s.symTable then
    some { s with output := s.output ++ [Output.declaredTwice currentToken.string] }
  else
    let tableSlot := getHash currentToken
    if tableSlot < 0 then none
    else
      match probe s.symTable (SYMBOL_TABLE_LENGTH + 1) tableSlot.toNat with
      | none => none
      | some tableSlot =>
        some { s with symTable := s.symTable.write tableSlot currentToken
                      symbolCount := s.symbolCount + 1 }

/-- The loop of `searchForSymbol`; `n` is the number of probes left
(`SYMBOL_TABLE_LENGTH - count`). -/
def searchLoop (past : Overrun) (currentToken : token) (symTable : symbolTable) :
    Nat → Nat → Bool → Option Bool
  | 0, _, isInTable => some isInTable
  | n + 1, tableSlot, isInTable =>
    let tableSlot := if tableSlot = SYMBOL_TABLE_LENGTH then 0 else tableSlot
    match symTable.read tableSlot with
    | none => none
    | some slot =>
      let isInTable := isInTable || strcmp past slot currentToken
      if slot.ID = 0 then some isInTable
      else searchLoop past currentToken symTable n (tableSlot + 1) isInTable

/-- The function `searchForSymbol`.  With a negative hash the first round of
the loop reads `symTable->token[tableSlot].ID` outside the array (`none`). -/
def searchForSymbol (past : Overrun) (currentToken : token) (symTable : symbolTable) :
    Option Bool :=
  let tableSlot := getHash currentToken
  if tableSlot < 0 then none
  else searchLoop past currentToken symTable SYMBOL_TABLE_LENGTH tableSlot.toNat false

/-- The function `checkSymbol`. -/
def checkSymbol (past : Overrun) (currentToken : token) (s : State) : Option State :=
  if strcmpLit currentToken.string "BEGIN" then
    some { s with beginReached := true }
  else if currentToken.ID = 22 ∧ s.beginReached = false then
    if s.symbolCount < SYMBOL_TABLE_LENGTH then
      addSymbol past currentToken s
    else
      some { s with output := s.output ++ [Output.tooManyIdentifiers] }
  else if currentToken.ID = 22 ∧ s.beginReached = true then
    match searchForSymbol past currentToken s.symTable with
    | none => none
    | some inTable =>
      if inTable = false then
        some { s with output := s.output ++ [Output.notDeclared currentToken.string] }
      else some s
  else some s

/-- The library function `strset(s, c)` on a character array: every cell before
the first NUL becomes `c`; `none` when the array holds no NUL (the writes leave
the array). -/
def strset (s : List Nat) (c : Nat) : Option (List Nat) :=
  if 0 ∈ s then some (List.replicate (cstr s).length c ++ s.drop (cstr s).length) else none

/-- The function `constructSymbolTable`.  The local `symTable` is uninitialised:
its content before the loop is the argument.  Each slot gets
`strset(string, ' ')` and `ID = 0`; the result is `none` when one of the
`strset` calls leaves its array. -/
def constructSymbolTable (uninit : symbolTable) : Option symbolTable :=
  if h : ∀ i, (strset (uninit.token i).string 32).isSome then
    some ⟨fun i =>
      { string := (strset (uninit.token i).string 32).get (h i)
        index := (uninit.token i).index
        ID := 0 }⟩
  else none

/-- The state `main` starts the token loop in: the constructed table,
`beginReached = false`, `symbolCount = 0`, nothing printed. -/
def initState (symTable : symbolTable) : State :=
  { symTable := symTable, beginReached := false, symbolCount := 0, output := [] }

/-- Feeding a sequence of tokens to `checkSymbol`, one call per token. -/
def feed (past : Overrun) : State → List token → Option State
  | s, [] => some s
  | s, t :: ts =>
    match checkSymbol past t s with
    | none => none
    | some s1 => feed past s1 ts

/-! ## Token classifier -/

/-- The library function `isalpha` in the C locale. -/
def isalpha (c : Nat) : Bool := (65 ≤ c && c ≤ 90) || (97 ≤ c && c ≤ 122)

/-- The library function `isdigit`. -/
def isdigit (c : Nat) : Bool := 48 ≤ c && c ≤ 57

/-- The library function `isalnum` in the C locale. -/
def isalnum (c : Nat) : Bool := isalpha c || isdigit c

/-- The first loop of `assignID`: every table entry that compares equal to the
token gives the token its ID. -/
def assignExact (past : Overrun) (table : tokenTable) (myToken : token) : token :=
  (List.finRange TOKEN_TABLE_LENGTH).foldl
    (fun tok i => if strcmp past (table.token i) tok then { tok with ID := (table.token i).ID }
      else tok)
    myToken

/-- The loops of the two fallback branches of `assignID`: every table entry whose
string is the given literal gives the token its ID. -/
def assignReserved (table : tokenTable) (name : String) (myToken : token) : token :=
  (List.finRange TOKEN_TABLE_LENGTH).foldl
    (fun tok i => if strcmpLit (table.token i).string name then
        { tok with ID := (table.token i).ID }
      else tok)
    myToken

/-- The function `assignID`. -/
def assignID (past : Overrun) (table : tokenTable) (myToken : token) : token :=
  let myToken := assignExact past table { myToken with ID := 0 }
  if myToken.ID = 0 ∧ isalpha (myToken.string.headD 0) then
    assignReserved table "id" myToken
  else if myToken.ID = 0 ∧ isalnum (myToken.string.headD 0) then
    assignReserved table "int" myToken
  else myToken

/-- The kind of the first table entry with the given lexeme, if there is one. -/
def kindOf (table : tokenTable) (lexeme : List Nat) : Option Int :=
  ((List.finRange TOKEN_TABLE_LENGTH).find?
    (fun i => cstr (table.token i).string = lexeme)).map (fun i => (table.token i).ID)

/-- The classifier as the specification words it: the kind of the table entry
whose lexeme equals `L` if there is one; otherwise the kind of the `id` entry if
the first character of `L` is a letter; otherwise the kind of the `int` entry if
it is a digit; otherwise 0. -/
def classifySpec (table : tokenTable) (L : List Nat) : Int :=
  match kindOf table L with
  | some k => k
  | none =>
    if isalpha (L.headD 0) then (kindOf table (lit "id")).getD 0
    else if isdigit (L.headD 0) then (kindOf table (lit "int")).getD 0
    else 0

/-! ## Line source and lexer -/

/-- What stops an execution: an access outside an array, or an exhausted
iteration bound of the embedding. -/
inductive Fault where
  /-- An access outside `currentLine->string`. -/
  | lineBounds
  /-- A write outside `newToken.string`. -/
  | tokenBounds
  /-- A read outside `symTable->token`. -/
  | tableBounds
  /-- The iteration bound of a loop of the embedding ran out. -/
  | fuel
deriving DecidableEq, Repr

/-- The struct `line`: `char string[LINE_LENGTH]; int lineNumber; int index;`. -/
structure line where
  string : List Nat
  lineNumber : Int
  index : Nat
deriving DecidableEq, Repr

/-- An input stream: the characters not read yet and the end-of-file indicator
that `feof` reports. -/
structure File where
  data : List Nat
  eof : Bool
deriving DecidableEq, Repr

/-- What the pointer arguments of the lexer functions point at: `inputFile`,
`currentLine`, and what was written to `outputFile`. -/
structure Scan where
  inputFile : File
  currentLine : line
  output : List Output
deriving DecidableEq, Repr

/-- The library function `toupper` in the C locale. -/
def toupper (c : Nat) : Nat := if 97 ≤ c ∧ c ≤ 122 then c - 32 else c

/-- The characters one `fgets` call takes from the stream: at most `k`, ending
with the first newline. -/
def fgetsChunk : Nat → List Nat → List Nat
  | 0, _ => []
  | _, [] => []
  | k + 1, c :: cs => if c = 10 then [c] else c :: fgetsChunk k cs

/-- The library function `fgets(buffer, n, file)`: at end of input the buffer is
left as it is and the end-of-file indicator is set; otherwise the characters
read and a NUL overwrite the start of the buffer, and the indicator is set when
the input ended before a newline or `n - 1` characters were read. -/
def fgets (buffer : List Nat) (n : Nat) (f : File) : Except Fault (List Nat × File) :=
  if f.data = [] then pure (buffer, { f with eof := true })
  else
    let chunk := fgetsChunk (n - 1) f.data
    let hitEnd : Bool := chunk.length = f.data.length ∧ chunk.getLast? ≠ some 10 ∧
      chunk.length < n - 1
    if chunk.length < buffer.length then
      pure (chunk ++ [0] ++ buffer.drop (chunk.length + 1),
        { data := f.data.drop chunk.length, eof := f.eof || hitEnd })
    else throw Fault.lineBounds

/-- The function `getNewLine`. -/
def getNewLine (s : Scan) : Except Fault Scan := do
  let (str, f) ← fgets s.currentLine.string LINE_LENGTH s.inputFile
  pure { s with
    inputFile := f
    currentLine := { string := str, lineNumber := s.currentLine.lineNumber + 1, index := 0 } }

/-- The function `formatLine`, loop by loop: upper-case every cell before the
first NUL; count the leading spaces and tabs; move the rest of the string to
the front and terminate it; append a newline if the string has none.  Cells
behind the new terminator keep what they held. -/
def formatLine (currentLine : line) : Except Fault line :=
  if 0 ∈ currentLine.string then
    let n := (cstr currentLine.string).length
    let upper := (cstr currentLine.string).map toupper ++ currentLine.string.drop n
    let i := ((cstr upper).takeWhile (fun c => c == 32 || c == 9)).length
    let stripped := (cstr upper).drop i
    let j := stripped.length
    if 10 ∈ stripped then
      pure { currentLine with string := stripped ++ [0] ++ upper.drop (j + 1) }
    else if j + 1 < currentLine.string.length then
      pure { currentLine with string := stripped ++ [10, 0] ++ upper.drop (j + 2) }
    else throw Fault.lineBounds
  else throw Fault.lineBounds

/-- The function `printLine`. -/
def printLine (s : Scan) : Scan :=
  let out := if s.currentLine.lineNumber > 1 then s.output ++ [Output.blankLine] else s.output
  { s with output := out ++ [Output.lineEcho s.currentLine.lineNumber s.currentLine.string] }

/-- The read `currentLine->string[i]`. -/
def line.charAt (l : line) (i : Nat) : Except Fault Nat :=
  match l.string[i]? with
  | some c => pure c
  | none => throw Fault.lineBounds

/-- The write `newToken.string[newToken.index] = c`. -/
def token.put (t : token) (c : Nat) : Except Fault token :=
  if t.index < t.string.length then pure { t with string := t.string.set t.index c }
  else throw Fault.tokenBounds

/-- The three calls `getNewLine`, `formatLine`, `printLine` that fetch a line. -/
def fetchLine (s : Scan) : Except Fault Scan := do
  let s ← getNewLine s
  let l ← formatLine s.currentLine
  pure (printLine { s with currentLine := l })

/-- The function `ignoreComment`; the first argument bounds the number of rounds
of its loop. -/
def ignoreComment : Nat → Scan → Except Fault Scan
  | 0, _ => throw Fault.fuel
  | fuel + 1, s =>
    if s.inputFile.eof then pure s
    else do
      let c ← s.currentLine.charAt s.currentLine.index
      let closing ←
        if c = 42 then do
          let d ← s.currentLine.charAt (s.currentLine.index + 1)
          pure (decide (d = 41))
        else pure false
      if closing then
        pure { s with currentLine := { s.currentLine with index := s.currentLine.index + 1 } }
      else do
        let s ← if c = 10 ∨ s.currentLine.index = LINE_LENGTH then fetchLine s else pure s
        ignoreComment fuel
          { s with currentLine := { s.currentLine with index := s.currentLine.index + 1 } }

/-- The loop `while (currentLine->string[currentLine->index] == ' ')` of
`buildToken`. -/
def skipSpaces : Nat → line → Except Fault line
  | 0, _ => throw Fault.fuel
  | fuel + 1, l => do
    let c ← l.charAt l.index
    if c = 32 then skipSpaces fuel { l with index := l.index + 1 } else pure l

/-- The `switch` of `buildToken` on a character that is not alphanumeric; the
result is the token, the scan state and the `stop` flag. -/
def switchChar (c : Nat) (newToken : token) (s : Scan) (stop : Bool) :
    Except Fault (token × Scan × Bool) :=
  if c = 46 then do
    let newToken ← newToken.put c
    pure ({ newToken with index := newToken.index + 1 },
      { s with currentLine := { s.currentLine with index := s.currentLine.index + 1 } }, true)
  else if c = 58 then do
    let d ← s.currentLine.charAt (s.currentLine.index + 1)
    if d = 61 then do
      let newToken ← newToken.put c
      let newToken := { newToken with index := newToken.index + 1 }
      let s := { s with currentLine := { s.currentLine with index := s.currentLine.index + 1 } }
      let e ← s.currentLine.charAt s.currentLine.index
      let newToken ← newToken.put e
      pure (newToken, s, true)
    else pure (newToken, s, true)
  else if c = 40 then do
    let d ← s.currentLine.charAt (s.currentLine.index + 1)
    if d = 42 then do
      let newToken ← newToken.put 32
      let s := { s with currentLine := { s.currentLine with index := s.currentLine.index + 1 } }
      let s ← ignoreComment ((LINE_LENGTH + 1) * (s.inputFile.data.length + 2)) s
      pure (newToken, s, true)
    else pure (newToken, s, true)
  else if c = 59 ∨ c = 44 ∨ c = 43 ∨ c = 45 ∨ c = 42 ∨ c = 61 ∨ c = 41 ∨ c = 32 ∨ c = 10 ∨
      c = 0 ∨ c = 13 then
    pure (newToken, s, true)
  else
    pure (newToken, { s with output := s.output ++ [Output.notAllowed c] }, stop)

/-- One round of the loop `while (stop != true)` of `buildToken`; the result is
the token, the scan state and the `stop` flag. -/
def buildStep (newToken : token) (s : Scan) : Except Fault (token × Scan × Bool) := do
  let c ← s.currentLine.charAt s.currentLine.index
  let newToken ← newToken.put c
  let stop1 ←
    if isalpha c then do
      let d ← s.currentLine.charAt (s.currentLine.index + 1)
      pure (!isalnum d && d != 46)
    else pure false
  let stop2 ←
    if isdigit c then do
      let d ← s.currentLine.charAt (s.currentLine.index + 1)
      pure (!isdigit d)
    else pure false
  let (newToken, s, stop) ←
    if !isalnum c then switchChar c newToken s (stop1 || stop2)
    else pure (newToken, s, stop1 || stop2)
  let c2 ← s.currentLine.charAt s.currentLine.index
  let (newToken, s) :=
    if c2 ≠ 32 ∧ c2 ≠ 10 then
      ({ newToken with index := newToken.index + 1 },
        { s with currentLine := { s.currentLine with index := s.currentLine.index + 1 } })
    else (newToken, s)
  if newToken.index ≥ TOKEN_LENGTH then do
    let c3 ← s.currentLine.charAt s.currentLine.index
    if isalnum c3 then
      pure (newToken, { s with output := s.output ++ [Output.tooManyCharacters] }, true)
    else pure (newToken, s, stop)
  else pure (newToken, s, stop)

/-- The loop `while (stop != true)` of `buildToken`; the first argument bounds
the number of rounds. -/
def buildLoop : Nat → token → Scan → Except Fault (token × Scan)
  | 0, _, _ => throw Fault.fuel
  | fuel + 1, newToken, s => do
    let (newToken, s, stop) ← buildStep newToken s
    if stop then pure (newToken, s) else buildLoop fuel newToken s

/-- The function `buildToken`.  The local `newToken` is initialised but for its
`ID`, which the function never reads or writes: the token returned carries the
uninitialised value, the first argument. -/
def buildToken (uninitID : Int) (s : Scan) : Except Fault (token × Scan) := do
  let newToken : token := { string := List.replicate TOKEN_LENGTH 0, index := 0, ID := 0 }
  let l ← skipSpaces (LINE_LENGTH + 1) s.currentLine
  let (newToken, s) ← buildLoop (LINE_LENGTH + 1) newToken { s with currentLine := l }
  pure ({ newToken with ID := uninitID }, s)

/-- The function `getToken`. -/
def getToken (past : Overrun) (table : tokenTable) (uninitID : Int) (s : Scan) :
    Except Fault (token × Scan) := do
  let fetch ←
    if s.currentLine.lineNumber = 0 then pure true
    else do
      let c ← s.currentLine.charAt s.currentLine.index
      pure (decide (c = 10))
  let s ← if fetch then fetchLine s else pure s
  let (currentToken, s) ← buildToken uninitID s
  pure (assignID past table currentToken, s)

/-- The function `printToken`: what it appends to the output. -/
def printToken (currentToken : token) : List Output :=
  if currentToken.ID = 0 then []
  else if currentToken.ID = 22 then
    [Output.tokenRecord currentToken.ID (some '^') currentToken.string]
  else if currentToken.ID = 23 then
    [Output.tokenRecord currentToken.ID (some '#') currentToken.string]
  else [Output.tokenRecord currentToken.ID none currentToken.string]

/-- The variables of `main` that its loop works on. -/
structure Main where
  scan : Scan
  symTable : symbolTable
  beginReached : Bool
  symbolCount : Int

/-- The body of the loop of `main`: `getToken`, `printToken`, `checkSymbol`.
The result carries the token of this round. -/
def mainStep (past : Overrun) (table : tokenTable) (uninitID : Int) (m : Main) :
    Except Fault (token × Main) := do
  let (currentToken, scan) ← getToken past table uninitID m.scan
  let st : State :=
    { symTable := m.symTable, beginReached := m.beginReached, symbolCount := m.symbolCount
      output := scan.output ++ printToken currentToken }
  match checkSymbol past currentToken st with
  | none => throw Fault.tableBounds
  | some st =>
    pure (currentToken,
      { scan := { scan with output := st.output }, symTable := st.symTable
        beginReached := st.beginReached, symbolCount := st.symbolCount })

/-- The body of the loop of `main` repeated until the cursor is on the newline
of the current line (the line is exhausted); the first argument bounds the
number of rounds.  The result lists, in order, the token of each round with
the values of `symbolCount` and `beginReached` after the round. -/
def tokenizeLine (past : Overrun) (table : tokenTable) (uninitID : Int) :
    Nat → Main → Except Fault (List (token × Int × Bool) × Main)
  | 0, _ => throw Fault.fuel
  | fuel + 1, m => do
    let (currentToken, m) ← mainStep past table uninitID m
    let c ← m.scan.currentLine.charAt m.scan.currentLine.index
    if c = 10 then pure ([(currentToken, m.symbolCount, m.beginReached)], m)
    else do
      let (rest, m1) ← tokenizeLine past table uninitID fuel m
      pure ((currentToken, m.symbolCount, m.beginReached) :: rest, m1)

/-- The function `printSymbolTable`: what it appends to the output. -/
def printSymbolTable (symTable : symbolTable) : List Output :=
  Output.symbolTableHeader ::
    (List.finRange SYMBOL_TABLE_LENGTH).map
      (fun i => Output.symbolRecord (i.val + 1) (symTable.token i).string)

/-- The `stop` flag that the two validation tests of `buildToken` (keywords and
IDs, integers) set for a character `c` followed by `d`. -/
def ruleStop (c d : Nat) : Bool :=
  (isalpha c && (!isalnum d && d != 46)) || (isdigit c && !isdigit d)

/-- The characters that reach the `default` branch of the switch of
`buildToken`: not alphanumeric and none of the `case` labels. -/
def disallowed (c : Nat) : Bool :=
  !isalnum c &&
    !(c = 46 ∨ c = 58 ∨ c = 40 ∨ c = 59 ∨ c = 44 ∨ c = 43 ∨ c = 45 ∨ c = 42 ∨ c = 61 ∨
      c = 41 ∨ c = 32 ∨ c = 10 ∨ c = 0 ∨ c = 13)

/-- Line normalisation as the specification words it: every character
upper-cased, the leading run of spaces and tabs removed, and a newline appended
if the text has none. -/
def normalizeSpec (text : List Nat) : List Nat :=
  let t := (text.map toupper).dropWhile (fun c => c == 32 || c == 9)
  if 10 ∈ text then t else t ++ [10]

/-- The error of a faulting execution, if it faults. -/
def faultOf {α : Type} : Except Fault α → Option Fault
  | Except.error e => some e
  | Except.ok _ => none

/-- The occupied slots of a table: those whose ID is not 0. -/
def occupied (tab : symbolTable) : Finset (Fin SYMBOL_TABLE_LENGTH) :=
  Finset.univ.filter (fun i => (tab.token i).ID ≠ 0)

/-- The filled-slot invariant: the count is at most 32, it is the number of
occupied slots, and every occupied slot holds a token of ID 22. -/
def Invariant (s : State) : Prop :=
  s.symbolCount ≤ SYMBOL_TABLE_LENGTH ∧
  s.symbolCount = (occupied s.symTable).card ∧
  ∀ i, (s.symTable.token i).ID ≠ 0 → (s.symTable.token i).ID = 22

/-! ## Concrete values used in the examples -/

/-- The token the lexer builds for an identifier: the text in a NUL-padded
buffer, `index` the number of characters, `ID` 22. -/
def ident (s : String) : token :=
  { string := buf s, index := (lit s).length, ID := 22 }

/-- Uninitialised memory that happens to be all zero. -/
def zeroMemory : symbolTable :=
  ⟨fun _ => { string := List.replicate TOKEN_LENGTH 0, index := 0, ID := 0 }⟩

/-- The table `constructSymbolTable` makes of `zeroMemory`: every slot has an
empty string and ID 0. -/
def blankTable : symbolTable :=
  ⟨fun _ => { string := List.replicate TOKEN_LENGTH 0, index := 0, ID := 0 }⟩

/-- An overrun outcome, for the examples: the comparison goes on into `index`. -/
def sameIndex : Overrun := fun a b => a.index == b.index

/-- The table after `X` and `Y` were declared in `blankTable`: `X` hashes to
slot 24 and `Y` to slot 25. -/
def tableXY : symbolTable :=
  (blankTable.write 24 (ident "X")).write 25 (ident "Y")

/-- A table one of whose slots holds the lexeme `BEGIN`. -/
def tableBEGIN : symbolTable := blankTable.write 0 (ident "BEGIN")

/-- Thirty-three pairwise distinct identifier lexemes; the first two, `EZ` and
`FY`, both hash to slot 31 (69 + 90 = 70 + 89 = 159 = 4 * 32 + 31). -/
def names33 : List String :=
  ["EZ", "FY", "A", "B", "C", "D", "E", "F", "G", "H", "I", "J", "K", "L", "M", "N", "O",
   "P", "Q", "R", "S", "T", "U", "V", "W", "X", "Y", "Z", "AA", "AB", "AC", "AD", "AE"]

/-- The overrun outcome that is always "different". -/
def noPast : Overrun := fun _ _ => false

/-- Whether every slot of the table holds its terminator. -/
def slotsTerminated (tab : symbolTable) : Bool :=
  decide (∀ i, 0 ∈ (tab.token i).string)

/-- Whether every entry of the token table holds its terminator. -/
def entriesTerminated (table : tokenTable) : Bool :=
  decide (∀ i, 0 ∈ (table.token i).string)

/-- Whether, in the run of `tokenizeLine` with `noPast`, every round starts with
a symbol table all of whose slots hold their terminators (so that no `strcmp`
of the run leaves a buffer). -/
def terminatedRun (table : tokenTable) : Nat → Main → Bool
  | 0, _ => true
  | fuel + 1, m =>
    slotsTerminated m.symTable &&
    match mainStep noPast table 0 m with
    | Except.error _ => true
    | Except.ok (_, m1) =>
      match m1.scan.currentLine.charAt m1.scan.currentLine.index with
      | Except.error _ => true
      | Except.ok c => if c = 10 then true else terminatedRun table fuel m1

/-- The variables of `main` before its loop, for an input file with the given
text and zeroed memory for the uninitialised `currentLine` (so that its
`lineNumber` is 0) and symbol table. -/
def startOf (text : String) : Main :=
  { scan :=
      { inputFile := { data := lit text, eof := false }
        currentLine := { string := List.replicate LINE_LENGTH 0, lineNumber := 0, index := 0 }
        output := [] }
    symTable := blankTable, beginReached := false, symbolCount := 0 }

/-- The token with the given text (NUL-padded), `index` its length, and ID. -/
def tok (s : String) (k : Int) : token :=
  { string := buf s, index := (lit s).length, ID := k }

/-- The token table with the given entries, in order; cells past the end of the
list are empty entries of kind 0. -/
def tableOf (entries : List (String × Int)) : tokenTable :=
  ⟨fun i =>
    match entries.get? i.val with
    | some (s, k) => { string := buf s, index := 0, ID := k }
    | none => { string := buf "", index := 0, ID := 0 }⟩

/-- A token table of 23 entries for the simplified Pascal of the program, with
`id` = 22 and `int` = 23. -/
def stdTable : tokenTable :=
  tableOf [("PROGRAM", 1), ("VAR", 2), ("BEGIN", 3), ("END", 4), ("END.", 5), ("INTEGER", 6),
    ("FOR", 7), ("READ", 8), ("WRITE", 9), ("TO", 10), ("DO", 11), (";", 12), (":", 13),
    (",", 14), (":=", 15), ("+", 16), ("-", 17), ("*", 18), ("DIV", 19), ("(", 20), (")", 21),
    ("id", 22), ("int", 23)]

/-- The same table with the kind 24 for `id`. -/
def tableId24 : tokenTable :=
  tableOf [("PROGRAM", 1), ("VAR", 2), ("BEGIN", 3), ("END", 4), ("END.", 5), ("INTEGER", 6),
    ("FOR", 7), ("READ", 8), ("WRITE", 9), ("TO", 10), ("DO", 11), (";", 12), (":", 13),
    (",", 14), (":=", 15), ("+", 16), ("-", 17), ("*", 18), ("DIV", 19), ("(", 20), (")", 21),
    ("id", 24), ("int", 23)]

/-- The token `buildToken` returns for the text, before `assignID` gives it an ID. -/
def rawToken (s : String) : token :=
  { string := buf s, index := (lit s).length, ID := 0 }

/-- The source line of the end-to-end scenario. -/
def scenarioText : String := "VAR X, Y: INTEGER; BEGIN X := 5; END."

/-- The tokens of the scenario in order, each with the values of `symbolCount`
and `beginReached` after its round. -/
def scenarioTrace : List (token × Int × Bool) :=
  [(tok "VAR" 2, 0, false), (tok "X" 22, 1, false), (tok "," 14, 1, false),
   (tok "Y" 22, 2, false), (tok ":" 13, 2, false), (tok "INTEGER" 6, 2, false),
   (tok ";" 12, 2, false), (tok "BEGIN" 3, 2, true), (tok "X" 22, 2, true),
   (tok ":=" 15, 2, true), (tok "5" 23, 2, true), (tok ";" 12, 2, true),
   (tok "END." 5, 2, true)]

/-- The output of the scenario: the echoed line and one record per token. -/
def scenarioOutput : List Output :=
  [Output.lineEcho 1 (lit scenarioText ++ 10 :: List.replicate 43 0),
   Output.tokenRecord 2 none (buf "VAR"),
   Output.tokenRecord 22 (some '^') (buf "X"),
   Output.tokenRecord 14 none (buf ","),
   Output.tokenRecord 22 (some '^') (buf "Y"),
   Output.tokenRecord 13 none (buf ":"),
   Output.tokenRecord 6 none (buf "INTEGER"),
   Output.tokenRecord 12 none (buf ";"),
   Output.tokenRecord 3 none (buf "BEGIN"),
   Output.tokenRecord 22 (some '^') (buf "X"),
   Output.tokenRecord 15 none (buf ":="),
   Output.tokenRecord 23 (some '#') (buf "5"),
   Output.tokenRecord 12 none (buf ";"),
   Output.tokenRecord 5 none (buf "END.")]

/-- The token `buildToken` is building once it has stored the characters `w`:
the characters in a NUL-padded buffer, `index` their number. -/
def partialToken (w : List Nat) : token :=
  { string := w ++ List.replicate (TOKEN_LENGTH - w.length) 0, index := w.length, ID := 0 }

/-- A line buffer holding the given (normalised) text, NUL-padded, as line 1 with
the cursor at its start. -/
def lineOf (text : String) : line :=
  { string := lit text ++ List.replicate (LINE_LENGTH - (lit text).length) 0
    lineNumber := 1, index := 0 }

/-- The lexer state on the given line when the input file has been read to its
end without the end-of-file indicator being set yet. -/
def scanOf (text : String) : Scan :=
  { inputFile := { data := [], eof := false }, currentLine := lineOf text, output := [] }

/-- The table in which slot 31 holds the identifier `EZ`. -/
def tableEZ : symbolTable := blankTable.write 31 (ident "EZ")

/-- The input file of the comment example: a comment opened on line 1 and
closed at the very start of line 2, followed by `x` and by a line `y`. -/
def commentText : String := "(* a\n*) x\ny\n"

/-- A one-line input file without a final newline: a closed comment and `x`. -/
def lastLineText : String := "(* c *) x"

/-- The line number and the text of an echoed line; `none` for any other item
of the output. -/
def echoOf : Output → Option (Int × List Nat)
  | Output.lineEcho n text => some (n, cstr text)
  | _ => none

/-- The state in which `EZ` has been declared: slot 31 holds it, the count is 1. -/
def stateEZ : State :=
  { symTable := tableEZ, beginReached := false, symbolCount := 1, output := [] }

/-- A line of thirteen underscores. -/
def ruleText : String := "_____________\n"

/-- An identifier-kind token whose buffer holds `A` and two bytes of code 128
(the `char` value -128). -/
def highToken : token :=
  { string := 65 :: 128 :: 128 :: List.replicate 9 0, index := 3, ID := 22 }

/-- The token of the twelve-letter identifier `ABCDEFGHIJKL`: the letters fill
the buffer, `index` is 12, and the ID is the one `assignID` gives, 22. -/
def fullToken : token := { string := lit "ABCDEFGHIJKL", index := 12, ID := 22 }

/-- The token `buildToken` returns for the twelve letters, before `assignID`. -/
def longToken : token := { string := lit "ABCDEFGHIJKL", index := 12, ID := 0 }

/-- The token table `stdTable` with the twelve-letter keyword `ABCDEFGHIJKL` in
place of `PROGRAM`; as in every table `constructTokenTable` reads, the byte
behind the twelve letters, the first one of `index`, is the NUL that `fscanf`
stored, so `index` is 0. -/
def tableLong : tokenTable :=
  tableOf [("ABCDEFGHIJKL", 1), ("VAR", 2), ("BEGIN", 3), ("END", 4), ("END.", 5), ("INTEGER", 6),
    ("FOR", 7), ("READ", 8), ("WRITE", 9), ("TO", 10), ("DO", 11), (";", 12), (":", 13),
    (",", 14), (":=", 15), ("+", 16), ("-", 17), ("*", 18), ("DIV", 19), ("(", 20), (")", 21),
    ("id", 22), ("int", 23)]

/-- Uninitialised memory for the symbol table in which every slot holds the
stray string `abc`, index 5 and ID 7. -/
def strayMemory : symbolTable := ⟨fun _ => { string := buf "abc", index := 5, ID := 7 }⟩

/-- Uninitialised memory for the symbol table in which the buffer of every slot
holds twelve `x` and no NUL. -/
def fullMemory : symbolTable :=
  ⟨fun _ => { string := List.replicate TOKEN_LENGTH 120, index := 0, ID := 0 }⟩

/-- The state in Executable phase with the empty table. -/
def executableState : State :=
  { symTable := blankTable, beginReached := true, symbolCount := 0, output := [] }

/-- The twelve-character lexeme `ABCDEFGHIJK.` as `buildToken` returns it at
the end of a line (`index` 12) and in front of a further character, which the
`case '.'` skips (`index` 13). -/
def dotToken (index : Nat) : token := { string := lit "ABCDEFGHIJK.", index := index, ID := 22 }

/-- The token `t1` continues the token `t`: its index is not smaller, its buffer
has the same number of cells, and the cells before the index of `t` are the
same. -/
def keepsPrefix (t t1 : token) : Prop :=
  t.index ≤ t1.index ∧ t1.string.length = t.string.length ∧
    ∀ j, j < t.index → t1.string[j]? = t.string[j]?

/-! ## Basic facts about the symbol table -/

theorem getHash_lt (t : token) : getHash t < SYMBOL_TABLE_LENGTH :=
  Int.tmod_lt_of_pos _ (by decide)

theorem getHash_toNat_lt (t : token) : (getHash t).toNat < SYMBOL_TABLE_LENGTH := by
  have h := getHash_lt t
  simp only [SYMBOL_TABLE_LENGTH] at h ⊢
  omega

theorem charValue_nonneg (c : Nat) (h : c < 128) : 0 ≤ charValue c := by
  unfold charValue
  omega

theorem sum_charValue_nonneg (l : List Nat) (h : ∀ c ∈ l, c < 128) :
    0 ≤ (l.map charValue).sum := by
  induction l with
  | nil => simp
  | cons c cs ih =>
    have h1 := charValue_nonneg c (h c (List.mem_cons_self c cs))
    have h2 := ih (fun x hx => h x (List.mem_cons_of_mem c hx))
    simp only [List.map_cons, List.sum_cons]
    omega

/-- On a buffer of ASCII characters (codes below 128) the hash is not negative. -/
theorem getHash_nonneg (t : token) (h : ∀ c ∈ t.string, c < 128) : 0 ≤ getHash t :=
  Int.tmod_nonneg _
    (sum_charValue_nonneg _ (fun c hc => h c (List.mem_of_mem_take hc)))

theorem read_of_lt (tab : symbolTable) (i : Nat) (h : i < SYMBOL_TABLE_LENGTH) :
    tab.read i = some (tab.token ⟨i, h⟩) := by
  simp [symbolTable.read, h]

theorem wrap_lt (slot : Nat) (h : slot ≤ SYMBOL_TABLE_LENGTH) :
    (if slot = SYMBOL_TABLE_LENGTH then 0 else slot) < SYMBOL_TABLE_LENGTH := by
  unfold SYMBOL_TABLE_LENGTH at *
  split <;> omega

/-- One round of the lookup loop, with the wrapped slot named. -/
theorem searchLoop_succ (past : Overrun) (t : token) (tab : symbolTable)
    (n slot : Nat) (acc : Bool) (hslot : slot ≤ SYMBOL_TABLE_LENGTH) :
    ∃ w : Fin SYMBOL_TABLE_LENGTH,
      w.val = (if slot = SYMBOL_TABLE_LENGTH then 0 else slot) ∧
      searchLoop past t tab (n + 1) slot acc =
        if (tab.token w).ID = 0 then some (acc || strcmp past (tab.token w) t)
        else searchLoop past t tab n (w.val + 1) (acc || strcmp past (tab.token w) t) := by
  refine ⟨⟨_, wrap_lt slot hslot⟩, rfl, ?_⟩
  simp only [searchLoop, read_of_lt tab _ (wrap_lt slot hslot)]

/-- The lookup loop never leaves the table when it starts at a slot in `0..32`. -/
theorem searchLoop_isSome (past : Overrun) (t : token) (tab : symbolTable) :
    ∀ (n slot : Nat) (acc : Bool), slot ≤ SYMBOL_TABLE_LENGTH →
      ∃ b, searchLoop past t tab n slot acc = some b := by
  intro n
  induction n with
  | zero => intro slot acc _; exact ⟨acc, rfl⟩
  | succ n ih =>
    intro slot acc hslot
    obtain ⟨w, _, hstep⟩ := searchLoop_succ past t tab n slot acc hslot
    rw [hstep]
    by_cases h0 : (tab.token w).ID = 0
    · rw [if_pos h0]; exact ⟨_, rfl⟩
    · rw [if_neg h0]; exact ih _ _ w.isLt

/-- When no slot compares equal to the token the lookup loop keeps its flag. -/
theorem searchLoop_no_match (past : Overrun) (t : token) (tab : symbolTable)
    (hno : ∀ i, strcmp past (tab.token i) t = false) :
    ∀ (n slot : Nat) (acc : Bool), slot ≤ SYMBOL_TABLE_LENGTH →
      searchLoop past t tab n slot acc = some acc := by
  intro n
  induction n with
  | zero => intro slot acc _; rfl
  | succ n ih =>
    intro slot acc hslot
    obtain ⟨w, _, hstep⟩ := searchLoop_succ past t tab n slot acc hslot
    rw [hstep, hno w, Bool.or_false]
    by_cases h0 : (tab.token w).ID = 0
    · rw [if_pos h0]
    · rw [if_neg h0]; exact ih _ _ w.isLt

theorem searchForSymbol_isSome (past : Overrun) (t : token) (tab : symbolTable)
    (hh : 0 ≤ getHash t) :
    ∃ b, searchForSymbol past t tab = some b := by
  unfold searchForSymbol
  simp only []
  rw [if_neg (by omega)]
  exact searchLoop_isSome past t tab _ _ _ (Nat.le_of_lt (getHash_toNat_lt t))

/-- In Executable phase one call of `checkSymbol` returns, and changes nothing
but the output. -/
theorem checkSymbol_executable (past : Overrun) (t : token) (s : State)
    (h : s.beginReached = true) (hh : 0 ≤ getHash t) :
    ∃ s1, checkSymbol past t s = some s1 ∧ s1.beginReached = true ∧
      s1.symTable = s.symTable ∧ s1.symbolCount = s.symbolCount := by
  unfold checkSymbol
  by_cases hB : strcmpLit t.string "BEGIN" = true
  · rw [if_pos hB]; exact ⟨_, rfl, rfl, rfl, rfl⟩
  · rw [if_neg hB, if_neg (by simp [h])]
    by_cases hid : t.ID = 22
    · rw [if_pos ⟨hid, h⟩]
      obtain ⟨b, hb⟩ := searchForSymbol_isSome past t s.symTable hh
      rw [hb]
      cases b
      · exact ⟨_, rfl, h, rfl, rfl⟩
      · exact ⟨_, rfl, h, rfl, rfl⟩
    · rw [if_neg (by simp [hid])]
      exact ⟨_, rfl, h, rfl, rfl⟩

theorem feed_executable (past : Overrun) (toks : List token)
    (hh : ∀ t ∈ toks, 0 ≤ getHash t) :
    ∀ s : State, s.beginReached = true →
      ∃ s1, feed past s toks = some s1 ∧ s1.beginReached = true ∧
        s1.symTable = s.symTable ∧ s1.symbolCount = s.symbolCount := by
  induction toks with
  | nil => intro s h; exact ⟨s, rfl, h, rfl, rfl⟩
  | cons t ts ih =>
    intro s h
    obtain ⟨s1, h1, hb, htab, hcnt⟩ := checkSymbol_executable past t s h
      (hh t (List.mem_cons_self t ts))
    obtain ⟨s2, h2, hb2, htab2, hcnt2⟩ := ih (fun x hx => hh x (List.mem_cons_of_mem t hx)) s1 hb
    refine ⟨s2, ?_, hb2, htab2.trans htab, hcnt2.trans hcnt⟩
    simp only [feed, h1, h2]

/-- With enough rounds the probe loop has no result exactly when every slot from
its start to the last one is occupied: it then reads `token[32]`. -/
theorem probe_none (tab : symbolTable) :
    ∀ (fuel slot : Nat), slot ≤ SYMBOL_TABLE_LENGTH → SYMBOL_TABLE_LENGTH - slot < fuel →
      (probe tab fuel slot = none ↔
        ∀ j : Fin SYMBOL_TABLE_LENGTH, slot ≤ j.val → (tab.token j).ID ≠ 0) := by
  intro fuel
  induction fuel with
  | zero => intro slot _ h; omega
  | succ n ih =>
    intro slot hle hfuel
    unfold probe
    by_cases hlt : slot < SYMBOL_TABLE_LENGTH
    · rw [dif_pos hlt]
      by_cases h0 : (tab.token ⟨slot, hlt⟩).ID ≠ 0
      · rw [if_pos h0, if_neg (Nat.ne_of_lt hlt), if_pos hlt, ih (slot + 1) hlt (by omega)]
        constructor
        · intro h j hj
          by_cases hjs : j.val = slot
          · have : j = ⟨slot, hlt⟩ := Fin.ext hjs
            rw [this]; exact h0
          · exact h j (by omega)
        · intro h j hj
          exact h j (by omega)
      · rw [if_neg h0]
        constructor
        · intro h; cases h
        · intro h; exact absurd (h ⟨slot, hlt⟩ (Nat.le_refl _)) h0
    · rw [dif_neg hlt]
      constructor
      · intro _ j hj
        exact absurd (Nat.lt_of_le_of_lt hj j.isLt) hlt
      · intro _; rfl

/-- The probe loop stops only at a slot whose ID is 0. -/
theorem probe_some (tab : symbolTable) :
    ∀ (fuel slot : Nat) (j : Fin SYMBOL_TABLE_LENGTH),
      probe tab fuel slot = some j → (tab.token j).ID = 0 := by
  intro fuel
  induction fuel with
  | zero => intro slot j h; simp [probe] at h
  | succ n ih =>
    intro slot j h
    unfold probe at h
    by_cases hlt : slot < SYMBOL_TABLE_LENGTH
    · rw [dif_pos hlt] at h
      by_cases h0 : (tab.token ⟨slot, hlt⟩).ID ≠ 0
      · rw [if_pos h0] at h
        have hne : slot ≠ SYMBOL_TABLE_LENGTH := Nat.ne_of_lt hlt
        rw [if_neg hne, if_pos hlt] at h
        exact ih _ _ h
      · rw [if_neg h0] at h
        have hj : (⟨slot, hlt⟩ : Fin SYMBOL_TABLE_LENGTH) = j := Option.some.inj h
        rw [← hj]
        exact not_not.mp h0
    · rw [dif_neg hlt] at h
      cases h

theorem occupied_write (tab : symbolTable) (j : Fin SYMBOL_TABLE_LENGTH) (t : token)
    (ht : t.ID ≠ 0) : occupied (tab.write j t) = insert j (occupied tab) := by
  ext i
  by_cases hij : i = j
  · subst hij
    simp [occupied, symbolTable.write, ht]
  · simp [occupied, symbolTable.write, Function.update_noteq hij, hij]

theorem constructSymbolTable_ID (uninit tab : symbolTable)
    (h : constructSymbolTable uninit = some tab) (i : Fin SYMBOL_TABLE_LENGTH) :
    (tab.token i).ID = 0 := by
  unfold constructSymbolTable at h
  split at h
  · cases h; rfl
  · cases h

theorem Invariant_initState (uninit tab : symbolTable)
    (h : constructSymbolTable uninit = some tab) : Invariant (initState tab) := by
  have h0 : occupied tab = ∅ := by
    ext i
    simp [occupied, constructSymbolTable_ID uninit tab h i]
  refine ⟨by simp [initState], by simp [initState, h0], ?_⟩
  intro i hi
  exact absurd (constructSymbolTable_ID uninit tab h i) hi

theorem Invariant_addSymbol (past : Overrun) (t : token) (s s1 : State)
    (hid : t.ID = 22) (hcount : s.symbolCount < SYMBOL_TABLE_LENGTH)
    (hinv : Invariant s) (h : addSymbol past t s = some s1) : Invariant s1 := by
  unfold addSymbol at h
  by_cases hd : isDuplicate past t s.symTable = true
  · rw [if_pos hd] at h
    cases h
    exact hinv
  · rw [if_neg hd] at h
    simp only [] at h
    by_cases hneg : getHash t < 0
    · rw [if_pos hneg] at h; cases h
    rw [if_neg hneg] at h
    cases hp : probe s.symTable (SYMBOL_TABLE_LENGTH + 1) (getHash t).toNat with
    | none => rw [hp] at h; cases h
    | some j =>
      rw [hp] at h
      cases h
      have hj : (s.symTable.token j).ID = 0 := probe_some _ _ _ _ hp
      have hnot : j ∉ occupied s.symTable := by simp [occupied, hj]
      have ht : t.ID ≠ 0 := by rw [hid]; decide
      obtain ⟨_, hc, hk⟩ := hinv
      refine ⟨?_, ?_, ?_⟩
      · show s.symbolCount + 1 ≤ SYMBOL_TABLE_LENGTH
        omega
      · show s.symbolCount + 1 = ((occupied (s.symTable.write j t)).card : Int)
        rw [occupied_write _ _ _ ht, Finset.card_insert_of_not_mem hnot, hc]
        push_cast
        rfl
      · intro i
        show ((s.symTable.write j t).token i).ID ≠ 0 → ((s.symTable.write j t).token i).ID = 22
        by_cases hij : i = j
        · subst hij
          simp [symbolTable.write, hid]
        · simpa [symbolTable.write, Function.update_noteq hij] using hk i

theorem Invariant_checkSymbol (past : Overrun) (t : token) (s s1 : State)
    (hinv : Invariant s) (h : checkSymbol past t s = some s1) : Invariant s1 := by
  unfold checkSymbol at h
  by_cases hB : strcmpLit t.string "BEGIN" = true
  · rw [if_pos hB] at h; cases h; exact hinv
  · rw [if_neg hB] at h
    by_cases hdecl : t.ID = 22 ∧ s.beginReached = false
    · rw [if_pos hdecl] at h
      by_cases hc : s.symbolCount < SYMBOL_TABLE_LENGTH
      · rw [if_pos hc] at h
        exact Invariant_addSymbol past t s s1 hdecl.1 hc hinv h
      · rw [if_neg hc] at h; cases h; exact hinv
    · rw [if_neg hdecl] at h
      by_cases hex : t.ID = 22 ∧ s.beginReached = true
      · rw [if_pos hex] at h
        cases hs : searchForSymbol past t s.symTable with
        | none => rw [hs] at h; cases h
        | some b =>
          rw [hs] at h
          cases b
          · cases h; exact hinv
          · cases h; exact hinv
      · rw [if_neg hex] at h; cases h; exact hinv

theorem Invariant_feed (past : Overrun) (toks : List token) :
    ∀ s s1 : State, Invariant s → feed past s toks = some s1 → Invariant s1 := by
  induction toks with
  | nil => intro s s1 hinv h; cases h; exact hinv
  | cons t ts ih =>
    intro s s1 hinv h
    unfold feed at h
    cases hc : checkSymbol past t s with
    | none => rw [hc] at h; cases h
    | some s2 =>
      rw [hc] at h
      exact ih s2 s1 (Invariant_checkSymbol past t s s2 hinv hc) h

theorem constructSymbolTable_zeroMemory : constructSymbolTable zeroMemory = some blankTable := by
  unfold constructSymbolTable
  rw [dif_pos (by intro i; rfl)]
  rfl

/-! ## Basic facts about the classifier -/

theorem cstr_headD (s : List Nat) : (cstr s).headD 0 = s.headD 0 := by
  cases s with
  | nil => rfl
  | cons c rest =>
    by_cases hc : c = 0
    · subst hc; rfl
    · simp [cstr, List.takeWhile_cons, hc]

/-- A table entry that holds its terminator compares equal to a token exactly
when the two C strings are equal. -/
theorem strcmp_terminated (past : Overrun) (a b : token) (ha : 0 ∈ a.string) :
    strcmp past a b = decide (cstr a.string = cstr b.string) := by
  unfold strcmp
  by_cases h : cstr a.string = cstr b.string
  · simp [h, ha]
  · simp [h]

theorem strcmp_ne (past : Overrun) (a b : token) (h : cstr a.string ≠ cstr b.string) :
    strcmp past a b = false := by
  unfold strcmp
  rw [if_neg h]

/-- A loop that gives the token the ID `f i` of every entry `i` selected by a
test which only looks at the string of the token: the string and the index are
kept; the ID is kept when no entry is selected, and is `k` when some entry is
selected and all selected entries have ID `k`. -/
theorem assignLoop (n : Nat) (c : token → Fin n → Bool) (q : Fin n → Bool) (f : Fin n → Int) :
    ∀ (l : List (Fin n)) (tok : token),
      (∀ tok1 : token, tok1.string = tok.string → ∀ i, c tok1 i = q i) →
      (l.foldl (fun tok i => if c tok i then { tok with ID := f i } else tok) tok).string
          = tok.string ∧
      (l.foldl (fun tok i => if c tok i then { tok with ID := f i } else tok) tok).index
          = tok.index ∧
      ((∀ i ∈ l, q i = false) →
        (l.foldl (fun tok i => if c tok i then { tok with ID := f i } else tok) tok).ID
          = tok.ID) ∧
      (∀ k, (∃ i ∈ l, q i = true) → (∀ i ∈ l, q i = true → f i = k) →
        (l.foldl (fun tok i => if c tok i then { tok with ID := f i } else tok) tok).ID = k) := by
  intro l
  induction l with
  | nil =>
    intro tok _
    refine ⟨rfl, rfl, fun _ => rfl, ?_⟩
    intro k ⟨i, hi, _⟩
    cases hi
  | cons j l ih =>
    intro tok hc
    simp only [List.foldl_cons]
    by_cases hq : q j = true
    · have hcj : c tok j = true := by rw [hc tok rfl j, hq]
      simp only [hcj, if_true]
      obtain ⟨h1, h2, h3, h4⟩ := ih { tok with ID := f j } (fun tok1 h1 i => hc tok1 h1 i)
      refine ⟨h1, h2, ?_, ?_⟩
      · intro hno
        have := hno j (List.mem_cons_self j l)
        rw [hq] at this
        cases this
      · intro k _ hall
        have hfj : f j = k := hall j (List.mem_cons_self j l) hq
        by_cases hex : ∃ i ∈ l, q i = true
        · exact h4 k hex (fun i hi hqi => hall i (List.mem_cons_of_mem j hi) hqi)
        · have hno : ∀ i ∈ l, q i = false := by
            intro i hi
            by_contra hne
            exact hex ⟨i, hi, by simpa using hne⟩
          rw [h3 hno]
          exact hfj
    · have hqf : q j = false := by simpa using hq
      have hcj : c tok j = false := by rw [hc tok rfl j, hqf]
      simp only [hcj, Bool.false_eq_true, if_false]
      obtain ⟨h1, h2, h3, h4⟩ := ih tok hc
      refine ⟨h1, h2, ?_, ?_⟩
      · intro hno
        exact h3 (fun i hi => hno i (List.mem_cons_of_mem j hi))
      · intro k hex hall
        obtain ⟨i, hi, hqi⟩ := hex
        have hil : i ∈ l := by
          rcases List.mem_cons.mp hi with h | h
          · subst h; rw [hqf] at hqi; cases hqi
          · exact h
        exact h4 k ⟨i, hil, hqi⟩ (fun i hi hqi => hall i (List.mem_cons_of_mem j hi) hqi)

/-- The fallback loops of `assignID`. -/
theorem assignReserved_spec (table : tokenTable) (name : String) (tok : token) :
    (assignReserved table name tok).string = tok.string ∧
    (assignReserved table name tok).index = tok.index ∧
    ((∀ i, cstr (table.token i).string ≠ lit name) → (assignReserved table name tok).ID = tok.ID) ∧
    (∀ k, (∃ i, cstr (table.token i).string = lit name) →
      (∀ i, cstr (table.token i).string = lit name → (table.token i).ID = k) →
      (assignReserved table name tok).ID = k) := by
  obtain ⟨h1, h2, h3, h4⟩ := assignLoop TOKEN_TABLE_LENGTH
    (fun _ i => strcmpLit (table.token i).string name)
    (fun i => strcmpLit (table.token i).string name)
    (fun i => (table.token i).ID) (List.finRange TOKEN_TABLE_LENGTH) tok (fun _ _ _ => rfl)
  refine ⟨h1, h2, ?_, ?_⟩
  · intro hno
    exact h3 (fun i _ => by simpa [strcmpLit] using hno i)
  · intro k ⟨i, hi⟩ hall
    exact h4 k ⟨i, List.mem_finRange i, by simpa [strcmpLit] using hi⟩
      (fun i _ hqi => hall i (by simpa [strcmpLit] using hqi))

/-- The exact-match loop of `assignID` when no entry has the C string of the token. -/
theorem assignExact_no_match (past : Overrun) (table : tokenTable) (tok : token)
    (hno : ∀ i, cstr (table.token i).string ≠ cstr tok.string) :
    (assignExact past table tok).string = tok.string ∧
    (assignExact past table tok).index = tok.index ∧
    (assignExact past table tok).ID = tok.ID := by
  obtain ⟨h1, h2, h3, _⟩ := assignLoop TOKEN_TABLE_LENGTH
    (fun tok i => strcmp past (table.token i) tok) (fun _ => false)
    (fun i => (table.token i).ID) (List.finRange TOKEN_TABLE_LENGTH) tok
    (fun tok1 h1 i => by
      show strcmp past (table.token i) tok1 = _
      exact strcmp_ne past _ _ (by rw [h1]; exact hno i))
  exact ⟨h1, h2, h3 (fun _ _ => rfl)⟩

/-- The exact-match loop of `assignID` on a table whose entries hold their
terminators. -/
theorem assignExact_match (past : Overrun) (table : tokenTable) (tok : token)
    (hterm : ∀ i, 0 ∈ (table.token i).string) (k : Int)
    (hex : ∃ i, cstr (table.token i).string = cstr tok.string)
    (hall : ∀ i, cstr (table.token i).string = cstr tok.string → (table.token i).ID = k) :
    (assignExact past table tok).string = tok.string ∧
    (assignExact past table tok).ID = k := by
  obtain ⟨h1, _, _, h4⟩ := assignLoop TOKEN_TABLE_LENGTH
    (fun tok i => strcmp past (table.token i) tok)
    (fun i => decide (cstr (table.token i).string = cstr tok.string))
    (fun i => (table.token i).ID) (List.finRange TOKEN_TABLE_LENGTH) tok
    (fun tok1 h1 i => by
      show strcmp past (table.token i) tok1 = _
      rw [strcmp_terminated past _ _ (hterm i), h1])
  obtain ⟨i, hi⟩ := hex
  exact ⟨h1, h4 k ⟨i, List.mem_finRange i, by simpa using hi⟩
    (fun i _ hqi => hall i (by simpa using hqi))⟩

theorem kindOf_none (table : tokenTable) (L : List Nat) (h : kindOf table L = none) :
    ∀ i, cstr (table.token i).string ≠ L := by
  intro i hi
  unfold kindOf at h
  rw [Option.map_eq_none'] at h
  have := List.find?_eq_none.mp h i (List.mem_finRange i)
  simp [hi] at this

theorem kindOf_some (table : tokenTable) (L : List Nat) (k : Int) (h : kindOf table L = some k) :
    ∃ i, cstr (table.token i).string = L ∧ (table.token i).ID = k := by
  unfold kindOf at h
  rw [Option.map_eq_some'] at h
  obtain ⟨i, hfind, hk⟩ := h
  have := List.find?_some hfind
  exact ⟨i, by simpa using this, hk⟩

/-- On a table with pairwise distinct lexemes, the kind of the entry with lexeme
`L` as `kindOf` gives it is the kind of every entry with that lexeme. -/
theorem kindOf_unique (table : tokenTable) (L : List Nat)
    (hdistinct : ∀ i j, cstr (table.token i).string = cstr (table.token j).string → i = j) :
    (kindOf table L).getD 0 = 0 ∧ (∀ i, cstr (table.token i).string ≠ L) ∨
    (∃ i, cstr (table.token i).string = L) ∧
      ∀ i, cstr (table.token i).string = L → (table.token i).ID = (kindOf table L).getD 0 := by
  cases h : kindOf table L with
  | none => exact Or.inl ⟨rfl, kindOf_none table L h⟩
  | some k =>
    obtain ⟨i, hi, hk⟩ := kindOf_some table L k h
    refine Or.inr ⟨⟨i, hi⟩, ?_⟩
    intro j hj
    have : j = i := hdistinct j i (by rw [hi, hj])
    subst this
    exact hk

/-! ## The table `constructSymbolTable` returns -/

theorem cstr_strset (c : Nat) (hc : c ≠ 0) :
    ∀ s : List Nat,
      cstr (List.replicate (cstr s).length c ++ s.drop (cstr s).length) =
        List.replicate (cstr s).length c := by
  intro s
  induction s with
  | nil => rfl
  | cons x xs ih =>
    by_cases hx : x = 0
    · subst hx; rfl
    · have h1 : cstr (x :: xs) = x :: cstr xs := by simp [cstr, List.takeWhile_cons, hx]
      rw [h1]
      simp only [List.length_cons, List.replicate_succ, List.drop_succ_cons, List.cons_append]
      have h2 : ∀ l, cstr (c :: l) = c :: cstr l := by
        intro l; simp [cstr, List.takeWhile_cons, hc]
      rw [h2, ih]

/-- Every slot of the table `constructSymbolTable` returns holds a run of
spaces as its C string. -/
theorem constructSymbolTable_cstr (uninit tab : symbolTable)
    (h : constructSymbolTable uninit = some tab) (i : Fin SYMBOL_TABLE_LENGTH) :
    cstr (tab.token i).string =
      List.replicate (cstr (uninit.token i).string).length 32 := by
  unfold constructSymbolTable at h
  split at h
  · rename_i hs
    cases h
    have hi := hs i
    show cstr ((strset (uninit.token i).string 32).get hi) = _
    have hval : strset (uninit.token i).string 32 =
        some (List.replicate (cstr (uninit.token i).string).length 32 ++
          (uninit.token i).string.drop (cstr (uninit.token i).string).length) := by
      unfold strset at hi ⊢
      by_cases h0 : 0 ∈ (uninit.token i).string
      · rw [if_pos h0]
      · rw [if_neg h0] at hi; cases hi
    simp only [hval, Option.get_some]
    exact cstr_strset 32 (by decide) _
  · cases h

/-- A token whose first character is a letter compares equal to no slot of the
table `constructSymbolTable` returns. -/
theorem strcmp_blank (past : Overrun) (uninit tab : symbolTable)
    (h : constructSymbolTable uninit = some tab) (t : token)
    (hletter : isalpha (t.string.headD 0) = true) (i : Fin SYMBOL_TABLE_LENGTH) :
    strcmp past (tab.token i) t = false := by
  apply strcmp_ne
  intro heq
  rw [constructSymbolTable_cstr uninit tab h i] at heq
  have hh : (cstr t.string).headD 0 = t.string.headD 0 := cstr_headD _
  rw [← heq] at hh
  rw [← hh] at hletter
  cases hk : (cstr (uninit.token i).string).length with
  | zero => rw [hk] at hletter; revert hletter; decide
  | succ n => rw [hk] at hletter; revert hletter; simp [List.replicate_succ, isalpha]

/-- The probe loop stops at once at a slot whose ID is 0. -/
theorem probe_empty (tab : symbolTable) (fuel slot : Nat) (h : slot < SYMBOL_TABLE_LENGTH)
    (h0 : (tab.token ⟨slot, h⟩).ID = 0) : probe tab (fuel + 1) slot = some ⟨slot, h⟩ := by
  unfold probe
  rw [dif_pos h, if_neg (by simp [h0])]

/-- A loop that only assigns the ID keeps the string and the index. -/
theorem foldl_ID_only (n : Nat) (c : token → Fin n → Bool) (f : Fin n → Int) :
    ∀ (l : List (Fin n)) (tok : token),
      (l.foldl (fun tok i => if c tok i then { tok with ID := f i } else tok) tok).string
          = tok.string ∧
      (l.foldl (fun tok i => if c tok i then { tok with ID := f i } else tok) tok).index
          = tok.index := by
  intro l
  induction l with
  | nil => intro tok; exact ⟨rfl, rfl⟩
  | cons j l ih =>
    intro tok
    simp only [List.foldl_cons]
    by_cases hc : c tok j = true
    · simp only [hc, if_true]
      exact ih _
    · simp only [hc, if_false]
      exact ih _

/-- The function `assignID` changes nothing but the ID. -/
theorem assignID_string (past : Overrun) (table : tokenTable) (tok : token) :
    (assignID past table tok).string = tok.string ∧
    (assignID past table tok).index = tok.index := by
  have hE := foldl_ID_only TOKEN_TABLE_LENGTH (fun tok i => strcmp past (table.token i) tok)
    (fun i => (table.token i).ID) (List.finRange TOKEN_TABLE_LENGTH) { tok with ID := 0 }
  have hR := fun name t => foldl_ID_only TOKEN_TABLE_LENGTH
    (fun _ i => strcmpLit (table.token i).string name)
    (fun i => (table.token i).ID) (List.finRange TOKEN_TABLE_LENGTH) t
  unfold assignID
  simp only []
  split
  · exact ⟨((hR "id" _).1).trans hE.1, ((hR "id" _).2).trans hE.2⟩
  · split
    · exact ⟨((hR "int" _).1).trans hE.1, ((hR "int" _).2).trans hE.2⟩
    · exact hE

/-- A letter-led token without exact match in the table gets the kind of the
`id` entries. -/
theorem assignID_letter (past : Overrun) (table : tokenTable) (tok : token) (k : Int)
    (hid : ∃ i, cstr (table.token i).string = lit "id")
    (hidk : ∀ i, cstr (table.token i).string = lit "id" → (table.token i).ID = k)
    (hletter : isalpha (tok.string.headD 0) = true)
    (hno : ∀ i, cstr (table.token i).string ≠ cstr tok.string) :
    (assignID past table tok).ID = k := by
  obtain ⟨hs, _, hE⟩ := assignExact_no_match past table { tok with ID := 0 } hno
  have hE0 : (assignExact past table { tok with ID := 0 }).ID = 0 := hE
  have hl : isalpha ((assignExact past table { tok with ID := 0 }).string.headD 0) = true := by
    rw [hs]; exact hletter
  unfold assignID
  simp only []
  rw [if_pos ⟨hE0, hl⟩]
  exact (assignReserved_spec table "id" _).2.2.2 k hid hidk

/-- A token that is neither BEGIN nor of ID 22 leaves the state as it is. -/
theorem checkSymbol_other (past : Overrun) (t : token) (s : State)
    (hB : cstr t.string ≠ lit "BEGIN") (hid : t.ID ≠ 22) : checkSymbol past t s = some s := by
  unfold checkSymbol
  rw [if_neg (by simpa [strcmpLit] using hB), if_neg (fun h => hid h.1),
    if_neg (fun h => hid h.1)]

/-! ## Runs in which no `strcmp` leaves a buffer -/

theorem strcmp_agree (past past1 : Overrun) (a b : token) (ha : 0 ∈ a.string) :
    strcmp past a b = strcmp past1 a b := by
  rw [strcmp_terminated past a b ha, strcmp_terminated past1 a b ha]

theorem assignExact_agree (past past1 : Overrun) (table : tokenTable) (t : token)
    (hT : ∀ i, 0 ∈ (table.token i).string) :
    assignExact past table t = assignExact past1 table t := by
  unfold assignExact
  congr 1
  funext tk i
  rw [strcmp_agree past past1 _ _ (hT i)]

theorem assignID_agree (past past1 : Overrun) (table : tokenTable) (t : token) (u : Int)
    (hT : ∀ i, 0 ∈ (table.token i).string) :
    assignID past table { t with ID := u } = assignID past1 table t := by
  unfold assignID
  simp only []
  rw [assignExact_agree past past1 table _ hT]

theorem buildToken_ID (u : Int) (s : Scan) :
    buildToken u s =
      (buildToken 0 s).map (fun p => ({ p.1 with ID := u }, p.2)) := by
  unfold buildToken
  cases skipSpaces (LINE_LENGTH + 1) s.currentLine with
  | error e => rfl
  | ok l =>
    simp only [bind, Except.bind, pure, Except.pure, Except.map]
    cases buildLoop (LINE_LENGTH + 1)
        { string := List.replicate TOKEN_LENGTH 0, index := 0, ID := 0 }
        { s with currentLine := l } with
    | error e => rfl
    | ok r => rfl

/-- The tail of `getToken`: `buildToken` followed by `assignID`. -/
theorem getToken_tail (past past1 : Overrun) (table : tokenTable) (u : Int)
    (hT : ∀ i, 0 ∈ (table.token i).string) :
    (fun s : Scan => (do
        let (currentToken, s) ← buildToken u s
        pure (assignID past table currentToken, s) : Except Fault (token × Scan))) =
    (fun s : Scan => (do
        let (currentToken, s) ← buildToken 0 s
        pure (assignID past1 table currentToken, s) : Except Fault (token × Scan))) := by
  funext s1
  rw [buildToken_ID u s1]
  cases buildToken 0 s1 with
  | error e => rfl
  | ok r =>
    simp only [bind, Except.bind, pure, Except.pure, Except.map]
    rw [assignID_agree past past1 table r.1 u hT]

theorem getToken_agree (past past1 : Overrun) (table : tokenTable) (u : Int) (s : Scan)
    (hT : ∀ i, 0 ∈ (table.token i).string) :
    getToken past table u s = getToken past1 table 0 s := by
  unfold getToken
  simp only [getToken_tail past past1 table u hT]


theorem isDuplicate_agree (past past1 : Overrun) (t : token) (tab : symbolTable)
    (hS : ∀ i, 0 ∈ (tab.token i).string) :
    isDuplicate past t tab = isDuplicate past1 t tab := by
  unfold isDuplicate
  congr 1
  funext i
  rw [strcmp_agree past past1 _ _ (hS i)]

theorem read_terminated (tab : symbolTable) (hS : ∀ i, 0 ∈ (tab.token i).string)
    (i : Nat) (sl : token) (h : tab.read i = some sl) : 0 ∈ sl.string := by
  unfold symbolTable.read at h
  by_cases hi : i < SYMBOL_TABLE_LENGTH
  · rw [dif_pos hi] at h
    rw [← Option.some.inj h]
    exact hS _
  · rw [dif_neg hi] at h
    cases h

theorem searchLoop_agree (past past1 : Overrun) (t : token) (tab : symbolTable)
    (hS : ∀ i, 0 ∈ (tab.token i).string) :
    ∀ (n slot : Nat) (acc : Bool),
      searchLoop past t tab n slot acc = searchLoop past1 t tab n slot acc := by
  intro n
  induction n with
  | zero => intro slot acc; rfl
  | succ n ih =>
    intro slot acc
    unfold searchLoop
    simp only []
    cases hr : tab.read (if slot = SYMBOL_TABLE_LENGTH then 0 else slot) with
    | none => rfl
    | some sl =>
      simp only [strcmp_agree past past1 sl t (read_terminated tab hS _ sl hr), ih]

theorem checkSymbol_agree (past past1 : Overrun) (t : token) (s : State)
    (hS : ∀ i, 0 ∈ (s.symTable.token i).string) :
    checkSymbol past t s = checkSymbol past1 t s := by
  unfold checkSymbol addSymbol searchForSymbol
  simp only [isDuplicate_agree past past1 t s.symTable hS,
    searchLoop_agree past past1 t s.symTable hS]

theorem mainStep_agree (past past1 : Overrun) (table : tokenTable) (u : Int) (m : Main)
    (hT : ∀ i, 0 ∈ (table.token i).string) (hS : ∀ i, 0 ∈ (m.symTable.token i).string) :
    mainStep past table u m = mainStep past1 table 0 m := by
  unfold mainStep
  rw [getToken_agree past past1 table u m.scan hT]
  cases getToken past1 table 0 m.scan with
  | error e => simp only [bind, Except.bind]
  | ok r =>
    simp only [bind, Except.bind]
    rw [checkSymbol_agree past past1 _ _ hS]

/-- A run of `tokenizeLine` all of whose rounds start with terminated slots is
the same for every overrun outcome and every uninitialised ID. -/
theorem tokenizeLine_agree (past : Overrun) (table : tokenTable) (u : Int)
    (hT : entriesTerminated table = true) :
    ∀ (fuel : Nat) (m : Main), terminatedRun table fuel m = true →
      tokenizeLine past table u fuel m = tokenizeLine noPast table 0 fuel m := by
  have hT1 : ∀ i, 0 ∈ (table.token i).string := of_decide_eq_true hT
  intro fuel
  induction fuel with
  | zero => intro m _; rfl
  | succ fuel ih =>
    intro m hrun
    unfold terminatedRun at hrun
    rw [Bool.and_eq_true] at hrun
    obtain ⟨hS, hrest⟩ := hrun
    have hS1 : ∀ i, 0 ∈ (m.symTable.token i).string := of_decide_eq_true hS
    unfold tokenizeLine
    rw [mainStep_agree past noPast table u m hT1 hS1]
    cases hstep : mainStep noPast table 0 m with
    | error e => simp only [bind, Except.bind]
    | ok r =>
      obtain ⟨t1, m1⟩ := r
      rw [hstep] at hrest
      simp only [bind, Except.bind]
      cases hc : m1.scan.currentLine.charAt m1.scan.currentLine.index with
      | error e => simp only []
      | ok c =>
        simp only [hc] at hrest
        simp only []
        by_cases h10 : c = 10
        · simp only [h10, if_true]
        · simp only [h10, if_false] at hrest ⊢
          rw [ih m1 hrest]

theorem entriesTerminated_stdTable : entriesTerminated stdTable = true := by decide!

theorem terminatedRun_scenario :
    terminatedRun stdTable LINE_LENGTH (startOf scenarioText) = true := by decide!

theorem symbolTable_ext (a b : symbolTable) (h : ∀ i, a.token i = b.token i) : a = b := by
  cases a; cases b; congr; funext i; exact h i

/-! ## The rounds of the loop of `buildToken` -/

theorem isalnum_ne (c : Nat) (h : isalnum c = true) : c ≠ 32 ∧ c ≠ 10 := by
  constructor
  · rintro rfl; revert h; decide
  · rintro rfl; revert h; decide

theorem put_eq (t : token) (c : Nat) (h : t.index < t.string.length) :
    t.put c = Except.ok { t with string := t.string.set t.index c } := by
  unfold token.put
  rw [if_pos h]
  rfl

/-- One round of the loop of `buildToken` on an alphanumeric character `c`
followed by `d`: `c` is stored, token index and cursor move on by one, and the
round stops on the validation tests or on the length check. -/
theorem buildStep_alnum (tok : token) (s : Scan) (c d : Nat)
    (hc : s.currentLine.string[s.currentLine.index]? = some c)
    (hd : s.currentLine.string[s.currentLine.index + 1]? = some d)
    (hal : isalnum c = true) (hroom : tok.index < tok.string.length) :
    buildStep tok s = Except.ok
      ({ tok with string := tok.string.set tok.index c, index := tok.index + 1 },
       { s with
          currentLine := { s.currentLine with index := s.currentLine.index + 1 }
          output := if TOKEN_LENGTH ≤ tok.index + 1 ∧ isalnum d = true then
              s.output ++ [Output.tooManyCharacters] else s.output },
       decide (TOKEN_LENGTH ≤ tok.index + 1 ∧ isalnum d = true) || ruleStop c d) := by
  obtain ⟨h32, h10⟩ := isalnum_ne c hal
  unfold buildStep
  simp only [line.charAt, hc, hd, put_eq _ _ hroom, hal, bind, Except.bind,
    pure, Except.pure, Bool.not_true, Bool.false_eq_true, if_false, ne_eq, h32, h10,
    not_false_eq_true, and_self, if_true, ge_iff_le]
  cases ha : isalpha c <;> cases hdg : isdigit c <;>
    by_cases hov : TOKEN_LENGTH ≤ tok.index + 1 ∧ isalnum d = true <;>
    simp [hov, ruleStop, ha, hdg, hd, bind, Except.bind, pure, Except.pure]
  all_goals exact fun h => Bool.eq_false_iff.mpr (fun h2 => hov ⟨h, h2⟩)

theorem partialToken_set (w : List Nat) (c : Nat) (h : w.length < TOKEN_LENGTH) :
    (partialToken w).string.set (partialToken w).index c = (partialToken (w ++ [c])).string := by
  unfold partialToken
  simp only [List.length_append, List.length_singleton]
  obtain ⟨k, hk⟩ : ∃ k, TOKEN_LENGTH - w.length = k + 1 := ⟨TOKEN_LENGTH - w.length - 1, by omega⟩
  have hk2 : TOKEN_LENGTH - (w.length + 1) = k := by omega
  rw [hk, hk2, List.replicate_succ]
  simp

theorem partialToken_length (w : List Nat) (h : w.length ≤ TOKEN_LENGTH) :
    (partialToken w).string.length = TOKEN_LENGTH := by
  unfold partialToken
  simp only [List.length_append, List.length_replicate]
  omega

theorem getElem?_run (pre run : List Nat) (d : Nat) (post : List Nat) (i : Nat)
    (hi : i < run.length) :
    (pre ++ run ++ d :: post)[pre.length + i]? = run[i]? := by
  rw [List.append_assoc, List.getElem?_append_right (by omega)]
  simp only [Nat.add_sub_cancel_left]
  rw [List.getElem?_append_left hi]

theorem getElem?_after (pre run : List Nat) (d : Nat) (post : List Nat) :
    (pre ++ run ++ d :: post)[pre.length + run.length]? = some d := by
  rw [List.getElem?_append_right (by simp)]
  simp


theorem partialToken_step (w : List Nat) (c : Nat) (h : w.length < TOKEN_LENGTH) :
    ({ partialToken w with
        string := (partialToken w).string.set (partialToken w).index c
        index := (partialToken w).index + 1 } : token) = partialToken (w ++ [c]) := by
  have h1 := partialToken_set w c h
  have h2 : (partialToken w).index + 1 = (partialToken (w ++ [c])).index := by
    simp [partialToken]
  rw [h1, h2]
  rfl

/-- A run of alphanumeric characters none of which sets the `stop` flag before
the last one does, or before the length check fires on the twelfth character:
the loop of `buildToken` stores exactly the run and leaves the cursor behind
it; it prints the "too many characters" diagnostic exactly when the length
check fired. -/
theorem buildLoop_run (d : Nat) (post : List Nat) :
    ∀ (run w pre : List Nat) (s : Scan) (fuel : Nat) (last : Nat),
      run.getLast? = some last →
      (∀ c ∈ run, isalnum c = true) →
      List.Chain' (fun c e => ruleStop c e = false) run →
      w.length + run.length ≤ TOKEN_LENGTH → run.length ≤ fuel →
      s.currentLine.string = pre ++ run ++ d :: post →
      s.currentLine.index = pre.length →
      (ruleStop last d = true ∨ (w.length + run.length = TOKEN_LENGTH ∧ isalnum d = true)) →
      buildLoop fuel (partialToken w) s = Except.ok
        (partialToken (w ++ run),
         { s with
            currentLine := { s.currentLine with index := pre.length + run.length }
            output := if w.length + run.length = TOKEN_LENGTH ∧ isalnum d = true then
              s.output ++ [Output.tooManyCharacters] else s.output }) := by
  intro run
  induction run with
  | nil => intro w pre s fuel last hlast; simp at hlast
  | cons c rest ih =>
    intro w pre s fuel last hlast hal hchain hlen hfuel hstr hidx hfinal
    have hlen1 : w.length + (rest.length + 1) ≤ TOKEN_LENGTH := by
      simpa only [List.length_cons] using hlen
    have hfuel1 : rest.length + 1 ≤ fuel := by simpa only [List.length_cons] using hfuel
    obtain ⟨fuel1, rfl⟩ : ∃ f, fuel = f + 1 := ⟨fuel - 1, by omega⟩
    have hw : w.length < TOKEN_LENGTH := by omega
    have hc : s.currentLine.string[s.currentLine.index]? = some c := by
      rw [hstr, hidx]
      have := getElem?_run pre (c :: rest) d post 0 (by simp)
      simpa using this
    have hroom : (partialToken w).index < (partialToken w).string.length := by
      rw [partialToken_length w (by omega)]
      exact hw
    have hcal : isalnum c = true := hal c (List.mem_cons_self c rest)
    cases rest with
    | nil =>
      have hd : s.currentLine.string[s.currentLine.index + 1]? = some d := by
        rw [hstr, hidx]
        have := getElem?_after pre [c] d post
        simpa using this
      have hl : last = c := by simpa using hlast.symm
      subst hl
      have hstop : (decide (TOKEN_LENGTH ≤ (partialToken w).index + 1 ∧ isalnum d = true) ||
          ruleStop last d) = true := by
        rcases hfinal with h | ⟨h1, h2⟩
        · rw [h]; simp
        · have : TOKEN_LENGTH ≤ (partialToken w).index + 1 := by
            simp only [List.length_singleton] at h1
            show TOKEN_LENGTH ≤ w.length + 1
            omega
          simp [this, h2]
      have hcond : (TOKEN_LENGTH ≤ (partialToken w).index + 1 ∧ isalnum d = true) ↔
          (w.length + [last].length = TOKEN_LENGTH ∧ isalnum d = true) := by
        show (TOKEN_LENGTH ≤ w.length + 1 ∧ _) ↔ (w.length + 1 = TOKEN_LENGTH ∧ _)
        constructor
        · rintro ⟨h1, h2⟩; exact ⟨by omega, h2⟩
        · rintro ⟨h1, h2⟩; exact ⟨by omega, h2⟩
      unfold buildLoop
      rw [buildStep_alnum (partialToken w) s last d hc hd hcal hroom]
      simp only [bind, Except.bind, hstop, if_true, pure, Except.pure, partialToken_step w last hw,
        hidx, List.length_singleton]
      simp only [hcond, List.length_singleton]
    | cons c1 rest1 =>
      have hd : s.currentLine.string[s.currentLine.index + 1]? = some c1 := by
        rw [hstr, hidx]
        have := getElem?_run pre (c :: c1 :: rest1) d post 1 (by simp)
        simpa using this
      simp only [List.length_cons] at hlen1 hfuel1
      have hnov : ¬ (TOKEN_LENGTH ≤ (partialToken w).index + 1 ∧ isalnum c1 = true) := by
        intro h
        have : TOKEN_LENGTH ≤ w.length + 1 := h.1
        omega
      have hrule : ruleStop c c1 = false := (List.chain'_cons.mp hchain).1
      unfold buildLoop
      rw [buildStep_alnum (partialToken w) s c c1 hc hd hcal hroom]
      simp only [bind, Except.bind, hnov, decide_False, hrule, Bool.or_self, Bool.false_eq_true,
        if_false, partialToken_step w c hw]
      have hih := ih (w ++ [c]) (pre ++ [c])
        { s with currentLine := { s.currentLine with index := s.currentLine.index + 1 } }
        fuel1 last (by simpa using hlast)
        (fun x hx => hal x (List.mem_cons_of_mem c hx))
        (List.chain'_cons.mp hchain).2
        (by simp only [List.length_append, List.length_cons, List.length_nil]; omega)
        (by simp only [List.length_cons, List.length_nil]; omega)
        (by simp [hstr])
        (by simp [hidx])
        (by
          rcases hfinal with h | ⟨h1, h2⟩
          · exact Or.inl h
          · refine Or.inr ⟨?_, h2⟩
            simp only [List.length_append, List.length_cons, List.length_nil] at h1 ⊢
            omega)
      rw [hih]
      simp only [List.length_append, List.length_singleton, List.length_cons, List.length_nil,
        List.append_assoc, List.singleton_append, Nat.add_assoc, Nat.add_comm 1, Nat.zero_add]


theorem getElem?_mid (pre : List Nat) (x : Nat) (rest : List Nat) :
    (pre ++ x :: rest)[pre.length]? = some x := by
  rw [List.getElem?_append_right (Nat.le_refl _)]
  simp

/-- The loop that skips spaces: in front of `m` spaces followed by another
character it moves the cursor to that character. -/
theorem skipSpaces_run (c : Nat) (rest : List Nat) (hc : c ≠ 32) :
    ∀ (m : Nat) (pre : List Nat) (l : line) (fuel : Nat),
      l.string = pre ++ List.replicate m 32 ++ c :: rest → l.index = pre.length → m < fuel →
      skipSpaces fuel l = Except.ok { l with index := pre.length + m } := by
  intro m
  induction m with
  | zero =>
    intro pre l fuel hstr hidx hfuel
    obtain ⟨fuel1, rfl⟩ : ∃ f, fuel = f + 1 := ⟨fuel - 1, by omega⟩
    have h : l.string[l.index]? = some c := by
      rw [hstr, hidx, List.replicate_zero, List.append_nil]
      exact getElem?_mid pre c rest
    unfold skipSpaces
    simp only [line.charAt, h, bind, Except.bind, pure, Except.pure, hc, if_false, Nat.add_zero]
    rw [← hidx]
  | succ m ih =>
    intro pre l fuel hstr hidx hfuel
    obtain ⟨fuel1, rfl⟩ : ∃ f, fuel = f + 1 := ⟨fuel - 1, by omega⟩
    have h : l.string[l.index]? = some 32 := by
      rw [hstr, hidx, List.replicate_succ, List.append_assoc, List.cons_append]
      exact getElem?_mid pre 32 _
    unfold skipSpaces
    simp only [line.charAt, h, bind, Except.bind, pure, Except.pure, if_true]
    have := ih (pre ++ [32]) { l with index := l.index + 1 } fuel1
      (by simp [hstr, List.replicate_succ]) (by simp [hidx]) (by omega)
    rw [this]
    simp only [List.length_append, List.length_singleton, Nat.add_assoc, Nat.add_comm 1]

/-- The function `buildToken` in front of spaces followed by a run of
alphanumeric characters as in `buildLoop_run`. -/
theorem buildToken_run (uninitID : Int) (s : Scan) (pre : List Nat) (m : Nat)
    (run : List Nat) (d : Nat) (post : List Nat) (last : Nat)
    (hstr : s.currentLine.string = pre ++ List.replicate m 32 ++ run ++ d :: post)
    (hidx : s.currentLine.index = pre.length)
    (hsize : s.currentLine.string.length ≤ LINE_LENGTH)
    (hlast : run.getLast? = some last)
    (hal : ∀ c ∈ run, isalnum c = true)
    (hchain : List.Chain' (fun c e => ruleStop c e = false) run)
    (hlen : run.length ≤ TOKEN_LENGTH)
    (hfinal : ruleStop last d = true ∨ (run.length = TOKEN_LENGTH ∧ isalnum d = true)) :
    buildToken uninitID s = Except.ok
      ({ string := run ++ List.replicate (TOKEN_LENGTH - run.length) 0, index := run.length
         ID := uninitID },
       { s with
          currentLine := { s.currentLine with index := pre.length + m + run.length }
          output := if run.length = TOKEN_LENGTH ∧ isalnum d = true then
            s.output ++ [Output.tooManyCharacters] else s.output }) := by
  obtain ⟨c, rest, rfl⟩ : ∃ c rest, run = c :: rest := by
    cases run with
    | nil => simp at hlast
    | cons c rest => exact ⟨c, rest, rfl⟩
  have hc32 : c ≠ 32 := (isalnum_ne c (hal c (List.mem_cons_self c rest))).1
  have hm : m < LINE_LENGTH + 1 := by
    have := congrArg List.length hstr
    simp only [List.length_append, List.length_replicate, List.length_cons] at this
    omega
  have hskip := skipSpaces_run c (rest ++ d :: post) hc32 m pre s.currentLine (LINE_LENGTH + 1)
    (by simp [hstr]) hidx hm
  have hloop := buildLoop_run d post (c :: rest) [] (pre ++ List.replicate m 32)
    { s with currentLine := { s.currentLine with index := pre.length + m } }
    (LINE_LENGTH + 1) last hlast hal hchain
    (by simpa using hlen) (by simp only [LINE_LENGTH]; simp only [TOKEN_LENGTH] at hlen; omega)
    (by simp [hstr]) (by simp)
    (by simpa using hfinal)
  unfold buildToken
  rw [hskip]
  simp only [bind, Except.bind]
  have hp : ({ string := List.replicate TOKEN_LENGTH 0, index := 0, ID := 0 } : token) =
      partialToken [] := rfl
  rw [hp, hloop]
  simp only [pure, Except.pure, partialToken, List.nil_append, List.length_nil, Nat.zero_add,
    List.length_append, List.length_replicate]


theorem isalpha_facts (c : Nat) (h : isalpha c = true) :
    isalnum c = true ∧ isdigit c = false := by
  constructor
  · unfold isalnum; rw [h]; rfl
  · unfold isalpha at h
    unfold isdigit
    simp only [Bool.or_eq_true, Bool.and_eq_true, decide_eq_true_eq] at h
    simp only [Bool.and_eq_false_iff, decide_eq_false_iff_not]
    omega

theorem isdigit_facts (c : Nat) (h : isdigit c = true) :
    isalnum c = true ∧ isalpha c = false := by
  constructor
  · unfold isalnum; rw [h]; simp
  · unfold isdigit at h
    unfold isalpha
    simp only [Bool.and_eq_true, decide_eq_true_eq] at h
    simp only [Bool.or_eq_false_iff, Bool.and_eq_false_iff, decide_eq_false_iff_not]
    omega

theorem ruleStop_letter (c e : Nat) (hc : isalpha c = true) (he : isalnum e = true) :
    ruleStop c e = false := by
  unfold ruleStop
  rw [hc, he, (isalpha_facts c hc).2]
  rfl

theorem ruleStop_digit (c e : Nat) (hc : isdigit c = true) :
    ruleStop c e = !isdigit e := by
  unfold ruleStop
  rw [hc, (isdigit_facts c hc).2]
  simp

theorem exists_getLast? (run : List Nat) (h : run ≠ []) : ∃ last, run.getLast? = some last := by
  cases hl : run.getLast? with
  | none => exact absurd (List.getLast?_eq_none_iff.mp hl) h
  | some a => exact ⟨a, rfl⟩

/-- Twelve letters followed by a thirteenth: `buildToken` returns the twelve,
prints one "too many characters" diagnostic, and leaves the cursor on the
thirteenth. -/
theorem buildToken_overflow (uninitID : Int) (s : Scan) (pre : List Nat) (m : Nat)
    (run : List Nat) (d : Nat) (post : List Nat)
    (hstr : s.currentLine.string = pre ++ List.replicate m 32 ++ run ++ d :: post)
    (hidx : s.currentLine.index = pre.length)
    (hsize : s.currentLine.string.length ≤ LINE_LENGTH)
    (hrun : run.length = TOKEN_LENGTH)
    (hletters : ∀ c ∈ run, isalpha c = true) (hd : isalpha d = true) :
    buildToken uninitID s = Except.ok
      ({ string := run, index := TOKEN_LENGTH, ID := uninitID },
       { s with
          currentLine := { s.currentLine with index := pre.length + m + TOKEN_LENGTH }
          output := s.output ++ [Output.tooManyCharacters] }) := by
  have hne : run ≠ [] := by
    intro h; rw [h] at hrun; cases hrun
  obtain ⟨last, hlast⟩ := exists_getLast? run hne
  have hdal : isalnum d = true := (isalpha_facts d hd).1
  have h := buildToken_run uninitID s pre m run d post last hstr hidx hsize hlast
    (fun c hc => (isalpha_facts c (hletters c hc)).1)
    (List.Pairwise.chain' (List.pairwise_of_forall_mem_list
      (fun a ha b hb => ruleStop_letter a b (hletters a ha) (isalpha_facts b (hletters b hb)).1)))
    (Nat.le_of_eq hrun) (Or.inr ⟨hrun, hdal⟩)
  rw [h, hrun]
  simp [hdal]

/-- A run of at most twelve digits followed by a character that is not
alphanumeric: `buildToken` returns the run, prints nothing, and leaves the
cursor behind the run. -/
theorem buildToken_digits (uninitID : Int) (s : Scan) (pre : List Nat) (m : Nat)
    (run : List Nat) (d : Nat) (post : List Nat)
    (hstr : s.currentLine.string = pre ++ List.replicate m 32 ++ run ++ d :: post)
    (hidx : s.currentLine.index = pre.length)
    (hsize : s.currentLine.string.length ≤ LINE_LENGTH)
    (hne : run ≠ []) (hlen : run.length ≤ TOKEN_LENGTH)
    (hdigits : ∀ c ∈ run, isdigit c = true) (hd : isalnum d = false) :
    buildToken uninitID s = Except.ok
      ({ string := run ++ List.replicate (TOKEN_LENGTH - run.length) 0, index := run.length
         ID := uninitID },
       { s with currentLine := { s.currentLine with index := pre.length + m + run.length } }) := by
  obtain ⟨last, hlast⟩ := exists_getLast? run hne
  have hdd : isdigit d = false := by
    unfold isalnum at hd
    exact (Bool.or_eq_false_iff.mp hd).2
  have h := buildToken_run uninitID s pre m run d post last hstr hidx hsize hlast
    (fun c hc => (isdigit_facts c (hdigits c hc)).1)
    (List.Pairwise.chain' (List.pairwise_of_forall_mem_list
      (fun a ha b hb => by rw [ruleStop_digit a b (hdigits a ha), hdigits b hb]; rfl)))
    hlen
    (Or.inl (by
      rw [ruleStop_digit last d (hdigits last (List.mem_of_getLast?_eq_some hlast)), hdd]; rfl))
  rw [h]
  simp [hd]

/-! ## Rounds on a disallowed character -/

theorem disallowed_facts (c : Nat) (h : disallowed c = true) :
    isalnum c = false ∧ isalpha c = false ∧ isdigit c = false ∧
    c ≠ 46 ∧ c ≠ 58 ∧ c ≠ 40 ∧ c ≠ 32 ∧ c ≠ 10 ∧
    ¬ (c = 59 ∨ c = 44 ∨ c = 43 ∨ c = 45 ∨ c = 42 ∨ c = 61 ∨ c = 41 ∨ c = 32 ∨ c = 10 ∨
      c = 0 ∨ c = 13) := by
  unfold disallowed at h
  simp only [Bool.and_eq_true, Bool.not_eq_true', decide_eq_false_iff_not] at h
  obtain ⟨h1, h2⟩ := h
  have h3 := Bool.or_eq_false_iff.mp (show (isalpha c || isdigit c) = false from h1)
  refine ⟨h1, h3.1, h3.2, ?_, ?_, ?_, ?_, ?_, ?_⟩ <;> omega

theorem switchChar_default (c : Nat) (tok : token) (s : Scan) (stop : Bool)
    (hdis : disallowed c = true) :
    switchChar c tok s stop =
      Except.ok (tok, { s with output := s.output ++ [Output.notAllowed c] }, stop) := by
  obtain ⟨_, _, _, h46, h58, h40, _, _, hlist⟩ := disallowed_facts c hdis
  unfold switchChar
  rw [if_neg h46, if_neg h58, if_neg h40, if_neg hlist]
  rfl

/-- One round of the loop of `buildToken` on a disallowed character `c`
followed by `d`. -/
theorem buildStep_disallowed (tok : token) (s : Scan) (c d : Nat)
    (hc : s.currentLine.string[s.currentLine.index]? = some c)
    (hd : s.currentLine.string[s.currentLine.index + 1]? = some d)
    (hdis : disallowed c = true) (hroom : tok.index < tok.string.length) :
    buildStep tok s = Except.ok
      ({ tok with string := tok.string.set tok.index c, index := tok.index + 1 },
       { s with
          currentLine := { s.currentLine with index := s.currentLine.index + 1 }
          output := s.output ++ [Output.notAllowed c] ++
            (if TOKEN_LENGTH ≤ tok.index + 1 ∧ isalnum d = true then
              [Output.tooManyCharacters] else []) },
       decide (TOKEN_LENGTH ≤ tok.index + 1 ∧ isalnum d = true)) := by
  obtain ⟨hal, ha, hdg, h46, h58, h40, h32, h10, hlist⟩ := disallowed_facts c hdis
  unfold buildStep
  simp only [line.charAt, hc, put_eq _ _ hroom, hal, ha, hdg, bind, Except.bind,
    pure, Except.pure, Bool.false_eq_true, if_false, Bool.not_false, if_true, Bool.or_self,
    switchChar_default _ _ _ _ hdis, ne_eq, h32, h10, not_false_eq_true, and_self, ge_iff_le]
  by_cases hov : TOKEN_LENGTH ≤ tok.index + 1 ∧ isalnum d = true
  · simp [hov, hd]
  · simp [hov, hd]
    exact fun h => Bool.eq_false_iff.mpr (fun h2 => hov ⟨h, h2⟩)

theorem buildLoop_succ (fuel : Nat) (tok : token) (s : Scan) :
    buildLoop (fuel + 1) tok s =
      (buildStep tok s).bind
        (fun r => if r.2.2 then pure (r.1, r.2.1) else buildLoop fuel r.1 r.2.1) := rfl

/-- The loop of `buildToken` started on a disallowed character `c`: its first
round prints the diagnostic and stores `c`, and the loop goes on behind `c`. -/
theorem buildLoop_disallowed (fuel : Nat) (s : Scan) (c d : Nat)
    (hc : s.currentLine.string[s.currentLine.index]? = some c)
    (hd : s.currentLine.string[s.currentLine.index + 1]? = some d)
    (hdis : disallowed c = true) :
    buildLoop (fuel + 1) (partialToken []) s =
      buildLoop fuel (partialToken [c])
        { s with
          currentLine := { s.currentLine with index := s.currentLine.index + 1 }
          output := s.output ++ [Output.notAllowed c] } := by
  have hstep := buildStep_disallowed (partialToken []) s c d hc hd hdis (by decide)
  have hno : ¬ (TOKEN_LENGTH ≤ (partialToken []).index + 1 ∧ isalnum d = true) := by
    intro h; exact absurd h.1 (by decide)
  have htok : ({ partialToken [] with
      string := (partialToken []).string.set (partialToken []).index c
      index := (partialToken []).index + 1 } : token) = partialToken [c] :=
    partialToken_step [] c (by decide)
  rw [buildLoop_succ, hstep]
  simp only [hno, decide_False, if_false, Bool.false_eq_true, List.append_nil, Except.bind]
  rw [htok]

/-- The function `buildToken` in front of spaces followed by a disallowed
character `c`: the first round of its loop prints the diagnostic and stores
`c`, and the loop goes on with the character behind `c`. -/
theorem buildToken_disallowed (uninitID : Int) (s : Scan) (pre : List Nat) (m : Nat)
    (c d : Nat) (post : List Nat)
    (hstr : s.currentLine.string = pre ++ List.replicate m 32 ++ c :: d :: post)
    (hidx : s.currentLine.index = pre.length)
    (hsize : s.currentLine.string.length ≤ LINE_LENGTH)
    (hdis : disallowed c = true) :
    buildToken uninitID s =
      (buildLoop LINE_LENGTH (partialToken [c])
        { s with
          currentLine := { s.currentLine with index := pre.length + m + 1 }
          output := s.output ++ [Output.notAllowed c] }).map
        (fun p => ({ p.1 with ID := uninitID }, p.2)) := by
  obtain ⟨_, _, _, _, _, _, h32, _, _⟩ := disallowed_facts c hdis
  have hm : m < LINE_LENGTH + 1 := by
    have := congrArg List.length hstr
    simp only [List.length_append, List.length_replicate, List.length_cons] at this
    omega
  have hskip := skipSpaces_run c (d :: post) h32 m pre s.currentLine (LINE_LENGTH + 1)
    hstr hidx hm
  have hc : (pre ++ List.replicate m 32 ++ c :: d :: post)[pre.length + m]? = some c := by
    have := getElem?_mid (pre ++ List.replicate m 32) c (d :: post)
    simpa using this
  have hd : (pre ++ List.replicate m 32 ++ c :: d :: post)[pre.length + m + 1]? = some d := by
    have h1 : pre ++ List.replicate m 32 ++ c :: d :: post =
        (pre ++ List.replicate m 32 ++ [c]) ++ d :: post := by simp
    have h2 : pre.length + m + 1 = (pre ++ List.replicate m 32 ++ [c]).length := by
      simp [Nat.add_assoc]
    rw [h1, h2]
    exact getElem?_mid _ d post
  have hloop := buildLoop_disallowed LINE_LENGTH
    { s with currentLine := { s.currentLine with index := pre.length + m } } c d
    (by rw [← hstr] at hc; exact hc) (by rw [← hstr] at hd; exact hd) hdis
  have hp : ({ string := List.replicate TOKEN_LENGTH 0, index := 0, ID := 0 } : token) =
      partialToken [] := rfl
  unfold buildToken
  rw [hskip]
  simp only [bind, Except.bind]
  rw [hp, hloop]
  generalize buildLoop LINE_LENGTH (partialToken [c]) _ = r
  cases r with
  | error e => rfl
  | ok r => rfl

/-- A disallowed character `c` directly followed by a word of at most eleven
letters that ends in front of a character that is neither alphanumeric nor
`.`: `buildToken` returns `c` followed by the word as one lexeme. -/
theorem buildToken_disallowed_word (uninitID : Int) (s : Scan) (pre : List Nat) (m : Nat)
    (c : Nat) (word : List Nat) (e : Nat) (rest : List Nat)
    (hstr : s.currentLine.string = pre ++ List.replicate m 32 ++ c :: (word ++ e :: rest))
    (hidx : s.currentLine.index = pre.length)
    (hsize : s.currentLine.string.length ≤ LINE_LENGTH)
    (hdis : disallowed c = true)
    (hne : word ≠ []) (hlen : word.length < TOKEN_LENGTH)
    (hletters : ∀ x ∈ word, isalpha x = true)
    (he : isalnum e = false) (hdot : e ≠ 46) :
    buildToken uninitID s = Except.ok
      ({ string := c :: word ++ List.replicate (TOKEN_LENGTH - (word.length + 1)) 0
         index := word.length + 1, ID := uninitID },
       { s with
          currentLine := { s.currentLine with index := pre.length + m + 1 + word.length }
          output := s.output ++ [Output.notAllowed c] }) := by
  obtain ⟨d, post, hword⟩ : ∃ d post, word ++ e :: rest = d :: post := by
    cases word with
    | nil => exact absurd rfl hne
    | cons d w => exact ⟨d, w ++ e :: rest, rfl⟩
  obtain ⟨last, hlast⟩ := exists_getLast? word hne
  have hlastmem : last ∈ word := List.mem_of_getLast?_eq_some hlast
  have hfinal : ruleStop last e = true := by
    unfold ruleStop
    rw [hletters last hlastmem, he]
    simp [hdot]
  have hloop := buildLoop_run e rest word [c] (pre ++ List.replicate m 32 ++ [c])
    { s with
      currentLine := { s.currentLine with index := pre.length + m + 1 }
      output := s.output ++ [Output.notAllowed c] }
    LINE_LENGTH last hlast
    (fun x hx => (isalpha_facts x (hletters x hx)).1)
    (List.Pairwise.chain' (List.pairwise_of_forall_mem_list
      (fun a ha b hb => ruleStop_letter a b (hletters a ha) (isalpha_facts b (hletters b hb)).1)))
    (by simp only [List.length_singleton]; omega)
    (by simp only [TOKEN_LENGTH] at hlen; simp only [LINE_LENGTH]; omega)
    (by simp [hstr]) (by simp [Nat.add_assoc])
    (Or.inl hfinal)
  rw [buildToken_disallowed uninitID s pre m c d post (by rw [hstr, hword]) hidx hsize hdis,
    hloop]
  simp [he, Except.map, partialToken, Nat.add_assoc]

/-- A returning run of `buildToken` computed with the uninitialised ID 0 gives
the run for every uninitialised ID. -/
theorem buildToken_of_zero (u : Int) (s : Scan) (t : token) (s1 : Scan)
    (h : (buildToken 0 s).toOption = some (t, s1)) :
    buildToken u s = Except.ok ({ t with ID := u }, s1) := by
  rw [buildToken_ID u s]
  cases hr : buildToken 0 s with
  | error e => rw [hr] at h; cases h
  | ok r =>
    rw [hr] at h
    simp only [Except.toOption, Option.some.injEq] at h
    rw [h]
    rfl

/-- A faulting run of `buildToken` computed with the uninitialised ID 0 faults
for every uninitialised ID. -/
theorem buildToken_fault (u : Int) (s : Scan) (e : Fault)
    (h : faultOf (buildToken 0 s) = some e) : buildToken u s = Except.error e := by
  rw [buildToken_ID u s]
  cases hr : buildToken 0 s with
  | error e1 =>
    rw [hr] at h
    simp only [faultOf, Option.some.injEq] at h
    rw [h]
    rfl
  | ok r => rw [hr] at h; cases h

theorem entries_stdTable : ∀ i, 0 ∈ (stdTable.token i).string :=
  of_decide_eq_true entriesTerminated_stdTable

/-- When every slot from the hashed one to slot 31 is occupied, the probe loop
of `addSymbol` reads `token[32]`. -/
theorem addSymbol_tail_occupied (past : Overrun) (t : token) (s : State)
    (hdup : isDuplicate past t s.symTable = false)
    (hocc : ∀ j : Fin SYMBOL_TABLE_LENGTH, getHash t ≤ j.val → (s.symTable.token j).ID ≠ 0) :
    addSymbol past t s = none := by
  unfold addSymbol
  rw [hdup]
  simp only [Bool.false_eq_true, if_false]
  by_cases hneg : getHash t < 0
  · rw [if_pos hneg]
  · rw [if_neg hneg]
    have h := (probe_none s.symTable (SYMBOL_TABLE_LENGTH + 1) (getHash t).toNat
      (Nat.le_of_lt (getHash_toNat_lt t)) (by have := getHash_toNat_lt t; omega)).mpr
      (fun j hj => hocc j (by omega))
    rw [h]

/-! ## Line normalisation -/

theorem cstr_append_zero (a rest : List Nat) (h : 0 ∉ a) : cstr (a ++ 0 :: rest) = a := by
  unfold cstr
  induction a with
  | nil => simp
  | cons c cs ih =>
    have hc : c ≠ 0 := fun hc => h (by simp [hc])
    have hcs : 0 ∉ cs := fun hcs => h (List.mem_cons_of_mem _ hcs)
    simp only [List.cons_append, List.takeWhile_cons, bne_iff_ne, ne_eq, hc, not_false_eq_true,
      decide_True, if_true, ih hcs]

theorem toupper_facts (c : Nat) :
    (toupper c = 0 ↔ c = 0) ∧ (toupper c = 10 ↔ c = 10) ∧ ¬ (97 ≤ toupper c ∧ toupper c ≤ 122) := by
  unfold toupper
  split <;> omega

theorem drop_length_takeWhile (p : Nat → Bool) (l : List Nat) :
    l.drop (l.takeWhile p).length = l.dropWhile p := by
  induction l with
  | nil => rfl
  | cons c cs ih =>
    cases hp : p c
    · simp [List.takeWhile_cons, List.dropWhile_cons, hp]
    · simp [List.takeWhile_cons, List.dropWhile_cons, hp, ih]

theorem not_mem_map_toupper (x : Nat) (hx : x = 0 ∨ x = 10) (text : List Nat) (h : x ∉ text) :
    x ∉ text.map toupper := by
  intro hm
  obtain ⟨c, hc, hcx⟩ := List.mem_map.mp hm
  have hf := toupper_facts c
  rcases hx with rfl | rfl
  · exact h (by rw [← hf.1.mp hcx]; exact hc)
  · exact h (by rw [← hf.2.1.mp hcx]; exact hc)

theorem mem_takeWhile_true (p : Nat → Bool) (x : Nat) (l : List Nat)
    (h : x ∈ l.takeWhile p) : p x = true :=
  List.mem_takeWhile_imp h

theorem mem_dropWhile (p : Nat → Bool) (x : Nat) (l : List Nat) (h : x ∈ l.dropWhile p) :
    x ∈ l :=
  (List.dropWhile_suffix p).subset h

/-- The function `formatLine` on a buffer holding a text of at most 79
characters: it returns, and the string it leaves is the normalised text. -/
theorem formatLine_spec (l : line) (text rest : List Nat)
    (hstr : l.string = text ++ 0 :: rest) (htext : 0 ∉ text)
    (hlen : text.length ≤ 79) (hsize : l.string.length = LINE_LENGTH) :
    ∃ l1, formatLine l = Except.ok l1 ∧ cstr l1.string = normalizeSpec text ∧
      l1.lineNumber = l.lineNumber ∧ l1.index = l.index := by
  have h0 : 0 ∈ l.string := by rw [hstr]; simp
  have hc : cstr l.string = text := by rw [hstr]; exact cstr_append_zero text rest htext
  have hU0 : 0 ∉ text.map toupper := not_mem_map_toupper 0 (Or.inl rfl) text htext
  have hdrop : l.string.drop text.length = 0 :: rest := by rw [hstr]; simp
  have hcu : cstr (text.map toupper ++ 0 :: rest) = text.map toupper :=
    cstr_append_zero _ rest hU0
  have hS0 : 0 ∉ (text.map toupper).dropWhile (fun c => c == 32 || c == 9) :=
    fun h => hU0 (mem_dropWhile _ 0 _ h)
  have h10 : 10 ∈ (text.map toupper).dropWhile (fun c => c == 32 || c == 9) ↔ 10 ∈ text := by
    constructor
    · intro h
      by_contra hn
      exact not_mem_map_toupper 10 (Or.inr rfl) text hn (mem_dropWhile _ 10 _ h)
    · intro h
      have hm : 10 ∈ text.map toupper := List.mem_map.mpr ⟨10, h, by decide⟩
      rw [← List.takeWhile_append_dropWhile (fun c => c == 32 || c == 9) (text.map toupper)]
        at hm
      rcases List.mem_append.mp hm with h1 | h1
      · have h2 := mem_takeWhile_true (fun c => c == 32 || c == 9) 10 _ h1
        exact absurd h2 (by decide)
      · exact h1
  have hjlen : ((text.map toupper).dropWhile (fun c => c == 32 || c == 9)).length ≤ 79 := by
    have := (List.dropWhile_suffix (fun c => c == 32 || c == 9) :
      (text.map toupper).dropWhile (fun c => c == 32 || c == 9) <:+ text.map toupper).length_le
    simp only [List.length_map] at this
    omega
  unfold formatLine
  rw [if_pos h0]
  simp only [hc, hdrop, hcu, drop_length_takeWhile]
  by_cases hnl : 10 ∈ text
  · rw [if_pos (h10.mpr hnl)]
    refine ⟨_, rfl, ?_, rfl, rfl⟩
    simp only [List.append_assoc, List.singleton_append]
    rw [cstr_append_zero _ _ hS0]
    unfold normalizeSpec
    simp only [hnl, if_true]
  · rw [if_neg (fun h => hnl (h10.mp h))]
    have hroom : ((text.map toupper).dropWhile (fun c => c == 32 || c == 9)).length + 1 <
        l.string.length := by
      rw [hsize]; simp only [LINE_LENGTH]; omega
    rw [if_pos hroom]
    refine ⟨_, rfl, ?_, rfl, rfl⟩
    have : (text.map toupper).dropWhile (fun c => c == 32 || c == 9) ++ [10, 0] ++
        List.drop (((text.map toupper).dropWhile (fun c => c == 32 || c == 9)).length + 2)
          (text.map toupper ++ 0 :: rest) =
        ((text.map toupper).dropWhile (fun c => c == 32 || c == 9) ++ [10]) ++ 0 ::
        List.drop (((text.map toupper).dropWhile (fun c => c == 32 || c == 9)).length + 2)
          (text.map toupper ++ 0 :: rest) := by simp
    rw [this, cstr_append_zero]
    · unfold normalizeSpec
      simp only [hnl, if_false]
    · intro h
      rcases List.mem_append.mp h with h1 | h1
      · exact hS0 h1
      · simp at h1

theorem dropWhile_append_stop (p : Nat → Bool) (x : Nat) (hx : p x = false) (A : List Nat) :
    (A ++ [x]).dropWhile p = A.dropWhile p ++ [x] := by
  induction A with
  | nil => simp [List.dropWhile_cons, hx]
  | cons c cs ih =>
    cases hp : p c
    · simp [List.dropWhile_cons, hp]
    · simp [List.dropWhile_cons, hp, ih]

theorem dropWhile_head (p : Nat → Bool) (x : Nat) (xs : List Nat) (l : List Nat)
    (h : l.dropWhile p = x :: xs) : p x = false := by
  induction l with
  | nil => simp at h
  | cons c cs ih =>
    cases hp : p c
    · simp only [List.dropWhile_cons, hp, Bool.false_eq_true, if_false, List.cons.injEq] at h
      rw [← h.1]; exact hp
    · simp only [List.dropWhile_cons, hp, if_true] at h
      exact ih h

/-- The normalised text of a text whose only newline, if any, is its last
character: the stripped upper-cased text in front of that newline, and one
newline. -/
theorem normalizeSpec_shape (text : List Nat) (hnl : 10 ∉ text.dropLast) :
    ∃ init : List Nat, 10 ∉ init ∧
      normalizeSpec text =
        (init.map toupper).dropWhile (fun c => c == 32 || c == 9) ++ [10] := by
  unfold normalizeSpec
  by_cases h : 10 ∈ text
  · have hne : text ≠ [] := fun hn => by rw [hn] at h; simp at h
    have hsplit := List.dropLast_append_getLast hne
    have hlast : text.getLast hne = 10 := by
      rw [← hsplit] at h
      rcases List.mem_append.mp h with h1 | h1
      · exact absurd h1 hnl
      · exact (List.mem_singleton.mp h1).symm
    refine ⟨text.dropLast, hnl, ?_⟩
    simp only [h, if_true]
    conv_lhs => rw [← hsplit, hlast]
    rw [List.map_append, List.map_singleton,
      show toupper 10 = 10 by decide, dropWhile_append_stop _ 10 (by decide)]
  · refine ⟨text, h, ?_⟩
    simp only [h, if_false]

/-- What the shape of the normalised text gives: no lowercase letter, no leading
space or tab, a newline at the end, and no other newline. -/
theorem normalizeSpec_facts (text : List Nat) (hnl : 10 ∉ text.dropLast) :
    (∀ c ∈ normalizeSpec text, ¬ (97 ≤ c ∧ c ≤ 122)) ∧
    (normalizeSpec text).head? ≠ some 32 ∧ (normalizeSpec text).head? ≠ some 9 ∧
    (normalizeSpec text).getLast? = some 10 ∧ (normalizeSpec text).count 10 = 1 := by
  obtain ⟨init, h10, hshape⟩ := normalizeSpec_shape text hnl
  rw [hshape]
  have hno : 10 ∉ (init.map toupper).dropWhile (fun c => c == 32 || c == 9) :=
    fun h => not_mem_map_toupper 10 (Or.inr rfl) init h10 (mem_dropWhile _ 10 _ h)
  have hhead : ∀ x, ((init.map toupper).dropWhile (fun c => c == 32 || c == 9) ++ [10]).head?
      = some x → (x == 32 || x == 9) = false := by
    intro x hx
    cases hd : (init.map toupper).dropWhile (fun c => c == 32 || c == 9) with
    | nil =>
      rw [hd] at hx
      simp only [List.nil_append, List.head?_cons, Option.some.injEq] at hx
      rw [← hx]; decide
    | cons y ys =>
      rw [hd] at hx
      simp only [List.cons_append, List.head?_cons, Option.some.injEq] at hx
      rw [← hx]
      exact dropWhile_head (fun c => c == 32 || c == 9) y ys _ hd
  refine ⟨?_, ?_, ?_, ?_, ?_⟩
  · intro c hc
    rcases List.mem_append.mp hc with h1 | h1
    · obtain ⟨b, _, hb⟩ := List.mem_map.mp (mem_dropWhile _ c _ h1)
      rw [← hb]
      exact (toupper_facts b).2.2
    · simp only [List.mem_singleton] at h1
      omega
  · intro h; exact absurd (hhead 32 h) (by decide)
  · intro h; exact absurd (hhead 9 h) (by decide)
  · simp
  · rw [List.count_append, List.count_eq_zero_of_not_mem hno]
    rfl

/-! ## The dump of the symbol table -/

theorem printSymbolTable_records (t : symbolTable) :
    ∃ records, printSymbolTable t = Output.symbolTableHeader :: records ∧
      records.length = SYMBOL_TABLE_LENGTH ∧
      ∀ i : Fin SYMBOL_TABLE_LENGTH,
        records[i.val]? = some (Output.symbolRecord (i.val + 1) (t.token i).string) := by
  refine ⟨_, rfl, by simp, ?_⟩
  intro i
  rw [List.getElem?_map, List.getElem?_eq_getElem (by simp)]
  simp

/-- A slot whose ID is 0 after an insert held the same token before it. -/
theorem untouched_addSymbol (past : Overrun) (t : token) (s s1 : State) (tab : symbolTable)
    (hid : t.ID = 22)
    (hinv : ∀ i, (s.symTable.token i).ID = 0 → s.symTable.token i = tab.token i)
    (h : addSymbol past t s = some s1) :
    ∀ i, (s1.symTable.token i).ID = 0 → s1.symTable.token i = tab.token i := by
  unfold addSymbol at h
  by_cases hd : isDuplicate past t s.symTable = true
  · rw [if_pos hd] at h
    cases h
    exact hinv
  · rw [if_neg hd] at h
    simp only [] at h
    by_cases hneg : getHash t < 0
    · rw [if_pos hneg] at h; cases h
    rw [if_neg hneg] at h
    cases hp : probe s.symTable (SYMBOL_TABLE_LENGTH + 1) (getHash t).toNat with
    | none => rw [hp] at h; cases h
    | some j =>
      rw [hp] at h
      cases h
      intro i
      show ((s.symTable.write j t).token i).ID = 0 → (s.symTable.write j t).token i = tab.token i
      by_cases hij : i = j
      · subst hij
        simp [symbolTable.write, hid]
      · simpa [symbolTable.write, Function.update_noteq hij] using hinv i

theorem untouched_checkSymbol (past : Overrun) (t : token) (s s1 : State) (tab : symbolTable)
    (hinv : ∀ i, (s.symTable.token i).ID = 0 → s.symTable.token i = tab.token i)
    (h : checkSymbol past t s = some s1) :
    ∀ i, (s1.symTable.token i).ID = 0 → s1.symTable.token i = tab.token i := by
  unfold checkSymbol at h
  by_cases hB : strcmpLit t.string "BEGIN" = true
  · rw [if_pos hB] at h; cases h; exact hinv
  · rw [if_neg hB] at h
    by_cases hdecl : t.ID = 22 ∧ s.beginReached = false
    · rw [if_pos hdecl] at h
      by_cases hc : s.symbolCount < SYMBOL_TABLE_LENGTH
      · rw [if_pos hc] at h
        exact untouched_addSymbol past t s s1 tab hdecl.1 hinv h
      · rw [if_neg hc] at h; cases h; exact hinv
    · rw [if_neg hdecl] at h
      by_cases hex : t.ID = 22 ∧ s.beginReached = true
      · rw [if_pos hex] at h
        cases hs : searchForSymbol past t s.symTable with
        | none => rw [hs] at h; cases h
        | some b =>
          rw [hs] at h
          cases b
          · cases h; exact hinv
          · cases h; exact hinv
      · rw [if_neg hex] at h; cases h; exact hinv

theorem untouched_feed (past : Overrun) (tab : symbolTable) (toks : List token) :
    ∀ s s1 : State,
      (∀ i, (s.symTable.token i).ID = 0 → s.symTable.token i = tab.token i) →
      feed past s toks = some s1 →
      ∀ i, (s1.symTable.token i).ID = 0 → s1.symTable.token i = tab.token i := by
  induction toks with
  | nil => intro s s1 hinv h; cases h; exact hinv
  | cons t ts ih =>
    intro s s1 hinv h
    unfold feed at h
    cases hc : checkSymbol past t s with
    | none => rw [hc] at h; cases h
    | some s2 =>
      rw [hc] at h
      exact ih s2 s1 (untouched_checkSymbol past t s s2 tab hinv hc) h

/-! ## Rounds on punctuation -/

/-- The `case` labels of the switch of `buildToken` that only set `stop`. -/
theorem switchChar_plain (c : Nat) (tok : token) (s : Scan) (stop : Bool)
    (hcase : c = 59 ∨ c = 44 ∨ c = 43 ∨ c = 45 ∨ c = 42 ∨ c = 61 ∨ c = 41 ∨ c = 32 ∨ c = 10 ∨
      c = 0 ∨ c = 13) :
    switchChar c tok s stop = Except.ok (tok, s, true) := by
  unfold switchChar
  rw [if_neg (by omega), if_neg (by omega), if_neg (by omega), if_pos hcase]
  rfl

/-- The `case` labels `(` and `:` when the next character does not make the
two-character forms. -/
theorem switchChar_look (c d : Nat) (tok : token) (s : Scan) (stop : Bool)
    (hd : s.currentLine.string[s.currentLine.index + 1]? = some d)
    (hcase : (c = 40 ∧ d ≠ 42) ∨ (c = 58 ∧ d ≠ 61)) :
    switchChar c tok s stop = Except.ok (tok, s, true) := by
  unfold switchChar
  rcases hcase with ⟨rfl, h⟩ | ⟨rfl, h⟩
  · simp only [line.charAt, hd, bind, Except.bind, pure, Except.pure, h, if_false]
    rfl
  · simp only [line.charAt, hd, bind, Except.bind, pure, Except.pure, h, if_false]
    rfl

theorem not_alnum_of_lt (c : Nat) (h : c < 48 ∨ (57 < c ∧ c < 65)) :
    isalnum c = false ∧ isalpha c = false ∧ isdigit c = false := by
  unfold isalnum isalpha isdigit
  simp only [Bool.or_eq_false_iff, Bool.and_eq_false_imp, decide_eq_true_eq, decide_eq_false_iff_not]
  omega

/-- One round of the loop of `buildToken` on a character that makes a lexeme
of its own: one of `; , + - * = )`, NUL, carriage return, a `(` not followed
by `*`, or a `:` not followed by `=`.  The character is stored, token index and
cursor move on by one, and the round stops. -/
theorem buildStep_single (tok : token) (s : Scan) (c d : Nat)
    (hc : s.currentLine.string[s.currentLine.index]? = some c)
    (hd : s.currentLine.string[s.currentLine.index + 1]? = some d)
    (hcase : (c = 59 ∨ c = 44 ∨ c = 43 ∨ c = 45 ∨ c = 42 ∨ c = 61 ∨ c = 41 ∨ c = 0 ∨ c = 13) ∨
      (c = 40 ∧ d ≠ 42) ∨ (c = 58 ∧ d ≠ 61))
    (hroom : tok.index < tok.string.length) :
    buildStep tok s = Except.ok
      ({ tok with string := tok.string.set tok.index c, index := tok.index + 1 },
       { s with
          currentLine := { s.currentLine with index := s.currentLine.index + 1 }
          output := if TOKEN_LENGTH ≤ tok.index + 1 ∧ isalnum d = true then
              s.output ++ [Output.tooManyCharacters] else s.output },
       true) := by
  obtain ⟨hal, ha, hdg⟩ := not_alnum_of_lt c (by omega)
  have h32 : c ≠ 32 := by omega
  have h10 : c ≠ 10 := by omega
  have hsw : ∀ stop, switchChar c { tok with string := tok.string.set tok.index c } s stop =
      Except.ok ({ tok with string := tok.string.set tok.index c }, s, true) := by
    intro stop
    rcases hcase with h | h
    · exact switchChar_plain c _ s stop (by omega)
    · exact switchChar_look c d _ s stop hd h
  unfold buildStep
  simp only [line.charAt, hc, put_eq _ _ hroom, hal, ha, hdg, bind, Except.bind,
    pure, Except.pure, Bool.false_eq_true, if_false, Bool.not_false, if_true, Bool.or_self,
    hsw, ne_eq, h32, h10, not_false_eq_true, and_self, ge_iff_le]
  by_cases hov : TOKEN_LENGTH ≤ tok.index + 1 ∧ isalnum d = true
  · simp [hov, hd]
  · simp [hov, hd]
    exact fun h => Bool.eq_false_iff.mpr (fun h2 => hov ⟨h, h2⟩)

/-- One round of the loop of `buildToken` on a space or a newline: the
character is stored and the round stops; token index and cursor stay. -/
theorem buildStep_stay (tok : token) (s : Scan) (c : Nat)
    (hc : s.currentLine.string[s.currentLine.index]? = some c)
    (hcase : c = 32 ∨ c = 10) (hroom : tok.index < tok.string.length) :
    buildStep tok s = Except.ok
      ({ tok with string := tok.string.set tok.index c }, s, true) := by
  obtain ⟨hal, ha, hdg⟩ := not_alnum_of_lt c (by omega)
  have hsw : ∀ stop, switchChar c { tok with string := tok.string.set tok.index c } s stop =
      Except.ok ({ tok with string := tok.string.set tok.index c }, s, true) :=
    fun stop => switchChar_plain c _ s stop (by omega)
  have hno : ¬ (¬ c = 32 ∧ ¬ c = 10) := by omega
  unfold buildStep
  simp only [line.charAt, hc, put_eq _ _ hroom, hal, ha, hdg, bind, Except.bind,
    pure, Except.pure, Bool.false_eq_true, if_false, Bool.not_false, if_true, Bool.or_self,
    hsw, ne_eq, hno, ge_iff_le]
  by_cases hov : TOKEN_LENGTH ≤ tok.index
  · simp [hov, hal]
  · simp [hov]

/-- One round of the loop of `buildToken` when the token buffer is full: the
store at the top of the loop leaves the buffer. -/
theorem buildStep_full (tok : token) (s : Scan) (c : Nat)
    (hc : s.currentLine.string[s.currentLine.index]? = some c)
    (hfull : ¬ tok.index < tok.string.length) :
    buildStep tok s = Except.error Fault.tokenBounds := by
  unfold buildStep
  simp only [line.charAt, hc, token.put, hfull, bind, Except.bind, pure, Except.pure, if_false,
    throw, throwThe, MonadExceptOf.throw]

theorem set_set_same (l : List Nat) (i a b : Nat) : (l.set i a).set i b = l.set i b := by
  induction l generalizing i with
  | nil => rfl
  | cons x xs ih =>
    cases i with
    | zero => rfl
    | succ j => simp only [List.set_cons_succ, ih]

/-- The `case '.'` of the switch: the `.` is stored, token index and cursor
move on by one, and `stop` is set. -/
theorem switchChar_dot (tok : token) (s : Scan) (stop : Bool)
    (hroom : tok.index < tok.string.length) :
    switchChar 46 tok s stop = Except.ok
      ({ tok with string := tok.string.set tok.index 46, index := tok.index + 1 },
       { s with currentLine := { s.currentLine with index := s.currentLine.index + 1 } },
       true) := by
  unfold switchChar
  simp only [if_true, put_eq _ _ hroom, bind, Except.bind, pure, Except.pure]

/-- One round of the loop of `buildToken` on a `.` followed by a space or a
newline: the `.` is stored, token index and cursor move on by one, and the
round stops. -/
theorem buildStep_dot_end (tok : token) (s : Scan) (d : Nat)
    (hc : s.currentLine.string[s.currentLine.index]? = some 46)
    (hd : s.currentLine.string[s.currentLine.index + 1]? = some d)
    (hcase : d = 32 ∨ d = 10) (hroom : tok.index < tok.string.length) :
    buildStep tok s = Except.ok
      ({ tok with string := tok.string.set tok.index 46, index := tok.index + 1 },
       { s with currentLine := { s.currentLine with index := s.currentLine.index + 1 } },
       true) := by
  have hroom1 : ({ tok with string := tok.string.set tok.index 46 } : token).index <
      ({ tok with string := tok.string.set tok.index 46 } : token).string.length := by
    simpa using hroom
  have hno : ¬ (¬ d = 32 ∧ ¬ d = 10) := by omega
  have hdal : isalnum d = false := (not_alnum_of_lt d (by omega)).1
  unfold buildStep
  simp only [line.charAt, hc, put_eq _ _ hroom, bind, Except.bind, pure, Except.pure,
    show isalpha 46 = false by decide, show isdigit 46 = false by decide,
    show isalnum 46 = false by decide, Bool.false_eq_true, if_false, Bool.not_false, if_true,
    Bool.or_self, switchChar_dot _ s false hroom1, set_set_same, hd, ne_eq, hno, ge_iff_le]
  by_cases hov : TOKEN_LENGTH ≤ tok.index + 1
  · simp [hov, hd, hdal]
  · simp [hov]

/-- One round of the loop of `buildToken` on a `.` followed by a character `d`
that is neither a space nor a newline: the `.` is stored, the round stops, and
token index and cursor move on by two, so the cursor is left behind `d`. -/
theorem buildStep_dot_skip (tok : token) (s : Scan) (d e : Nat)
    (hc : s.currentLine.string[s.currentLine.index]? = some 46)
    (hd : s.currentLine.string[s.currentLine.index + 1]? = some d)
    (he : TOKEN_LENGTH ≤ tok.index + 2 → s.currentLine.string[s.currentLine.index + 2]? = some e)
    (hcase : d ≠ 32 ∧ d ≠ 10) (hroom : tok.index < tok.string.length) :
    buildStep tok s = Except.ok
      ({ tok with string := tok.string.set tok.index 46, index := tok.index + 2 },
       { s with
          currentLine := { s.currentLine with index := s.currentLine.index + 2 }
          output := if TOKEN_LENGTH ≤ tok.index + 2 ∧ isalnum e = true then
              s.output ++ [Output.tooManyCharacters] else s.output },
       true) := by
  have hroom1 : ({ tok with string := tok.string.set tok.index 46 } : token).index <
      ({ tok with string := tok.string.set tok.index 46 } : token).string.length := by
    simpa using hroom
  unfold buildStep
  simp only [line.charAt, hc, put_eq _ _ hroom, bind, Except.bind, pure, Except.pure,
    show isalpha 46 = false by decide, show isdigit 46 = false by decide,
    show isalnum 46 = false by decide, Bool.false_eq_true, if_false, Bool.not_false, if_true,
    Bool.or_self, switchChar_dot _ s false hroom1, set_set_same, hd, ne_eq, hcase.1, hcase.2,
    not_false_eq_true, and_self, ge_iff_le, Nat.add_assoc]
  by_cases hov : TOKEN_LENGTH ≤ tok.index + 2
  · have he1 := he hov
    cases hal : isalnum e <;> simp [hov, he1, hal]
  · simp [hov]

/-- The `case ':'` of the switch in front of `=`: both characters are stored,
token index and cursor move on by one, and `stop` is set. -/
theorem switchChar_assign (tok : token) (s : Scan) (stop : Bool)
    (hd : s.currentLine.string[s.currentLine.index + 1]? = some 61)
    (hroom : tok.index + 1 < tok.string.length) :
    switchChar 58 tok s stop = Except.ok
      ({ tok with
          string := (tok.string.set tok.index 58).set (tok.index + 1) 61
          index := tok.index + 1 },
       { s with currentLine := { s.currentLine with index := s.currentLine.index + 1 } },
       true) := by
  have h0 : tok.index < tok.string.length := by omega
  have h1 : ({ tok with string := tok.string.set tok.index 58, index := tok.index + 1 } :
      token).index < ({ tok with string := tok.string.set tok.index 58, index := tok.index + 1 } :
      token).string.length := by
    simpa using hroom
  unfold switchChar
  simp only [show ¬ (58 = 46) by decide, if_false, if_true, line.charAt, hd, put_eq _ _ h0,
    put_eq _ _ h1, bind, Except.bind, pure, Except.pure]

/-- The `case ':'` of the switch in front of `=` when the token buffer has one
free cell only: the store of the `=` leaves the buffer. -/
theorem switchChar_assign_full (tok : token) (s : Scan) (stop : Bool)
    (hd : s.currentLine.string[s.currentLine.index + 1]? = some 61)
    (hroom : tok.index < tok.string.length) (hfull : ¬ tok.index + 1 < tok.string.length) :
    switchChar 58 tok s stop = Except.error Fault.tokenBounds := by
  have h1 : ¬ ({ tok with string := tok.string.set tok.index 58, index := tok.index + 1 } :
      token).index < ({ tok with string := tok.string.set tok.index 58, index := tok.index + 1 } :
      token).string.length := by
    simpa using hfull
  unfold switchChar
  simp only [show ¬ (58 = 46) by decide, if_false, if_true, line.charAt, hd, put_eq _ _ hroom,
    bind, Except.bind, pure, Except.pure]
  simp only [token.put, h1, if_false, throw, throwThe, MonadExceptOf.throw]

/-- One round of the loop of `buildToken` on `:=`: both characters are stored,
the round stops, and token index and cursor move on by two. -/
theorem buildStep_assign (tok : token) (s : Scan) (e : Nat)
    (hc : s.currentLine.string[s.currentLine.index]? = some 58)
    (hd : s.currentLine.string[s.currentLine.index + 1]? = some 61)
    (he : TOKEN_LENGTH ≤ tok.index + 2 → s.currentLine.string[s.currentLine.index + 2]? = some e)
    (hroom : tok.index + 1 < tok.string.length) :
    buildStep tok s = Except.ok
      ({ tok with
          string := (tok.string.set tok.index 58).set (tok.index + 1) 61
          index := tok.index + 2 },
       { s with
          currentLine := { s.currentLine with index := s.currentLine.index + 2 }
          output := if TOKEN_LENGTH ≤ tok.index + 2 ∧ isalnum e = true then
              s.output ++ [Output.tooManyCharacters] else s.output },
       true) := by
  have h0 : tok.index < tok.string.length := by omega
  have hroom1 : ({ tok with string := tok.string.set tok.index 58 } : token).index + 1 <
      ({ tok with string := tok.string.set tok.index 58 } : token).string.length := by
    simpa using hroom
  unfold buildStep
  simp only [line.charAt, hc, put_eq _ _ h0, bind, Except.bind, pure, Except.pure,
    show isalpha 58 = false by decide, show isdigit 58 = false by decide,
    show isalnum 58 = false by decide, Bool.false_eq_true, if_false, Bool.not_false, if_true,
    Bool.or_self, switchChar_assign _ s false hd hroom1, set_set_same, hd, ne_eq,
    show ¬ (61 = 32) by decide, show ¬ (61 = 10) by decide,
    not_false_eq_true, and_self, ge_iff_le, Nat.add_assoc]
  by_cases hov : TOKEN_LENGTH ≤ tok.index + 2
  · have he1 := he hov
    cases hal : isalnum e <;> simp [hov, he1, hal]
  · simp [hov]

/-- One round of the loop of `buildToken` on `:=` when the token buffer has one
free cell only: the store of the `=` leaves the buffer. -/
theorem buildStep_assign_full (tok : token) (s : Scan)
    (hc : s.currentLine.string[s.currentLine.index]? = some 58)
    (hd : s.currentLine.string[s.currentLine.index + 1]? = some 61)
    (hroom : tok.index < tok.string.length) (hfull : ¬ tok.index + 1 < tok.string.length) :
    buildStep tok s = Except.error Fault.tokenBounds := by
  have hfull1 : ¬ ({ tok with string := tok.string.set tok.index 58 } : token).index + 1 <
      ({ tok with string := tok.string.set tok.index 58 } : token).string.length := by
    simpa using hfull
  have hroom1 : ({ tok with string := tok.string.set tok.index 58 } : token).index <
      ({ tok with string := tok.string.set tok.index 58 } : token).string.length := by
    simpa using hroom
  unfold buildStep
  simp only [line.charAt, hc, put_eq _ _ hroom, bind, Except.bind, pure, Except.pure,
    show isalpha 58 = false by decide, show isdigit 58 = false by decide,
    show isalnum 58 = false by decide, Bool.false_eq_true, if_false, Bool.not_false, if_true,
    Bool.or_self, switchChar_assign_full _ s false hd hroom1 hfull1]

/-! ## Tokens that end in their first round -/

/-- When the first round of the loop stops, `buildToken` returns what that
round built. -/
theorem buildToken_first (uninitID : Int) (s : Scan) (pre : List Nat) (m : Nat)
    (c : Nat) (rest : List Nat) (t : token) (s1 : Scan)
    (hstr : s.currentLine.string = pre ++ List.replicate m 32 ++ c :: rest)
    (hidx : s.currentLine.index = pre.length)
    (hsize : s.currentLine.string.length ≤ LINE_LENGTH)
    (hc32 : c ≠ 32)
    (hstep : buildStep (partialToken [])
      { s with currentLine := { s.currentLine with index := pre.length + m } } =
      Except.ok (t, s1, true)) :
    buildToken uninitID s = Except.ok ({ t with ID := uninitID }, s1) := by
  have hm : m < LINE_LENGTH + 1 := by
    have := congrArg List.length hstr
    simp only [List.length_append, List.length_replicate, List.length_cons] at this
    omega
  have hskip := skipSpaces_run c rest hc32 m pre s.currentLine (LINE_LENGTH + 1) hstr hidx hm
  have hp : ({ string := List.replicate TOKEN_LENGTH 0, index := 0, ID := 0 } : token) =
      partialToken [] := rfl
  unfold buildToken
  rw [hskip]
  simp only [bind, Except.bind]
  rw [hp, buildLoop_succ, hstep]
  rfl

theorem getElem?_first (pre : List Nat) (m : Nat) (c : Nat) (rest : List Nat) :
    (pre ++ List.replicate m 32 ++ c :: rest)[pre.length + m]? = some c := by
  have := getElem?_mid (pre ++ List.replicate m 32) c rest
  simpa using this

theorem getElem?_second (pre : List Nat) (m : Nat) (c d : Nat) (post : List Nat) :
    (pre ++ List.replicate m 32 ++ c :: d :: post)[pre.length + m + 1]? = some d := by
  have h1 : pre ++ List.replicate m 32 ++ c :: d :: post =
      (pre ++ List.replicate m 32 ++ [c]) ++ d :: post := by simp
  have h2 : pre.length + m + 1 = (pre ++ List.replicate m 32 ++ [c]).length := by
    simp [Nat.add_assoc]
  rw [h1, h2]
  exact getElem?_mid _ d post

/-- A character that makes a lexeme of its own, behind the spaces `buildToken`
skips: the lexeme is that character, the cursor moves behind it, and nothing is
printed. -/
theorem buildToken_single (uninitID : Int) (s : Scan) (pre : List Nat) (m : Nat)
    (c d : Nat) (post : List Nat)
    (hstr : s.currentLine.string = pre ++ List.replicate m 32 ++ c :: d :: post)
    (hidx : s.currentLine.index = pre.length)
    (hsize : s.currentLine.string.length ≤ LINE_LENGTH)
    (hcase : (c = 59 ∨ c = 44 ∨ c = 43 ∨ c = 45 ∨ c = 42 ∨ c = 61 ∨ c = 41 ∨ c = 0 ∨ c = 13) ∨
      (c = 40 ∧ d ≠ 42) ∨ (c = 58 ∧ d ≠ 61)) :
    buildToken uninitID s = Except.ok
      ({ string := c :: List.replicate (TOKEN_LENGTH - 1) 0, index := 1, ID := uninitID },
       { s with currentLine := { s.currentLine with index := pre.length + m + 1 } }) := by
  have hstep := buildStep_single (partialToken [])
    { s with currentLine := { s.currentLine with index := pre.length + m } } c d
    (by rw [hstr]; exact getElem?_first pre m c _)
    (by rw [hstr]; exact getElem?_second pre m c d post) hcase (by decide)
  have hno : ¬ (TOKEN_LENGTH ≤ (partialToken []).index + 1 ∧ isalnum d = true) := by
    intro h; exact absurd h.1 (by decide)
  rw [if_neg hno] at hstep
  exact buildToken_first uninitID s pre m c (d :: post) _ _ hstr hidx hsize (by omega) hstep

/-- The two characters `:=` behind the spaces `buildToken` skips: the lexeme is
`:=`, the cursor moves behind the `=`, and nothing is printed. -/
theorem buildToken_assign (uninitID : Int) (s : Scan) (pre : List Nat) (m : Nat)
    (post : List Nat)
    (hstr : s.currentLine.string = pre ++ List.replicate m 32 ++ 58 :: 61 :: post)
    (hidx : s.currentLine.index = pre.length)
    (hsize : s.currentLine.string.length ≤ LINE_LENGTH) :
    buildToken uninitID s = Except.ok
      ({ string := 58 :: 61 :: List.replicate (TOKEN_LENGTH - 2) 0, index := 2, ID := uninitID },
       { s with currentLine := { s.currentLine with index := pre.length + m + 2 } }) := by
  have hstep := buildStep_assign (partialToken [])
    { s with currentLine := { s.currentLine with index := pre.length + m } } 0
    (by rw [hstr]; exact getElem?_first pre m 58 _)
    (by rw [hstr]; exact getElem?_second pre m 58 61 post)
    (fun h => absurd h (by decide)) (by decide)
  have hno : ¬ (TOKEN_LENGTH ≤ (partialToken []).index + 2 ∧ isalnum 0 = true) := by
    intro h; exact absurd h.1 (by decide)
  rw [if_neg hno] at hstep
  exact buildToken_first uninitID s pre m 58 (61 :: post) _ _ hstr hidx hsize (by decide) hstep

/-- A `.` behind the spaces `buildToken` skips, followed by a space or a
newline: the lexeme is `.` and the cursor is left on the character behind it. -/
theorem buildToken_dot_end (uninitID : Int) (s : Scan) (pre : List Nat) (m : Nat)
    (d : Nat) (post : List Nat)
    (hstr : s.currentLine.string = pre ++ List.replicate m 32 ++ 46 :: d :: post)
    (hidx : s.currentLine.index = pre.length)
    (hsize : s.currentLine.string.length ≤ LINE_LENGTH)
    (hcase : d = 32 ∨ d = 10) :
    buildToken uninitID s = Except.ok
      ({ string := 46 :: List.replicate (TOKEN_LENGTH - 1) 0, index := 1, ID := uninitID },
       { s with currentLine := { s.currentLine with index := pre.length + m + 1 } }) := by
  have hstep := buildStep_dot_end (partialToken [])
    { s with currentLine := { s.currentLine with index := pre.length + m } } d
    (by rw [hstr]; exact getElem?_first pre m 46 _)
    (by rw [hstr]; exact getElem?_second pre m 46 d post) hcase (by decide)
  exact buildToken_first uninitID s pre m 46 (d :: post) _ _ hstr hidx hsize (by decide) hstep

/-- A `.` behind the spaces `buildToken` skips, followed by a character `d` that
is neither a space nor a newline: the lexeme is `.`, and the cursor is left
behind `d`, two cells behind the `.`. -/
theorem buildToken_dot_skip (uninitID : Int) (s : Scan) (pre : List Nat) (m : Nat)
    (d : Nat) (post : List Nat)
    (hstr : s.currentLine.string = pre ++ List.replicate m 32 ++ 46 :: d :: post)
    (hidx : s.currentLine.index = pre.length)
    (hsize : s.currentLine.string.length ≤ LINE_LENGTH)
    (hcase : d ≠ 32 ∧ d ≠ 10) :
    buildToken uninitID s = Except.ok
      ({ string := 46 :: List.replicate (TOKEN_LENGTH - 1) 0, index := 2, ID := uninitID },
       { s with currentLine := { s.currentLine with index := pre.length + m + 2 } }) := by
  have hstep := buildStep_dot_skip (partialToken [])
    { s with currentLine := { s.currentLine with index := pre.length + m } } d 0
    (by rw [hstr]; exact getElem?_first pre m 46 _)
    (by rw [hstr]; exact getElem?_second pre m 46 d post)
    (fun h => absurd h (by decide)) hcase (by decide)
  have hno : ¬ (TOKEN_LENGTH ≤ (partialToken []).index + 2 ∧ isalnum 0 = true) := by
    intro h; exact absurd h.1 (by decide)
  rw [if_neg hno] at hstep
  exact buildToken_first uninitID s pre m 46 (d :: post) _ _ hstr hidx hsize (by decide) hstep

/-! ## Progress of `buildToken` on a line that ends with its newline -/

theorem exists_getElem?_of_le (L : List Nat) (n i x : Nat) (hnl : L[n]? = some x) (h : i ≤ n) :
    ∃ c, L[i]? = some c := by
  have hn : n < L.length := by
    by_contra hcon
    rw [List.getElem?_eq_none (by omega)] at hnl
    cases hnl
  exact ⟨L[i], List.getElem?_eq_getElem (by omega)⟩

/-- The loop that skips spaces, started at or before the newline of the line,
stops at or before the newline, on a character that is not a space. -/
theorem skipSpaces_safe (L : List Nat) (n : Nat) (hnl : L[n]? = some 10) :
    ∀ (k : Nat) (l : line) (fuel : Nat), l.string = L → l.index ≤ n → n - l.index = k →
      k < fuel →
      ∃ j, skipSpaces fuel l = Except.ok { l with index := j } ∧ l.index ≤ j ∧ j ≤ n ∧
        L[j]? ≠ some 32 := by
  intro k
  induction k with
  | zero =>
    intro l fuel hL hi hk hfuel
    obtain ⟨fuel1, rfl⟩ : ∃ f, fuel = f + 1 := ⟨fuel - 1, by omega⟩
    have hin : l.index = n := by omega
    have hc : l.string[l.index]? = some 10 := by rw [hL, hin]; exact hnl
    refine ⟨l.index, ?_, Nat.le_refl _, hi, ?_⟩
    · unfold skipSpaces
      simp only [line.charAt, hc, bind, Except.bind, pure, Except.pure,
        show ¬ (10 = 32) by decide, if_false]
    · rw [hin, hnl]; decide
  | succ k ih =>
    intro l fuel hL hi hk hfuel
    obtain ⟨fuel1, rfl⟩ : ∃ f, fuel = f + 1 := ⟨fuel - 1, by omega⟩
    obtain ⟨c, hc⟩ := exists_getElem?_of_le L n l.index 10 hnl hi
    have hc1 : l.string[l.index]? = some c := by rw [hL]; exact hc
    by_cases h32 : c = 32
    · obtain ⟨j, hj, h1, h2, h3⟩ := ih { l with index := l.index + 1 } fuel1 hL
        (show l.index + 1 ≤ n by omega) (show n - (l.index + 1) = k by omega) (by omega)
      refine ⟨j, ?_, by simp only at h1; omega, h2, h3⟩
      unfold skipSpaces
      simp only [line.charAt, hc1, bind, Except.bind, pure, Except.pure, h32, if_true]
      exact hj
    · refine ⟨l.index, ?_, Nat.le_refl _, hi, ?_⟩
      · unfold skipSpaces
        simp only [line.charAt, hc1, bind, Except.bind, pure, Except.pure, h32, if_false]
      · rw [hc]; intro h; exact h32 (Option.some.inj h)

theorem disallowed_of_not (c : Nat) (hal : isalnum c = false)
    (h : ¬ (c = 46 ∨ c = 58 ∨ c = 40 ∨ c = 59 ∨ c = 44 ∨ c = 43 ∨ c = 45 ∨ c = 42 ∨ c = 61 ∨
      c = 41 ∨ c = 32 ∨ c = 10 ∨ c = 0 ∨ c = 13)) : disallowed c = true := by
  unfold disallowed
  rw [hal]
  simp only [Bool.not_false, Bool.true_and, Bool.not_eq_true', decide_eq_false_iff_not]
  exact h

/-- One round of the loop of `buildToken` on a line that ends with its newline
at index `n` and holds no `(*`, the cursor at or before the newline: the round
either leaves the token buffer, or it returns with the line, the file and the
line number unchanged and the cursor not moved back and not behind the newline;
and a round that leaves the cursor where it was has read a space or the newline
and has set `stop`. -/
theorem buildStep_safe (L : List Nat) (n : Nat) (hnl : L[n]? = some 10)
    (hcomment : ∀ j, j < n → L[j]? = some 40 → L[j + 1]? ≠ some 42)
    (tok : token) (s : Scan) (hL : s.currentLine.string = L) (hi : s.currentLine.index ≤ n) :
    buildStep tok s = Except.error Fault.tokenBounds ∨
    ∃ t1 k out stop,
      buildStep tok s = Except.ok
        (t1, { s with currentLine := { s.currentLine with index := k }, output := out }, stop) ∧
      s.currentLine.index ≤ k ∧ k ≤ n ∧
      (k = s.currentLine.index → stop = true ∧ (L[k]? = some 32 ∨ L[k]? = some 10)) := by
  obtain ⟨c, hc0⟩ := exists_getElem?_of_le L n s.currentLine.index 10 hnl hi
  have hc : s.currentLine.string[s.currentLine.index]? = some c := by rw [hL]; exact hc0
  by_cases hroom : tok.index < tok.string.length
  swap
  · exact Or.inl (buildStep_full tok s c hc hroom)
  by_cases hstay : c = 32 ∨ c = 10
  · refine Or.inr ⟨_, s.currentLine.index, s.output, true,
      buildStep_stay tok s c hc hstay hroom, Nat.le_refl _, hi, fun _ => ⟨rfl, ?_⟩⟩
    rcases hstay with h | h
    · left; rw [hc0, h]
    · right; rw [hc0, h]
  have h32 : c ≠ 32 := fun h => hstay (Or.inl h)
  have h10 : c ≠ 10 := fun h => hstay (Or.inr h)
  have hlt : s.currentLine.index < n := by
    rcases Nat.lt_or_ge s.currentLine.index n with h | h
    · exact h
    · have : s.currentLine.index = n := by omega
      rw [this, hnl] at hc0
      exact absurd (Option.some.inj hc0).symm h10
  obtain ⟨d, hd0⟩ := exists_getElem?_of_le L n (s.currentLine.index + 1) 10 hnl hlt
  have hd : s.currentLine.string[s.currentLine.index + 1]? = some d := by rw [hL]; exact hd0
  by_cases hal : isalnum c = true
  · exact Or.inr ⟨_, s.currentLine.index + 1, _, _, buildStep_alnum tok s c d hc hd hal hroom,
      by omega, hlt, fun h => absurd h (by omega)⟩
  have hal : isalnum c = false := by simpa using hal
  have hnext : d ≠ 10 → ∃ e, s.currentLine.string[s.currentLine.index + 2]? = some e := by
    intro hd10
    have hlt2 : s.currentLine.index + 1 < n := by
      rcases Nat.lt_or_ge (s.currentLine.index + 1) n with h | h
      · exact h
      · have : s.currentLine.index + 1 = n := by omega
        rw [this, hnl] at hd0
        exact absurd (Option.some.inj hd0).symm hd10
    obtain ⟨e, he⟩ := exists_getElem?_of_le L n (s.currentLine.index + 2) 10 hnl hlt2
    exact ⟨e, by rw [hL]; exact he⟩
  have hle2 : d ≠ 10 → s.currentLine.index + 2 ≤ n := by
    intro hd10
    rcases Nat.lt_or_ge (s.currentLine.index + 1) n with h | h
    · exact h
    · have : s.currentLine.index + 1 = n := by omega
      rw [this, hnl] at hd0
      exact absurd (Option.some.inj hd0).symm hd10
  by_cases h46 : c = 46
  · subst h46
    by_cases hdend : d = 32 ∨ d = 10
    · exact Or.inr ⟨_, s.currentLine.index + 1, _, _,
        buildStep_dot_end tok s d hc hd hdend hroom, by omega, hlt, fun h => absurd h (by omega)⟩
    · have hd32 : d ≠ 32 := fun h => hdend (Or.inl h)
      have hd10 : d ≠ 10 := fun h => hdend (Or.inr h)
      obtain ⟨e, he⟩ := hnext hd10
      exact Or.inr ⟨_, s.currentLine.index + 2, _, _,
        buildStep_dot_skip tok s d e hc hd (fun _ => he) ⟨hd32, hd10⟩ hroom, by omega,
        hle2 hd10, fun h => absurd h (by omega)⟩
  by_cases h58 : c = 58
  · subst h58
    by_cases hd61 : d = 61
    · subst hd61
      by_cases hroom1 : tok.index + 1 < tok.string.length
      · obtain ⟨e, he⟩ := hnext (by decide)
        exact Or.inr ⟨_, s.currentLine.index + 2, _, _,
          buildStep_assign tok s e hc hd (fun _ => he) hroom1, by omega,
          hle2 (by decide), fun h => absurd h (by omega)⟩
      · exact Or.inl (buildStep_assign_full tok s hc hd hroom hroom1)
    · exact Or.inr ⟨_, s.currentLine.index + 1, _, _,
        buildStep_single tok s 58 d hc hd (Or.inr (Or.inr ⟨rfl, hd61⟩)) hroom, by omega, hlt,
        fun h => absurd h (by omega)⟩
  by_cases h40 : c = 40
  · subst h40
    have hd42 : d ≠ 42 := by
      intro h
      exact hcomment s.currentLine.index hlt hc0 (by rw [hd0, h])
    exact Or.inr ⟨_, s.currentLine.index + 1, _, _,
      buildStep_single tok s 40 d hc hd (Or.inr (Or.inl ⟨rfl, hd42⟩)) hroom, by omega, hlt,
      fun h => absurd h (by omega)⟩
  by_cases hlist : c = 59 ∨ c = 44 ∨ c = 43 ∨ c = 45 ∨ c = 42 ∨ c = 61 ∨ c = 41 ∨ c = 0 ∨ c = 13
  · exact Or.inr ⟨_, s.currentLine.index + 1, _, _,
      buildStep_single tok s c d hc hd (Or.inl hlist) hroom, by omega, hlt,
      fun h => absurd h (by omega)⟩
  · have hdis : disallowed c = true := disallowed_of_not c hal (by omega)
    exact Or.inr ⟨_, s.currentLine.index + 1, _, _,
      buildStep_disallowed tok s c d hc hd hdis hroom, by omega, hlt,
      fun h => absurd h (by omega)⟩

/-- The loop of `buildToken` on a line that ends with its newline at index `n`
and holds no `(*`, the cursor at or before the newline: the loop either leaves
the token buffer, or it returns with the line, the file and the line number
unchanged and the cursor not moved back and not behind the newline; if the
cursor is where it was, it is on a space or on the newline. -/
theorem buildLoop_safe (L : List Nat) (n : Nat) (hnl : L[n]? = some 10)
    (hcomment : ∀ j, j < n → L[j]? = some 40 → L[j + 1]? ≠ some 42) :
    ∀ (fuel : Nat) (tok : token) (s : Scan), s.currentLine.string = L →
      s.currentLine.index ≤ n → n - s.currentLine.index < fuel →
      buildLoop fuel tok s = Except.error Fault.tokenBounds ∨
      ∃ t k out,
        buildLoop fuel tok s = Except.ok
          (t, { s with currentLine := { s.currentLine with index := k }, output := out }) ∧
        s.currentLine.index ≤ k ∧ k ≤ n ∧
        (k = s.currentLine.index → L[k]? = some 32 ∨ L[k]? = some 10) := by
  intro fuel
  induction fuel with
  | zero => intro tok s _ _ h; omega
  | succ fuel ih =>
    intro tok s hL hi hfuel
    rw [buildLoop_succ]
    rcases buildStep_safe L n hnl hcomment tok s hL hi with hstep | ⟨t1, k, out, stop, hstep, h1, h2, h3⟩
    · left
      rw [hstep]
      rfl
    · rw [hstep]
      cases stop with
      | true =>
        right
        exact ⟨t1, k, out, rfl, h1, h2, fun h => (h3 h).2⟩
      | false =>
        have hk : s.currentLine.index < k := by
          rcases Nat.lt_or_ge s.currentLine.index k with h | h
          · exact h
          · have hkeq : k = s.currentLine.index := by omega
            exact absurd (h3 hkeq).1 (by decide)
        rcases ih t1 { s with currentLine := { s.currentLine with index := k }, output := out }
          hL h2 (show n - k < fuel by omega) with hrest | ⟨t, j, out1, hrest, h4, h5, _⟩
        · left
          simp only [Except.bind, Bool.false_eq_true, if_false]
          exact hrest
        · right
          refine ⟨t, j, out1, ?_, ?_, h5, fun h => ?_⟩
          · simp only [Except.bind, Bool.false_eq_true, if_false]
            exact hrest
          · simp only at h4; omega
          · simp only at h4; omega

/-- The function `buildToken` on a line buffer of at most 81 cells that ends
with its only newline at index `n` and holds no `(*`, the cursor at or before
the newline: the call either leaves the token buffer, or it returns with the
line, the file and the line number unchanged, the cursor not moved back and not
behind the newline, and either moved on or on the newline. -/
theorem buildToken_safe (L : List Nat) (n : Nat) (hnl : L[n]? = some 10)
    (hbefore : ∀ j, j < n → L[j]? ≠ some 10)
    (hcomment : ∀ j, j < n → L[j]? = some 40 → L[j + 1]? ≠ some 42)
    (hsize : L.length ≤ LINE_LENGTH)
    (uninitID : Int) (s : Scan) (hL : s.currentLine.string = L) (hi : s.currentLine.index ≤ n) :
    buildToken uninitID s = Except.error Fault.tokenBounds ∨
    ∃ t k out,
      buildToken uninitID s = Except.ok
        (t, { s with currentLine := { s.currentLine with index := k }, output := out }) ∧
      s.currentLine.index ≤ k ∧ k ≤ n ∧ (s.currentLine.index < k ∨ k = n) := by
  have hn : n < L.length := by
    by_contra hcon
    rw [List.getElem?_eq_none (by omega)] at hnl
    cases hnl
  have hn80 : n < LINE_LENGTH := by omega
  obtain ⟨i1, hskip, h1, h2, h3⟩ := skipSpaces_safe L n hnl (n - s.currentLine.index)
    s.currentLine (LINE_LENGTH + 1) hL hi rfl (by omega)
  unfold buildToken
  rw [hskip]
  simp only [bind, Except.bind]
  rcases buildLoop_safe L n hnl hcomment (LINE_LENGTH + 1)
      { string := List.replicate TOKEN_LENGTH 0, index := 0, ID := 0 }
      { s with currentLine := { s.currentLine with index := i1 } } hL h2
      (show n - i1 < LINE_LENGTH + 1 by omega) with hloop | ⟨t, k, out, hloop, h4, h5, h6⟩
  · left
    rw [hloop]
  · right
    rw [hloop]
    refine ⟨{ t with ID := uninitID }, k, out, rfl, ?_, h5, ?_⟩
    · simp only at h4; omega
    · simp only at h4
      rcases Nat.lt_or_ge s.currentLine.index k with h | h
      · exact Or.inl h
      · right
        have hk1 : k = i1 := by omega
        have hk0 : k = s.currentLine.index := by omega
        rcases h6 hk1 with h7 | h7
        · rw [hk1] at h7; exact absurd h7 h3
        · rcases Nat.lt_or_ge k n with hlt | hge
          · exact absurd h7 (hbefore k hlt)
          · omega

/-! ## Buffers that hold their terminator -/

/-- A buffer whose C string is shorter than the buffer holds a NUL. -/
theorem mem_zero_of_cstr_lt (s : List Nat) (h : (cstr s).length < s.length) : 0 ∈ s := by
  unfold cstr at h
  induction s with
  | nil => simp at h
  | cons c cs ih =>
    by_cases hc : c = 0
    · subst hc; exact List.mem_cons_self 0 cs
    · have hb : (c != 0) = true := by simpa using hc
      rw [List.takeWhile_cons, hb] at h
      simp only [if_true, List.length_cons] at h
      exact List.mem_cons_of_mem c (ih (by omega))

theorem printed_terminated (s : List Nat) (h : 0 ∈ s) : printed s = some (cstr s) := by
  unfold printed
  rw [if_pos h]

theorem keepsPrefix_refl (t : token) : keepsPrefix t t :=
  ⟨Nat.le_refl _, rfl, fun _ _ => rfl⟩

theorem keepsPrefix_trans (a b c : token) (h1 : keepsPrefix a b) (h2 : keepsPrefix b c) :
    keepsPrefix a c :=
  ⟨Nat.le_trans h1.1 h2.1, h2.2.1.trans h1.2.1,
    fun j hj => (h2.2.2 j (Nat.lt_of_lt_of_le hj h1.1)).trans (h1.2.2 j hj)⟩

theorem keepsPrefix_put (t t1 : token) (c : Nat) (h : t.put c = Except.ok t1) :
    keepsPrefix t t1 ∧ t1.index = t.index := by
  unfold token.put at h
  by_cases hr : t.index < t.string.length
  · rw [if_pos hr] at h
    cases h
    refine ⟨⟨Nat.le_refl _, by simp, fun j hj => ?_⟩, rfl⟩
    show (t.string.set t.index c)[j]? = t.string[j]?
    rw [List.getElem?_set_ne (by omega)]
  · rw [if_neg hr] at h
    cases h

theorem keepsPrefix_index (t : token) (k : Nat) : keepsPrefix t { t with index := t.index + k } :=
  ⟨Nat.le_add_right _ _, rfl, fun _ _ => rfl⟩

theorem bind_ok {α β : Type} (x : Except Fault α) (f : α → Except Fault β) (b : β)
    (h : x.bind f = Except.ok b) : ∃ a, x = Except.ok a ∧ f a = Except.ok b := by
  cases x with
  | error e => cases h
  | ok a => exact ⟨a, rfl, h⟩

/-- The switch of `buildToken` continues the token it is given. -/
theorem switchChar_keeps (c : Nat) (tok : token) (s : Scan) (stop : Bool)
    (t1 : token) (s1 : Scan) (stop1 : Bool)
    (h : switchChar c tok s stop = Except.ok (t1, s1, stop1)) : keepsPrefix tok t1 := by
  unfold switchChar at h
  split at h
  · obtain ⟨a, ha, hb⟩ := bind_ok _ _ _ h
    cases hb
    exact keepsPrefix_trans _ _ _ (keepsPrefix_put _ _ _ ha).1 (keepsPrefix_index a 1)
  split at h
  · obtain ⟨d, _, hb⟩ := bind_ok _ _ _ h
    split at hb
    · obtain ⟨a, ha, hb⟩ := bind_ok _ _ _ hb
      obtain ⟨e, _, hb⟩ := bind_ok _ _ _ hb
      obtain ⟨a2, ha2, hb⟩ := bind_ok _ _ _ hb
      cases hb
      exact keepsPrefix_trans _ _ _ (keepsPrefix_put _ _ _ ha).1
        (keepsPrefix_trans _ _ _ (keepsPrefix_index a 1) (keepsPrefix_put _ _ _ ha2).1)
    · cases hb
      exact keepsPrefix_refl _
  split at h
  · obtain ⟨d, _, hb⟩ := bind_ok _ _ _ h
    split at hb
    · obtain ⟨a, ha, hb⟩ := bind_ok _ _ _ hb
      obtain ⟨s2, _, hb⟩ := bind_ok _ _ _ hb
      cases hb
      exact (keepsPrefix_put _ _ _ ha).1
    · cases hb
      exact keepsPrefix_refl _
  split at h
  · cases h
    exact keepsPrefix_refl _
  · cases h
    exact keepsPrefix_refl _

theorem switchChar_keeps_fst (c : Nat) (tok : token) (s : Scan) (stop : Bool)
    (r : token × Scan × Bool) (h : switchChar c tok s stop = Except.ok r) :
    keepsPrefix tok r.1 :=
  switchChar_keeps c tok s stop r.1 r.2.1 r.2.2 h

/-- One round of the loop of `buildToken` continues the token it is given. -/
theorem buildStep_keeps (tok : token) (s : Scan) (t1 : token) (s1 : Scan) (stop : Bool)
    (h0 : buildStep tok s = Except.ok (t1, s1, stop)) : keepsPrefix tok t1 := by
  unfold buildStep at h0
  obtain ⟨c, _, h1⟩ := bind_ok _ _ _ h0
  obtain ⟨a, ha, h⟩ := bind_ok _ _ _ h1
  clear h0 h1
  have hput := (keepsPrefix_put _ _ _ ha).1
  simp only [bind, Except.bind, pure, Except.pure] at h
  repeat' split at h
  all_goals cases h
  all_goals first
    | exact hput
    | exact keepsPrefix_trans _ _ _ hput (keepsPrefix_index _ 1)
    | exact keepsPrefix_trans _ _ _ hput
        (switchChar_keeps_fst _ _ _ _ _ ‹switchChar c a s _ = Except.ok _›)
    | exact keepsPrefix_trans _ _ _ hput
        (keepsPrefix_trans _ _ _
          (switchChar_keeps_fst _ _ _ _ _ ‹switchChar c a s _ = Except.ok _›)
          (keepsPrefix_index _ 1))

/-- The loop of `buildToken` continues the token it is given. -/
theorem buildLoop_keeps :
    ∀ (fuel : Nat) (tok : token) (s : Scan) (t1 : token) (s1 : Scan),
      buildLoop fuel tok s = Except.ok (t1, s1) → keepsPrefix tok t1 := by
  intro fuel
  induction fuel with
  | zero => intro tok s t1 s1 h; cases h
  | succ fuel ih =>
    intro tok s t1 s1 h
    rw [buildLoop_succ] at h
    obtain ⟨r, hr, h⟩ := bind_ok _ _ _ h
    obtain ⟨t2, s2, st⟩ := r
    have h2 := buildStep_keeps tok s t2 s2 st hr
    cases st with
    | true =>
      simp only [if_true] at h
      cases h
      exact h2
    | false =>
      simp only [Bool.false_eq_true, if_false] at h
      exact keepsPrefix_trans _ _ _ h2 (ih t2 s2 t1 s1 h)

/-- In Executable phase, an identifier-kind token whose lexeme is not BEGIN and
is in no slot, and whose hash is not negative: `checkSymbol` adds the "was not
declared" diagnostic and nothing else. -/
theorem checkSymbol_undeclared (past : Overrun) (s : State) (t : token)
    (hphase : s.beginReached = true) (hid : t.ID = 22)
    (hB : cstr t.string ≠ lit "BEGIN")
    (hno : ∀ i, cstr (s.symTable.token i).string ≠ cstr t.string)
    (hh : 0 ≤ getHash t) :
    checkSymbol past t s =
      some { s with output := s.output ++ [Output.notDeclared t.string] } := by
  unfold checkSymbol
  rw [if_neg (by simpa [strcmpLit] using hB), if_neg (by simp [hphase]),
    if_pos ⟨hid, hphase⟩]
  have hs : searchForSymbol past t s.symTable = some false := by
    unfold searchForSymbol
    simp only []
    rw [if_neg (by omega)]
    exact searchLoop_no_match past t s.symTable (fun i => strcmp_ne past _ _ (hno i)) _ _ _
      (Nat.le_of_lt (getHash_toNat_lt t))
  rw [hs]
  rfl

/-- For every token-type table whose entries hold NUL-terminated lexemes that
are pairwise distinct, with non-zero kinds, and for every token, `assignID` sets
the ID as the reference classifier does. -/
theorem assignID_classifySpec (past : Overrun) (table : tokenTable) (tok : token)
    (hterm : ∀ i, 0 ∈ (table.token i).string)
    (hdistinct : ∀ i j, cstr (table.token i).string = cstr (table.token j).string → i = j)
    (hkind : ∀ i, (table.token i).ID ≠ 0) :
    (assignID past table tok).ID = classifySpec table (cstr tok.string) := by
  unfold assignID classifySpec
  simp only []
  cases h : kindOf table (cstr tok.string) with
  | some k =>
    obtain ⟨i, hi, hk⟩ := kindOf_some table _ k h
    have hall : ∀ j, cstr (table.token j).string = cstr tok.string → (table.token j).ID = k := by
      intro j hj
      have : j = i := hdistinct j i (by rw [hi, hj])
      subst this
      exact hk
    obtain ⟨_, hID⟩ := assignExact_match past table { tok with ID := 0 } hterm k ⟨i, hi⟩ hall
    have hk0 : k ≠ 0 := by rw [← hk]; exact hkind i
    have hne : (assignExact past table { tok with ID := 0 }).ID ≠ 0 := by rw [hID]; exact hk0
    rw [if_neg (fun hc => hne hc.1), if_neg (fun hc => hne hc.1)]
    exact hID
  | none =>
    obtain ⟨hs, _, hID⟩ := assignExact_no_match past table { tok with ID := 0 }
      (kindOf_none table _ h)
    have hID0 : (assignExact past table { tok with ID := 0 }).ID = 0 := hID
    rw [hs]
    simp only [cstr_headD]
    generalize tok.string.headD 0 = c
    cases ha : isalpha c with
    | true =>
      simp only [hID0, and_self, if_true]
      obtain ⟨_, _, h3, h4⟩ := assignReserved_spec table "id"
        (assignExact past table { tok with ID := 0 })
      rcases kindOf_unique table (lit "id") hdistinct with ⟨hk, hno⟩ | ⟨hex, hall⟩
      · rw [h3 hno, hID0, hk]
      · exact h4 _ hex hall
    | false =>
      cases hd : isdigit c with
      | true =>
        have hn : isalnum c = true := by unfold isalnum; rw [ha, hd]; rfl
        simp only [hID0, hn, and_self, true_and, Bool.false_eq_true, if_true, if_false]
        obtain ⟨_, _, h3, h4⟩ := assignReserved_spec table "int"
          (assignExact past table { tok with ID := 0 })
        rcases kindOf_unique table (lit "int") hdistinct with ⟨hk, hno⟩ | ⟨hex, hall⟩
        · rw [h3 hno, hID0, hk]
        · exact h4 _ hex hall
      | false =>
        have hn : isalnum c = false := by unfold isalnum; rw [ha, hd]; rfl
        simp only [hID0, hn, true_and, Bool.false_eq_true, if_false]

/-- The loop of `buildToken` in a round that meets a disallowed character `c`
while the token buffer has a free cell: the round prints the diagnostic, stores
`c` at the current position of the lexeme and moves token index and cursor on
by one; the loop then goes on with the next character, unless the length check
ends the token. -/
theorem buildLoop_disallowed_round (fuel : Nat) (tok : token) (s : Scan) (c d : Nat)
    (hc : s.currentLine.string[s.currentLine.index]? = some c)
    (hd : s.currentLine.string[s.currentLine.index + 1]? = some d)
    (hdis : disallowed c = true) (hroom : tok.index < tok.string.length) :
    buildLoop (fuel + 1) tok s =
      if TOKEN_LENGTH ≤ tok.index + 1 ∧ isalnum d = true then
        Except.ok
          ({ tok with string := tok.string.set tok.index c, index := tok.index + 1 },
           { s with
              currentLine := { s.currentLine with index := s.currentLine.index + 1 }
              output := s.output ++ [Output.notAllowed c, Output.tooManyCharacters] })
      else
        buildLoop fuel
          { tok with string := tok.string.set tok.index c, index := tok.index + 1 }
          { s with
              currentLine := { s.currentLine with index := s.currentLine.index + 1 }
              output := s.output ++ [Output.notAllowed c] } := by
  rw [buildLoop_succ, buildStep_disallowed tok s c d hc hd hdis hroom]
  by_cases hov : TOKEN_LENGTH ≤ tok.index + 1 ∧ isalnum d = true
  · simp only [hov, and_self, if_true, decide_True, Except.bind, pure, Except.pure,
      List.append_assoc, List.singleton_append]
  · simp only [hov, if_false, decide_False, Except.bind, Bool.false_eq_true, List.append_nil]

/-! ## What `%s` prints, and the table `constructSymbolTable` makes -/

theorem printToken_eq (t : token) :
    printToken t =
      if t.ID = 0 then []
      else [Output.tokenRecord t.ID
        (if t.ID = 22 then some '^' else if t.ID = 23 then some '#' else none) t.string] := by
  unfold printToken
  by_cases h0 : t.ID = 0
  · rw [if_pos h0, if_pos h0]
  · rw [if_neg h0, if_neg h0]
    by_cases h22 : t.ID = 22
    · rw [if_pos h22, if_pos h22]
    · rw [if_neg h22, if_neg h22]
      by_cases h23 : t.ID = 23
      · rw [if_pos h23, if_pos h23]
      · rw [if_neg h23, if_neg h23]

theorem mem_zero_drop_cstr (s : List Nat) (h : 0 ∈ s) : 0 ∈ s.drop (cstr s).length := by
  unfold cstr
  rw [drop_length_takeWhile]
  rw [← List.takeWhile_append_dropWhile (fun c => c != 0) s] at h
  rcases List.mem_append.mp h with h1 | h1
  · have h2 := mem_takeWhile_true (fun c => c != 0) 0 _ h1
    exact absurd h2 (by decide)
  · exact h1

/-- On memory in which every slot buffer holds a NUL, `constructSymbolTable`
returns: every slot has ID 0 and a buffer that holds a NUL behind spaces only,
as many as the stray string had characters. -/
theorem constructSymbolTable_terminated (uninit : symbolTable)
    (h : ∀ i, 0 ∈ (uninit.token i).string) :
    ∃ tab, constructSymbolTable uninit = some tab ∧
      ∀ i, (tab.token i).ID = 0 ∧
        printed (tab.token i).string =
          some (List.replicate (cstr (uninit.token i).string).length 32) := by
  have hs : ∀ i, (strset (uninit.token i).string 32).isSome := by
    intro i
    unfold strset
    rw [if_pos (h i)]
    rfl
  have hc : constructSymbolTable uninit = some
      ⟨fun i =>
        { string := (strset (uninit.token i).string 32).get (hs i)
          index := (uninit.token i).index
          ID := 0 }⟩ := by
    unfold constructSymbolTable
    rw [dif_pos hs]
  refine ⟨_, hc, fun i => ⟨rfl, ?_⟩⟩
  have hstr := constructSymbolTable_cstr uninit _ hc i
  have hval : strset (uninit.token i).string 32 =
      some (List.replicate (cstr (uninit.token i).string).length 32 ++
        (uninit.token i).string.drop (cstr (uninit.token i).string).length) := by
    unfold strset
    rw [if_pos (h i)]
  have h0 : 0 ∈ (strset (uninit.token i).string 32).get (hs i) := by
    simp only [hval, Option.get_some]
    exact List.mem_append_right _ (mem_zero_drop_cstr _ (h i))
  unfold printed
  rw [if_pos h0]
  exact congrArg some hstr

/-- When `buildToken` meets a disallowed character `c` as the first character
behind the spaces it skips and returns, `c` is the first character of the
lexeme returned. -/
theorem buildToken_disallowed_first (uninitID : Int) (s : Scan) (pre : List Nat) (m : Nat)
    (c d : Nat) (post : List Nat)
    (hstr : s.currentLine.string = pre ++ List.replicate m 32 ++ c :: d :: post)
    (hidx : s.currentLine.index = pre.length)
    (hsize : s.currentLine.string.length ≤ LINE_LENGTH)
    (hdis : disallowed c = true) (t : token) (s1 : Scan)
    (h : buildToken uninitID s = Except.ok (t, s1)) : t.string[0]? = some c := by
  rw [buildToken_disallowed uninitID s pre m c d post hstr hidx hsize hdis] at h
  cases hr : buildLoop LINE_LENGTH (partialToken [c])
      { s with
        currentLine := { s.currentLine with index := pre.length + m + 1 }
        output := s.output ++ [Output.notAllowed c] } with
  | error e => rw [hr] at h; cases h
  | ok r =>
    rw [hr] at h
    obtain ⟨t2, s2⟩ := r
    have hk := buildLoop_keeps _ _ _ _ _ hr
    simp only [Except.map, Except.ok.injEq, Prod.mk.injEq] at h
    rw [← h.1]
    show t2.string[0]? = some c
    rw [hk.2.2 0 (show 0 < (partialToken [c]).index from Nat.zero_lt_one)]
    rfl

/-! ## The claims -/

/-- C1 (the code at the failing input). Declaring `EZ` and then `FY`, which both
hash to slot 31, in the empty table: the probe loop of `addSymbol` steps from
the occupied slot 31 to `tableSlot = 32` and reads `symTable->token[32]`,
outside the array, so the run has no defined result, and neither has the
lookup of `FY` after `BEGIN`. -/
theorem C1_insert_then_lookup_leaves_table :
    constructSymbolTable zeroMemory = some blankTable ∧
    getHash (ident "EZ") = 31 ∧ getHash (ident "FY") = 31 ∧
    (∀ past, ∃ s1, feed past (initState blankTable) [ident "EZ"] = some s1 ∧
        s1.symbolCount = 1 ∧ s1.symTable.token 31 = ident "EZ") ∧
    (∀ past, feed past (initState blankTable) [ident "EZ", ident "FY"] = none) ∧
    (∀ past, feed past (initState blankTable)
        [ident "EZ", ident "FY", { string := buf "BEGIN", index := 5, ID := 3 }, ident "FY"]
        = none) := by
  refine ⟨constructSymbolTable_zeroMemory, by decide, by decide, ?_, ?_, ?_⟩
  · intro past; exact ⟨_, rfl, rfl, rfl⟩
  · intro past; rfl
  · intro past; rfl

/-- C2 (as amended). Duplicate declaration: in Declaration phase with count
below 32, when some slot holds the lexeme `L` of an identifier-kind token
(ID 22), `L` is not BEGIN and has at most 11 characters (so that the 12-cell
buffers of the slot and of the token hold its terminator), `checkSymbol`
writes exactly one record, the "is declared twice" diagnostic, whose `%s`
prints `L`, and leaves every slot and the count unchanged. -/
theorem C2_duplicate_declaration (past : Overrun) (s : State) (t : token)
    (i : Fin SYMBOL_TABLE_LENGTH)
    (hphase : s.beginReached = false) (hcount : s.symbolCount < SYMBOL_TABLE_LENGTH)
    (hid : t.ID = 22) (hB : cstr t.string ≠ lit "BEGIN")
    (hbuf : t.string.length = TOKEN_LENGTH)
    (hslotbuf : (s.symTable.token i).string.length = TOKEN_LENGTH)
    (hshort : (cstr t.string).length < TOKEN_LENGTH)
    (hheld : cstr (s.symTable.token i).string = cstr t.string) :
    checkSymbol past t s =
      some { s with output := s.output ++ [Output.declaredTwice t.string] } ∧
    printed t.string = some (cstr t.string) := by
  have h0 : 0 ∈ (s.symTable.token i).string :=
    mem_zero_of_cstr_lt _ (by rw [hheld, hslotbuf]; exact hshort)
  have ht : 0 ∈ t.string := mem_zero_of_cstr_lt _ (by rw [hbuf]; exact hshort)
  refine ⟨?_, printed_terminated _ ht⟩
  unfold checkSymbol
  rw [if_neg (by simpa [strcmpLit] using hB), if_pos ⟨hid, hphase⟩, if_pos hcount]
  unfold addSymbol
  have hd : isDuplicate past t s.symTable = true :=
    List.any_eq_true.mpr ⟨i, List.mem_finRange i, by
      unfold strcmp
      rw [if_pos hheld, if_pos h0]⟩
  rw [if_pos hd]

/-- C2 at a concrete input: `X` declared again in the table that holds `X` and `Y`. -/
theorem C2_witness :
    checkSymbol sameIndex (ident "X")
        { symTable := tableXY, beginReached := false, symbolCount := 2, output := [] } =
      some { symTable := tableXY, beginReached := false, symbolCount := 2,
             output := [] ++ [Output.declaredTwice (ident "X").string] } ∧
    printed (ident "X").string = some (cstr (ident "X").string) :=
  C2_duplicate_declaration sameIndex
    { symTable := tableXY, beginReached := false, symbolCount := 2, output := [] }
    (ident "X") 24 rfl (by decide) rfl (by decide) (by decide) (by decide) (by decide)
    (by decide)

/-- C2 (counterexample). A state in Declaration phase with count 1 whose slot 0
holds the lexeme BEGIN, and an identifier-kind token with lexeme BEGIN:
`checkSymbol` writes no diagnostic at all and switches the phase.  Also, for
the twelve-character lexeme `ABCDEFGHIJK.`, which fills the buffer: when slot
16 holds it as built at the end of a line (`index` 12) and the token is built
in front of a further character (`index` 13), the comparison runs on into
`index` and differs, and `checkSymbol` stores the token in slot 17 and raises
the count to 2 without a diagnostic. -/
theorem C2_counterexample :
    (∀ past, strcmp past (tableBEGIN.token 0) (ident "BEGIN") = true) ∧
    (ident "BEGIN").ID = 22 ∧
    (∀ past,
      checkSymbol past (ident "BEGIN")
        { symTable := tableBEGIN, beginReached := false, symbolCount := 1, output := [] } =
      some { symTable := tableBEGIN, beginReached := true, symbolCount := 1, output := [] }) ∧
    (dotToken 12).string = (dotToken 13).string ∧ getHash (dotToken 13) = 16 ∧
    checkSymbol sameIndex (dotToken 13)
        { symTable := blankTable.write 16 (dotToken 12), beginReached := false
          symbolCount := 1, output := [] } =
      some { symTable := (blankTable.write 16 (dotToken 12)).write 17 (dotToken 13)
             beginReached := false, symbolCount := 2, output := [] } :=
  ⟨fun _ => rfl, rfl, fun _ => rfl, rfl, by decide, rfl⟩

/-- C4 (the code at the failing inputs, and what holds otherwise). In Executable
phase with the empty table, the identifier-kind token `ABCDEFGHIJKL`, whose
twelve letters fill the buffer: `checkSymbol` hands the buffer to the `%s` of
the "was not declared" diagnostic, and the buffer holds no NUL, so the
conversion reads on behind the buffer into `index` and the diagnostic does not
name just the lexeme.  The identifier-kind token `highToken`, whose hash is
-31: `searchForSymbol` reads `symTable->token[-31]`, so the call has no defined
result.  For every identifier-kind token whose lexeme is not BEGIN and is in no
slot, whose hash is not negative and whose buffer holds a NUL, `checkSymbol`
adds exactly one record, the "was not declared" diagnostic, and its `%s`
prints the lexeme. -/
theorem C4_undeclared_up_to_full_buffer :
    (fullToken.ID = 22 ∧ cstr fullToken.string ≠ lit "BEGIN" ∧
      (∀ i, cstr (executableState.symTable.token i).string ≠ cstr fullToken.string) ∧
      (∀ past, checkSymbol past fullToken executableState =
        some { executableState with output := [Output.notDeclared fullToken.string] }) ∧
      printed fullToken.string = none) ∧
    (highToken.ID = 22 ∧ cstr highToken.string ≠ lit "BEGIN" ∧
      (∀ i, cstr (executableState.symTable.token i).string ≠ cstr highToken.string) ∧
      (∀ past, checkSymbol past highToken executableState = none)) ∧
    (∀ (past : Overrun) (s : State) (t : token), s.beginReached = true → t.ID = 22 →
      cstr t.string ≠ lit "BEGIN" →
      (∀ i, cstr (s.symTable.token i).string ≠ cstr t.string) →
      0 ≤ getHash t → 0 ∈ t.string →
      checkSymbol past t s =
        some { s with output := s.output ++ [Output.notDeclared t.string] } ∧
      printed t.string = some (cstr t.string)) := by
  refine ⟨⟨rfl, by decide, by decide, fun _ => rfl, by decide⟩,
    ⟨rfl, by decide, by decide, fun _ => rfl⟩, ?_⟩
  intro past s t hphase hid hB hno hh h0
  exact ⟨checkSymbol_undeclared past s t hphase hid hB hno hh, printed_terminated t.string h0⟩

/-- C5 (the code at the failing input). Thirty-three pairwise distinct
identifier lexemes, none of them BEGIN, declared in the empty table: the second
one already makes the probe loop read `symTable->token[32]`, so the run has
no defined result and the first 32 are not all inserted. -/
theorem C5_table_overflow_leaves_table :
    names33.length = 33 ∧ names33.Nodup ∧ (∀ n ∈ names33, cstr (buf n) ≠ lit "BEGIN") ∧
    (∀ past, feed past (initState blankTable) ((names33.take 2).map ident) = none) ∧
    (∀ past, feed past (initState blankTable) (names33.map ident) = none) := by
  refine ⟨rfl, by decide, by decide, ?_, ?_⟩
  · intro past; rfl
  · intro past; rfl

/-- C6. Section marker: for every state and every token whose lexeme is exactly
BEGIN, whatever its ID, `checkSymbol` sets the phase to Executable, writes no
diagnostic, and leaves the 32 slots and the count unchanged. -/
theorem C6_section_marker (past : Overrun) (s : State) (t : token)
    (hB : cstr t.string = lit "BEGIN") :
    checkSymbol past t s = some { s with beginReached := true } := by
  unfold checkSymbol
  rw [if_pos (by simpa [strcmpLit] using hB)]

/-- C6 at a concrete input: the keyword token BEGIN (kind 3) in the start state. -/
theorem C6_witness :
    checkSymbol sameIndex { string := buf "BEGIN", index := 5, ID := 3 } (initState blankTable) =
      some { initState blankTable with beginReached := true } :=
  C6_section_marker sameIndex (initState blankTable)
    { string := buf "BEGIN", index := 5, ID := 3 } (by decide)

/-- C7 (the code at the failing input, and what holds otherwise). From the empty
table, the calls of `checkSymbol` for the identifiers `EZ` and `FY`, which both
hash to 31: the second call finds slot 31 occupied, and the probe loop of
`addSymbol` reads `symTable->token[32]`, outside the array, so the state after
the two calls is not defined and the invariant is not established for it.  In
every state that a sequence of calls does return, from the table
`constructSymbolTable` returns, the count is at most 32, equals the number of
slots whose ID is not 0, and every such slot holds a token of ID 22. -/
theorem C7_invariant_up_to_probe_overrun :
    constructSymbolTable zeroMemory = some blankTable ∧
    getHash (ident "EZ") = 31 ∧ getHash (ident "FY") = 31 ∧
    (∀ past, ∃ s1, feed past (initState blankTable) [ident "EZ"] = some s1 ∧
      s1.symbolCount = 1 ∧ (occupied s1.symTable).card = 1) ∧
    (∀ past, feed past (initState blankTable) [ident "EZ", ident "FY"] = none) ∧
    (∀ (past : Overrun) (uninit tab : symbolTable) (toks : List token) (s : State),
      constructSymbolTable uninit = some tab → feed past (initState tab) toks = some s →
      s.symbolCount ≤ SYMBOL_TABLE_LENGTH ∧
      s.symbolCount = (occupied s.symTable).card ∧
      ∀ i, (s.symTable.token i).ID ≠ 0 → (s.symTable.token i).ID = 22) := by
  refine ⟨constructSymbolTable_zeroMemory, by decide, by decide, ?_, fun _ => rfl, ?_⟩
  · intro past
    refine ⟨_, rfl, rfl, ?_⟩
    decide
  · intro past uninit tab toks s hc hf
    exact Invariant_feed past toks _ s (Invariant_initState uninit tab hc) hf

/-- C8 (the code at the failing input, and what holds otherwise). The table
`tableLong` has pairwise distinct lexemes, non-zero kinds and the entries `id`
and `int`; its first entry is the twelve-letter lexeme `ABCDEFGHIJKL` with kind
1.  For the token with that lexeme the reference gives the kind 1 of the exact
match.  In `assignID` the `strcmp` of the two full buffers finds twelve equal
cells and no NUL, and runs on into `index`, which is 0 in the table entry and 12
in the token, so it reports a difference; no entry matches, the first character
is a letter, and the ID becomes 22, the kind of `id`.  For every table whose
entries hold their terminator (lexemes of at most 11 characters) `assignID`
agrees with the reference on every token. -/
theorem C8_classifier_up_to_full_buffer :
    ((∀ i j, cstr (tableLong.token i).string = cstr (tableLong.token j).string → i = j) ∧
      (∀ i, (tableLong.token i).ID ≠ 0) ∧
      cstr (tableLong.token 21).string = lit "id" ∧
      cstr (tableLong.token 22).string = lit "int" ∧
      cstr (tableLong.token 0).string = cstr longToken.string ∧ (tableLong.token 0).ID = 1 ∧
      classifySpec tableLong (cstr longToken.string) = 1 ∧
      (assignID sameIndex tableLong longToken).ID = 22) ∧
    (∀ (past : Overrun) (table : tokenTable) (tok : token),
      (∀ i, 0 ∈ (table.token i).string) →
      (∀ i j, cstr (table.token i).string = cstr (table.token j).string → i = j) →
      (∀ i, (table.token i).ID ≠ 0) →
      (assignID past table tok).ID = classifySpec table (cstr tok.string)) :=
  ⟨⟨by decide, by decide, by decide, by decide, by decide, by decide, by decide, by decide⟩,
   fun past table tok hterm hdistinct hkind =>
    assignID_classifySpec past table tok hterm hdistinct hkind⟩

/-- C9 (as amended). For every token-type table that has an `id` entry and
whose `id` entries have kind 22, and every token of ASCII characters (codes
below 128) whose first character is a letter, whose lexeme is not BEGIN and has
no exact match in the table: `assignID` gives it the ID 22, and `checkSymbol` on
the table `constructSymbolTable` returns, in Declaration phase with count 0,
inserts it: the count becomes 1, the slot of its hash holds the token, and
nothing is printed.  A token of any other ID whose lexeme is not BEGIN leaves every state
as it is: the symbol-table protocol applies to exactly the tokens of ID 22. -/
theorem C9_identifier_kind_22 (past : Overrun) (table : tokenTable)
    (uninit tab : symbolTable) (tok : token)
    (hc : constructSymbolTable uninit = some tab)
    (hid : ∃ i, cstr (table.token i).string = lit "id")
    (hid22 : ∀ i, cstr (table.token i).string = lit "id" → (table.token i).ID = 22)
    (hascii : ∀ c ∈ tok.string, c < 128)
    (hletter : isalpha (tok.string.headD 0) = true)
    (hB : cstr tok.string ≠ lit "BEGIN")
    (hno : ∀ i, cstr (table.token i).string ≠ cstr tok.string) :
    ((assignID past table tok).ID = 22 ∧
    ∃ s1, checkSymbol past (assignID past table tok) (initState tab) = some s1 ∧
      s1.symbolCount = 1 ∧
      0 ≤ getHash tok ∧
      s1.symTable.token ⟨(getHash tok).toNat, getHash_toNat_lt tok⟩ = assignID past table tok ∧
      s1.output = [] ∧ s1.beginReached = false) ∧
    (∀ (t : token) (s : State), t.ID ≠ 22 → cstr t.string ≠ lit "BEGIN" →
      checkSymbol past t s = some s) := by
  refine ⟨?_, fun t s hne hnb => checkSymbol_other past t s hnb hne⟩
  obtain ⟨hstr, _⟩ := assignID_string past table tok
  have hID : (assignID past table tok).ID = 22 :=
    assignID_letter past table tok 22 hid hid22 hletter hno
  refine ⟨hID, ?_⟩
  generalize hcur : assignID past table tok = cur at hstr hID
  have hhash : getHash cur = getHash tok := by unfold getHash; rw [hstr]
  have hdup : isDuplicate past cur tab = false := by
    rw [← Bool.not_eq_true]
    intro hd
    obtain ⟨i, _, hi⟩ := List.any_eq_true.mp hd
    rw [strcmp_blank past uninit tab hc cur (by rw [hstr]; exact hletter) i] at hi
    cases hi
  have hnn : 0 ≤ getHash tok := getHash_nonneg tok hascii
  have hprobe : probe tab (SYMBOL_TABLE_LENGTH + 1) (getHash cur).toNat =
      some ⟨(getHash tok).toNat, getHash_toNat_lt tok⟩ := by
    rw [hhash]
    exact probe_empty tab _ _ (getHash_toNat_lt tok) (constructSymbolTable_ID uninit tab hc _)
  have hcheck : checkSymbol past cur (initState tab) =
      some { initState tab with
        symTable := tab.write ⟨(getHash tok).toNat, getHash_toNat_lt tok⟩ cur
        symbolCount := (initState tab).symbolCount + 1 } := by
    unfold checkSymbol
    rw [if_neg (by rw [hstr]; simpa [strcmpLit] using hB), if_pos ⟨hID, rfl⟩,
      if_pos (by show (0 : Int) < 32; decide)]
    unfold addSymbol
    have hneg : ¬ getHash cur < 0 := by rw [hhash]; omega
    simp only [initState, hdup, hprobe, hneg, Bool.false_eq_true, if_false]
  refine ⟨_, hcheck, rfl, hnn, ?_, rfl, rfl⟩
  simp [symbolTable.write]

/-- C9 at a concrete input: the lexeme `X`, the table `stdTable`, zeroed memory. -/
theorem C9_witness :
    ((assignID sameIndex stdTable (rawToken "X")).ID = 22 ∧
    ∃ s1, checkSymbol sameIndex (assignID sameIndex stdTable (rawToken "X"))
        (initState blankTable) = some s1 ∧
      s1.symbolCount = 1 ∧
      0 ≤ getHash (rawToken "X") ∧
      s1.symTable.token ⟨(getHash (rawToken "X")).toNat, getHash_toNat_lt (rawToken "X")⟩ =
        assignID sameIndex stdTable (rawToken "X") ∧
      s1.output = [] ∧ s1.beginReached = false) ∧
    (∀ (t : token) (s : State), t.ID ≠ 22 → cstr t.string ≠ lit "BEGIN" →
      checkSymbol sameIndex t s = some s) :=
  C9_identifier_kind_22 sameIndex stdTable zeroMemory blankTable (rawToken "X")
    constructSymbolTable_zeroMemory ⟨21, by decide⟩ (by decide) (by decide) (by decide)
    (by decide) (by decide)

/-- C9 (counterexample). A table whose `id` entry has the non-zero kind 24, and
the letter-led lexeme `X`, which is not BEGIN and has no exact match: `assignID`
gives the token the ID 24, and `checkSymbol` on the empty table in Declaration
phase inserts nothing: the state is unchanged, with count 0 and ID 0 in every
slot. -/
theorem C9_counterexample :
    cstr (tableId24.token 21).string = lit "id" ∧ (tableId24.token 21).ID = 24 ∧
    (∀ i, cstr (tableId24.token i).string ≠ cstr (rawToken "X").string) ∧
    isalpha ((rawToken "X").string.headD 0) = true ∧
    (∀ past, (assignID past tableId24 (rawToken "X")).ID = 24) ∧
    (∀ past, checkSymbol past (assignID past tableId24 (rawToken "X")) (initState blankTable)
      = some (initState blankTable)) ∧
    (initState blankTable).symbolCount = 0 ∧
    (∀ i, ((initState blankTable).symTable.token i).ID = 0) := by
  have hall : ∀ i, cstr (tableId24.token i).string = lit "id" → (tableId24.token i).ID = 24 := by
    decide
  have hno : ∀ i, cstr (tableId24.token i).string ≠ cstr (rawToken "X").string := by decide
  have hID : ∀ past, (assignID past tableId24 (rawToken "X")).ID = 24 := fun past =>
    assignID_letter past tableId24 (rawToken "X") 24 ⟨21, by decide⟩ hall (by decide) hno
  refine ⟨by decide, by decide, hno, by decide, hID, ?_, rfl, ?_⟩
  · intro past
    apply checkSymbol_other
    · rw [(assignID_string past tableId24 (rawToken "X")).1]; decide
    · rw [hID past]; decide
  · intro i; rfl

/-- C10. End-to-end scenario: with the token table `stdTable` (entries for VAR,
INTEGER, BEGIN, `END.`, `,` `:` `;` `:=`, `id` = 22, `int` = 23), for every
overrun outcome and every uninitialised token ID, the loop body of `main`
(`getToken`, `printToken`, `checkSymbol`) run on the line
`VAR X, Y: INTEGER; BEGIN X := 5; END.` until the cursor is on the newline
returns; it yields the 13 tokens of `scenarioTrace`, where the count rises to 1
at `X` and to 2 at `Y`, both before BEGIN sets the phase; the table then holds
exactly `X` and `Y`; the lookup of `X` finds it; and the output is the echoed
line followed by the 13 token records, `5` with the marker `#`, and no
diagnostic. -/
theorem C10_end_to_end (past : Overrun) (uninitID : Int) :
    ∃ m, tokenizeLine past stdTable uninitID LINE_LENGTH (startOf scenarioText) =
        Except.ok (scenarioTrace, m) ∧
      m.symTable = tableXY ∧ m.symbolCount = 2 ∧ m.beginReached = true ∧
      searchForSymbol past (tok "X" 22) m.symTable = some true ∧
      m.scan.output = scenarioOutput ∧
      m.scan.currentLine.string[m.scan.currentLine.index]? = some 10 := by
  rw [tokenizeLine_agree past stdTable uninitID entriesTerminated_stdTable _ _
    terminatedRun_scenario]
  have h1 : (tokenizeLine noPast stdTable 0 LINE_LENGTH (startOf scenarioText)).toOption.map
      Prod.fst = some scenarioTrace := by decide!
  have h2 : (tokenizeLine noPast stdTable 0 LINE_LENGTH (startOf scenarioText)).toOption.map
      (fun r => decide (∀ i, r.2.symTable.token i = tableXY.token i)) = some true := by decide!
  have h3 : (tokenizeLine noPast stdTable 0 LINE_LENGTH (startOf scenarioText)).toOption.map
      (fun r => (r.2.symbolCount, r.2.beginReached)) = some (2, true) := by decide!
  have h4 : (tokenizeLine noPast stdTable 0 LINE_LENGTH (startOf scenarioText)).toOption.map
      (fun r => r.2.scan.output) = some scenarioOutput := by decide!
  have h5 : (tokenizeLine noPast stdTable 0 LINE_LENGTH (startOf scenarioText)).toOption.map
      (fun r => r.2.scan.currentLine.string[r.2.scan.currentLine.index]?) = some (some 10) := by
    decide!
  have h6 : searchForSymbol noPast (tok "X" 22) tableXY = some true := by decide!
  have h7 : ∀ i, 0 ∈ (tableXY.token i).string := by decide!
  cases hr : tokenizeLine noPast stdTable 0 LINE_LENGTH (startOf scenarioText) with
  | error e => rw [hr] at h1; cases h1
  | ok r =>
    obtain ⟨trace, m⟩ := r
    rw [hr] at h1 h2 h3 h4 h5
    simp only [Except.toOption, Option.map_some', Option.some.injEq, Prod.mk.injEq,
      decide_eq_true_eq] at h1 h2 h3 h4 h5
    have htab : m.symTable = tableXY := symbolTable_ext _ _ h2
    refine ⟨m, by rw [h1], htab, h3.1, h3.2, ?_, h4, h5⟩
    rw [htab]
    unfold searchForSymbol at h6 ⊢
    simp only [searchLoop_agree past noPast _ _ h7]
    exact h6

/-- C11 (as amended). Disallowed character: for every line buffer and every
character `c` that is not alphanumeric and none of `. : ( ; , + - * = )`,
space, newline, NUL, carriage return, when a round of the loop of `buildToken`
meets `c` while the lexeme has a free cell left, whatever the round and the
characters stored before: the round prints the "not allowed in language"
diagnostic, stores `c` as the next character of the lexeme, and moves the
cursor to the character behind `c`, where the loop goes on with the same lexeme
(the round ends the token only through the length check, with its own
diagnostic); whenever the loop returns, `c` is still the character at that
position of the lexeme returned; in particular, when `c` is the first character
behind the spaces `buildToken` skips and `buildToken` returns, `c` is the first
character of the lexeme of the token returned. -/
theorem C11_disallowed_character (fuel : Nat) (tok : token) (s : Scan) (c d : Nat)
    (hc : s.currentLine.string[s.currentLine.index]? = some c)
    (hd : s.currentLine.string[s.currentLine.index + 1]? = some d)
    (hdis : disallowed c = true) (hroom : tok.index < tok.string.length) :
    buildLoop (fuel + 1) tok s =
      (if TOKEN_LENGTH ≤ tok.index + 1 ∧ isalnum d = true then
        Except.ok
          ({ tok with string := tok.string.set tok.index c, index := tok.index + 1 },
           { s with
              currentLine := { s.currentLine with index := s.currentLine.index + 1 }
              output := s.output ++ [Output.notAllowed c, Output.tooManyCharacters] })
      else
        buildLoop fuel
          { tok with string := tok.string.set tok.index c, index := tok.index + 1 }
          { s with
              currentLine := { s.currentLine with index := s.currentLine.index + 1 }
              output := s.output ++ [Output.notAllowed c] }) ∧
    (∀ t s1, buildLoop (fuel + 1) tok s = Except.ok (t, s1) →
      t.string[tok.index]? = some c) ∧
    ∀ (uninitID : Int) (s0 : Scan) (pre : List Nat) (m : Nat) (post : List Nat),
      s0.currentLine.string = pre ++ List.replicate m 32 ++ c :: d :: post →
      s0.currentLine.index = pre.length → s0.currentLine.string.length ≤ LINE_LENGTH →
      ∀ t s1, buildToken uninitID s0 = Except.ok (t, s1) → t.string[0]? = some c := by
  have hround := buildLoop_disallowed_round fuel tok s c d hc hd hdis hroom
  refine ⟨hround, ?_, fun u s0 pre m post hstr hidx hsize t s1 h =>
    buildToken_disallowed_first u s0 pre m c d post hstr hidx hsize hdis t s1 h⟩
  intro t s1 h
  have hset : (tok.string.set tok.index c)[tok.index]? = some c := by
    rw [List.getElem?_set_self hroom]
  rw [hround] at h
  by_cases hov : TOKEN_LENGTH ≤ tok.index + 1 ∧ isalnum d = true
  · rw [if_pos hov] at h
    cases h
    exact hset
  · rw [if_neg hov] at h
    have hk := buildLoop_keeps _ _ _ _ _ h
    rw [hk.2.2 tok.index (Nat.lt_succ_self _)]
    exact hset

/-- C11 (witness). The line `&&X `, in the second round of the loop: the first
`&` is stored and the cursor is on the second one; the round prints the
diagnostic, stores the second `&` behind the first, and the loop goes on at
`X`; the lexeme returned has `&` at position 1. -/
theorem C11_witness :
    buildLoop (80 + 1) { string := 38 :: List.replicate 11 0, index := 1, ID := 0 }
        { scanOf "&&X \n" with
          currentLine := { lineOf "&&X \n" with index := 1 }
          output := [Output.notAllowed 38] } =
      buildLoop 80 { string := 38 :: 38 :: List.replicate 10 0, index := 2, ID := 0 }
        { scanOf "&&X \n" with
          currentLine := { lineOf "&&X \n" with index := 2 }
          output := [Output.notAllowed 38, Output.notAllowed 38] } ∧
    ∀ t s1,
      buildLoop (80 + 1) { string := 38 :: List.replicate 11 0, index := 1, ID := 0 }
        { scanOf "&&X \n" with
          currentLine := { lineOf "&&X \n" with index := 1 }
          output := [Output.notAllowed 38] } = Except.ok (t, s1) →
      t.string[1]? = some 38 :=
  ⟨(C11_disallowed_character 80 { string := 38 :: List.replicate 11 0, index := 1, ID := 0 }
    { scanOf "&&X \n" with
      currentLine := { lineOf "&&X \n" with index := 1 }
      output := [Output.notAllowed 38] } 38 88 (by decide) (by decide) (by decide)
    (by decide)).1,
   (C11_disallowed_character 80 { string := 38 :: List.replicate 11 0, index := 1, ID := 0 }
    { scanOf "&&X \n" with
      currentLine := { lineOf "&&X \n" with index := 1 }
      output := [Output.notAllowed 38] } 38 88 (by decide) (by decide) (by decide)
    (by decide)).2.1⟩

/-- C11 (counterexample). The line `&X `, the cursor on `&`: `buildToken` prints
the diagnostic and returns the lexeme `&X`, which contains `&` and is not the
lexeme `X`; it leaves the cursor behind `X`, and the next call returns the
newline of the line, so no token of the line has the lexeme `X`. -/
theorem C11_counterexample :
    disallowed 38 = true ∧
    (∀ u, buildToken u (scanOf "&X \n") = Except.ok
      ({ string := buf "&X", index := 2, ID := u },
       { scanOf "&X \n" with
          currentLine := { lineOf "&X \n" with index := 2 }
          output := [Output.notAllowed 38] })) ∧
    38 ∈ cstr (buf "&X") ∧ cstr (buf "&X") ≠ lit "X" ∧
    (∀ u, buildToken u
        { scanOf "&X \n" with
          currentLine := { lineOf "&X \n" with index := 2 }
          output := [Output.notAllowed 38] } = Except.ok
      ({ string := buf "\n", index := 0, ID := u },
       { scanOf "&X \n" with
          currentLine := { lineOf "&X \n" with index := 3 }
          output := [Output.notAllowed 38] })) := by
  refine ⟨by decide, ?_, by decide, by decide, ?_⟩
  · intro u
    exact buildToken_of_zero u (scanOf "&X \n") { string := buf "&X", index := 2, ID := 0 }
      { scanOf "&X \n" with
        currentLine := { lineOf "&X \n" with index := 2 }
        output := [Output.notAllowed 38] } (by decide!)
  · intro u
    exact buildToken_of_zero u
      { scanOf "&X \n" with
        currentLine := { lineOf "&X \n" with index := 2 }
        output := [Output.notAllowed 38] }
      { string := buf "\n", index := 0, ID := 0 }
      { scanOf "&X \n" with
        currentLine := { lineOf "&X \n" with index := 3 }
        output := [Output.notAllowed 38] } (by decide!)

/-- C12 (the code at the failing inputs). First input: a comment opened on line 1
whose closing `*)` stands at the very start of line 2, before `x`, with a
line `y` behind. The first call of `getToken` returns the blank token of the
comment, but `ignoreComment` steps over the first character of every line it
fetches, misses the `*)`, and reads on to the end of the file: when the call
returns the file is exhausted with the end-of-file indicator set, the current
line is the line `Y` with the cursor on its newline, and lines 2 and 3 were
only echoed; `x` and `y` are never tokenized. Second input: the one-line file
`(* c *) x` without a final newline; `fgets` sets the end-of-file indicator, the
loop of `ignoreComment` does not run, and the cursor is left at index 2, inside
the comment. -/
theorem C12_comment_closing_missed (past : Overrun) (uninitID : Int) :
    (∃ t s1, getToken past stdTable uninitID (startOf commentText).scan = Except.ok (t, s1) ∧
      cstr t.string = lit " " ∧ t.ID = 0 ∧
      s1.inputFile = { data := [], eof := true } ∧
      s1.currentLine.lineNumber = 4 ∧ cstr s1.currentLine.string = lit "Y\n" ∧
      s1.currentLine.index = 1 ∧
      s1.output.map echoOf = [some (1, lit "(* A\n"), none, some (2, lit "*) X\n"), none,
        some (3, lit "Y\n"), none, some (4, lit "Y\n")]) ∧
    (∃ t s1, getToken past stdTable uninitID (startOf lastLineText).scan = Except.ok (t, s1) ∧
      cstr t.string = lit " " ∧ t.ID = 0 ∧
      s1.inputFile = { data := [], eof := true } ∧
      cstr s1.currentLine.string = lit "(* C *) X\n" ∧
      s1.currentLine.index = 2) := by
  rw [getToken_agree past noPast stdTable uninitID _ entries_stdTable,
    getToken_agree past noPast stdTable uninitID _ entries_stdTable]
  constructor
  · have h1 : (getToken noPast stdTable 0 (startOf commentText).scan).toOption.map
        (fun r => (cstr r.1.string, r.1.ID)) = some (lit " ", 0) := by decide!
    have h2 : (getToken noPast stdTable 0 (startOf commentText).scan).toOption.map
        (fun r => r.2.inputFile) = some { data := [], eof := true } := by decide!
    have h3 : (getToken noPast stdTable 0 (startOf commentText).scan).toOption.map
        (fun r => (r.2.currentLine.lineNumber, cstr r.2.currentLine.string,
          r.2.currentLine.index)) = some (4, lit "Y\n", 1) := by decide!
    have h4 : (getToken noPast stdTable 0 (startOf commentText).scan).toOption.map
        (fun r => r.2.output.map echoOf) =
        some [some (1, lit "(* A\n"), none, some (2, lit "*) X\n"), none,
          some (3, lit "Y\n"), none, some (4, lit "Y\n")] := by decide!
    cases hr : getToken noPast stdTable 0 (startOf commentText).scan with
    | error e => rw [hr] at h1; cases h1
    | ok r =>
      obtain ⟨t, s1⟩ := r
      rw [hr] at h1 h2 h3 h4
      simp only [Except.toOption, Option.map_some', Option.some.injEq, Prod.mk.injEq] at h1 h2 h3 h4
      exact ⟨t, s1, rfl, h1.1, h1.2, h2, h3.1, h3.2.1, h3.2.2, h4⟩
  · have h1 : (getToken noPast stdTable 0 (startOf lastLineText).scan).toOption.map
        (fun r => (cstr r.1.string, r.1.ID)) = some (lit " ", 0) := by decide!
    have h2 : (getToken noPast stdTable 0 (startOf lastLineText).scan).toOption.map
        (fun r => r.2.inputFile) = some { data := [], eof := true } := by decide!
    have h3 : (getToken noPast stdTable 0 (startOf lastLineText).scan).toOption.map
        (fun r => (cstr r.2.currentLine.string, r.2.currentLine.index)) =
        some (lit "(* C *) X\n", 2) := by decide!
    cases hr : getToken noPast stdTable 0 (startOf lastLineText).scan with
    | error e => rw [hr] at h1; cases h1
    | ok r =>
      obtain ⟨t, s1⟩ := r
      rw [hr] at h1 h2 h3
      simp only [Except.toOption, Option.map_some', Option.some.injEq, Prod.mk.injEq] at h1 h2 h3
      exact ⟨t, s1, rfl, h1.1, h1.2, h2, h3.1, h3.2⟩

/-- C13 (the code at the failing input). The line `X5Y `, the cursor on the
letter `X`: the maximal alphanumeric run `X5Y` has three characters and is
followed by a space. The test of `buildToken` for integers runs for every
character, so the digit `5` followed by the letter `Y` sets `stop`: the lexeme
returned is `X5`, not the whole run, and the cursor is left on `Y`, which the
next call returns as a lexeme of its own. -/
theorem C13_digit_inside_word (uninitID : Int) :
    isalpha 88 = true ∧ (∀ c ∈ lit "X5Y", isalnum c = true) ∧
    (lineOf "X5Y \n").string = lit "X5Y" ++ 32 :: 10 :: List.replicate 76 0 ∧
    isalnum 32 = false ∧
    buildToken uninitID (scanOf "X5Y \n") = Except.ok
      ({ string := buf "X5", index := 2, ID := uninitID },
       { scanOf "X5Y \n" with currentLine := { lineOf "X5Y \n" with index := 2 } }) ∧
    cstr (buf "X5") ≠ lit "X5Y" ∧ (lineOf "X5Y \n").string[2]? = some 89 ∧
    buildToken uninitID
        { scanOf "X5Y \n" with currentLine := { lineOf "X5Y \n" with index := 2 } } =
      Except.ok
        ({ string := buf "Y", index := 1, ID := uninitID },
         { scanOf "X5Y \n" with currentLine := { lineOf "X5Y \n" with index := 3 } }) := by
  refine ⟨by decide, by decide, by decide, by decide, ?_, by decide, by decide, ?_⟩
  · exact buildToken_of_zero uninitID (scanOf "X5Y \n") { string := buf "X5", index := 2, ID := 0 }
      { scanOf "X5Y \n" with currentLine := { lineOf "X5Y \n" with index := 2 } } (by decide!)
  · exact buildToken_of_zero uninitID
      { scanOf "X5Y \n" with currentLine := { lineOf "X5Y \n" with index := 2 } }
      { string := buf "Y", index := 1, ID := 0 }
      { scanOf "X5Y \n" with currentLine := { lineOf "X5Y \n" with index := 3 } } (by decide!)

/-- C14. Length overflow: for every line buffer of at most 81 cells in which the
cursor stands in front of spaces followed by twelve letters `run` and a
thirteenth letter `d`, `buildToken` returns; the lexeme is exactly the twelve
letters, the one item added to the output is the "too many characters"
diagnostic, and the cursor is left on the thirteenth letter. -/
theorem C14_length_overflow (uninitID : Int) (s : Scan) (pre : List Nat) (m : Nat)
    (run : List Nat) (d : Nat) (post : List Nat)
    (hstr : s.currentLine.string = pre ++ List.replicate m 32 ++ run ++ d :: post)
    (hidx : s.currentLine.index = pre.length)
    (hsize : s.currentLine.string.length ≤ LINE_LENGTH)
    (hrun : run.length = TOKEN_LENGTH)
    (hletters : ∀ c ∈ run, isalpha c = true) (hd : isalpha d = true) :
    buildToken uninitID s = Except.ok
      ({ string := run, index := TOKEN_LENGTH, ID := uninitID },
       { s with
          currentLine := { s.currentLine with index := pre.length + m + TOKEN_LENGTH }
          output := s.output ++ [Output.tooManyCharacters] }) ∧
    s.currentLine.string[pre.length + m + TOKEN_LENGTH]? = some d := by
  refine ⟨buildToken_overflow uninitID s pre m run d post hstr hidx hsize hrun hletters hd, ?_⟩
  have h := getElem?_mid (pre ++ List.replicate m 32 ++ run) d post
  rw [← hstr] at h
  rw [← h]
  congr 1
  simp [hrun, Nat.add_assoc]

/-- C14 (witness). The line `ABCDEFGHIJKLM `: the lexeme is `ABCDEFGHIJKL`, one
diagnostic is printed, and the cursor is on `M`. -/
theorem C14_witness :
    buildToken 0 (scanOf "ABCDEFGHIJKLM \n") = Except.ok
      ({ string := lit "ABCDEFGHIJKL", index := 12, ID := 0 },
       { scanOf "ABCDEFGHIJKLM \n" with
          currentLine := { lineOf "ABCDEFGHIJKLM \n" with index := 12 }
          output := [Output.tooManyCharacters] }) ∧
    (scanOf "ABCDEFGHIJKLM \n").currentLine.string[12]? = some 77 :=
  C14_length_overflow 0 (scanOf "ABCDEFGHIJKLM \n") [] 0 (lit "ABCDEFGHIJKL") 77
    (32 :: 10 :: List.replicate 66 0) (by decide) rfl (by decide) (by decide) (by decide)
    (by decide)

/-- C15 (the code at the failing inputs). The line `ABCDEFGHIJKL.` (twelve
letters and a full stop, newline-terminated, 14 characters): after the twelfth
letter `newToken.index` is 12, the length check does not fire because `.` is
not alphanumeric, and the next round writes the `.` at `newToken.string[12]`,
outside the array. The same happens on a line of thirteen `&`. -/
theorem C15_write_at_position_12 (uninitID : Int) :
    buildToken uninitID (scanOf "ABCDEFGHIJKL.\n") = Except.error Fault.tokenBounds ∧
    buildToken uninitID (scanOf "&&&&&&&&&&&&&\n") = Except.error Fault.tokenBounds :=
  ⟨buildToken_fault uninitID (scanOf "ABCDEFGHIJKL.\n") Fault.tokenBounds (by decide!),
   buildToken_fault uninitID (scanOf "&&&&&&&&&&&&&\n") Fault.tokenBounds (by decide!)⟩

/-- C16. Line normalisation: for every line buffer of 81 cells that holds a raw
text of at most 79 characters without NUL whose only newline, if any, is its
last character, `formatLine` returns, and the string it leaves is the text
with every character upper-cased, the leading run of spaces and tabs removed,
and a newline appended if the text has none; line number and cursor are
unchanged; the string contains no lowercase letter, does not start with a space
or a tab, ends with a newline, and holds no other newline. -/
theorem C16_line_normalization (l : line) (text rest : List Nat)
    (hstr : l.string = text ++ 0 :: rest) (htext : 0 ∉ text)
    (hlen : text.length ≤ 79) (hsize : l.string.length = LINE_LENGTH)
    (hnl : 10 ∉ text.dropLast) :
    ∃ l1, formatLine l = Except.ok l1 ∧ cstr l1.string = normalizeSpec text ∧
      l1.lineNumber = l.lineNumber ∧ l1.index = l.index ∧
      (∀ c ∈ cstr l1.string, ¬ (97 ≤ c ∧ c ≤ 122)) ∧
      (cstr l1.string).head? ≠ some 32 ∧ (cstr l1.string).head? ≠ some 9 ∧
      (cstr l1.string).getLast? = some 10 ∧ (cstr l1.string).count 10 = 1 := by
  obtain ⟨l1, hrun, hc, hn, hi⟩ := formatLine_spec l text rest hstr htext hlen hsize
  refine ⟨l1, hrun, hc, hn, hi, ?_⟩
  rw [hc]
  exact normalizeSpec_facts text hnl

/-- C16 (witness). The raw line `  (tab)var x;` without a newline in line 3 of a
file becomes `VAR X;` with a newline. -/
theorem C16_witness :
    normalizeSpec (lit "  \tvar x;") = lit "VAR X;\n" ∧
    ∃ l1, formatLine
        { string := lit "  \tvar x;" ++ 0 :: List.replicate 71 0, lineNumber := 3, index := 0 } =
        Except.ok l1 ∧
      cstr l1.string = normalizeSpec (lit "  \tvar x;") ∧
      l1.lineNumber = 3 ∧ l1.index = 0 ∧
      (∀ c ∈ cstr l1.string, ¬ (97 ≤ c ∧ c ≤ 122)) ∧
      (cstr l1.string).head? ≠ some 32 ∧ (cstr l1.string).head? ≠ some 9 ∧
      (cstr l1.string).getLast? = some 10 ∧ (cstr l1.string).count 10 = 1 :=
  ⟨by decide,
   C16_line_normalization
    { string := lit "  \tvar x;" ++ 0 :: List.replicate 71 0, lineNumber := 3, index := 0 }
    (lit "  \tvar x;") (List.replicate 71 0) rfl (by decide) (by decide) (by decide)
    (by decide)⟩

/-- C17 (the code at the failing input, and what holds otherwise). The line
`ABCDEFGHIJKL `: `buildToken` returns the twelve letters, which fill the token
buffer, with `index` 12, and `assignID` gives the ID 22.  `printToken` hands
the buffer to the `%s` of its record; the buffer holds no NUL, so the conversion
reads on behind the buffer, into `index`, and the record is not the kind
followed by just the lexeme.  For every token, `printToken` writes nothing when
the ID is 0 and otherwise one record with the ID, the marker `^` for 22, `#`
for 23 and none for any other ID, and the buffer; when the buffer holds a NUL,
its `%s` prints the lexeme. -/
theorem C17_record_up_to_full_buffer :
    (∀ u, buildToken u (scanOf "ABCDEFGHIJKL \n") = Except.ok
      ({ longToken with ID := u },
       { scanOf "ABCDEFGHIJKL \n" with
          currentLine := { lineOf "ABCDEFGHIJKL \n" with index := 12 } })) ∧
    (∀ past u, assignID past stdTable { longToken with ID := u } = fullToken) ∧
    printToken fullToken = [Output.tokenRecord 22 (some '^') fullToken.string] ∧
    0 ∉ fullToken.string ∧ printed fullToken.string = none ∧
    (∀ t : token,
      printToken t =
        (if t.ID = 0 then []
        else [Output.tokenRecord t.ID
          (if t.ID = 22 then some '^' else if t.ID = 23 then some '#' else none) t.string]) ∧
      (0 ∈ t.string → printed t.string = some (cstr t.string))) := by
  refine ⟨?_, ?_, rfl, by decide, by decide, fun t => ⟨printToken_eq t, printed_terminated _⟩⟩
  · intro u
    exact buildToken_of_zero u (scanOf "ABCDEFGHIJKL \n") longToken
      { scanOf "ABCDEFGHIJKL \n" with
        currentLine := { lineOf "ABCDEFGHIJKL \n" with index := 12 } } (by decide!)
  · intro past u
    rw [assignID_agree past noPast stdTable longToken u entries_stdTable]
    decide

/-- C18 (the code at the failing inputs, and what holds otherwise). First input:
uninitialised memory in which the buffer of a slot holds twelve characters and
no NUL; the `strset` call of `constructSymbolTable` writes spaces on behind the
buffer, so no table is returned.  Second input: the table after the
twelve-letter identifier `ABCDEFGHIJKL` was declared; slot 14 holds the full
buffer, and the `%s` of record 15 reads on behind it.  Otherwise:
`printSymbolTable` writes its header and 32 records, record `i + 1` with the
buffer of slot `i`; on memory in which every slot buffer holds a NUL
`constructSymbolTable` returns a table whose slots have ID 0 and print as
spaces only (on the memory `strayMemory`, where every slot holds `abc` and ID
7, as three spaces and ID 0); and in every state a run of `checkSymbol` calls
reaches from a table `constructSymbolTable` returned, whatever the count, a
slot whose ID is 0 holds what `constructSymbolTable` put there. -/
theorem C18_dump_up_to_full_buffer :
    constructSymbolTable fullMemory = none ∧
    ((∀ past, feed past (initState blankTable) [fullToken] =
        some { initState blankTable with
          symTable := blankTable.write 14 fullToken, symbolCount := 1 }) ∧
      (printSymbolTable (blankTable.write 14 fullToken))[15]? =
        some (Output.symbolRecord 15 fullToken.string) ∧
      printed fullToken.string = none) ∧
    (∀ t : symbolTable, ∃ records,
      printSymbolTable t = Output.symbolTableHeader :: records ∧
      records.length = SYMBOL_TABLE_LENGTH ∧
      ∀ i : Fin SYMBOL_TABLE_LENGTH,
        records[i.val]? = some (Output.symbolRecord (i.val + 1) (t.token i).string)) ∧
    (∃ tab, constructSymbolTable strayMemory = some tab ∧
      ∀ i, tab.token i = { string := buf "   ", index := 5, ID := 0 }) ∧
    (∀ uninit : symbolTable, (∀ i, 0 ∈ (uninit.token i).string) →
      ∃ tab, constructSymbolTable uninit = some tab ∧
        ∀ i, (tab.token i).ID = 0 ∧
          printed (tab.token i).string =
            some (List.replicate (cstr (uninit.token i).string).length 32)) ∧
    (∀ (past : Overrun) (uninit tab : symbolTable) (toks : List token) (s : State),
      constructSymbolTable uninit = some tab → feed past (initState tab) toks = some s →
      ∀ i, (s.symTable.token i).ID = 0 → s.symTable.token i = tab.token i) := by
  refine ⟨?_, ⟨fun _ => rfl, by decide, by decide⟩, printSymbolTable_records, ?_,
    constructSymbolTable_terminated, ?_⟩
  · unfold constructSymbolTable
    rw [dif_neg]
    intro h
    have := h 0
    revert this
    decide
  · have hs : ∀ i, (strset (strayMemory.token i).string 32).isSome := fun _ => rfl
    refine ⟨_, (by unfold constructSymbolTable; rw [dif_pos hs]), ?_⟩
    intro i
    rfl
  · intro past uninit tab toks s hc hrun i hi
    exact untouched_feed past tab toks (initState tab) s (fun _ _ => rfl) hrun i hi

/-- C19 (the code at the failing input). The table in which only slot 31 is
occupied (by `EZ`), and the identifier `FY`, which is in no slot and hashes to
31: the probe loop of `addSymbol` steps from slot 31 to `tableSlot = 32` and
reads `symTable->token[32]`, outside the array, before its wrap test can run, so
the token is not stored in slot 0 and the call has no defined result. In
general the same happens whenever every slot from the hashed one to slot 31 is
occupied. -/
theorem C19_insert_leaves_table_at_slot_31 :
    getHash (ident "FY") = 31 ∧ (tableEZ.token 31).ID ≠ 0 ∧
    (∀ i : Fin SYMBOL_TABLE_LENGTH, i ≠ 31 → (tableEZ.token i).ID = 0) ∧
    (∀ i, cstr (tableEZ.token i).string ≠ cstr (ident "FY").string) ∧
    (∀ past, addSymbol past (ident "FY") stateEZ = none) ∧
    (∀ past t s, isDuplicate past t s.symTable = false →
      (∀ j : Fin SYMBOL_TABLE_LENGTH, getHash t ≤ j.val → (s.symTable.token j).ID ≠ 0) →
      addSymbol past t s = none) := by
  refine ⟨by decide, by decide, by decide, by decide, ?_, ?_⟩
  · intro past; rfl
  · intro past t s hdup hocc
    exact addSymbol_tail_occupied past t s hdup hocc

/-- C20. Digit-led lexeme: for every line buffer of at most 81 cells in which
the cursor stands in front of spaces followed by a run of one to twelve digits
and a character that is not alphanumeric, `buildToken` returns; the lexeme is
exactly the run (in the NUL-padded buffer), nothing is added to the output, and
the cursor is left on the character behind the run. -/
theorem C20_digit_led_lexeme (uninitID : Int) (s : Scan) (pre : List Nat) (m : Nat)
    (run : List Nat) (d : Nat) (post : List Nat)
    (hstr : s.currentLine.string = pre ++ List.replicate m 32 ++ run ++ d :: post)
    (hidx : s.currentLine.index = pre.length)
    (hsize : s.currentLine.string.length ≤ LINE_LENGTH)
    (hne : run ≠ []) (hlen : run.length ≤ TOKEN_LENGTH)
    (hdigits : ∀ c ∈ run, isdigit c = true) (hd : isalnum d = false) :
    buildToken uninitID s = Except.ok
      ({ string := run ++ List.replicate (TOKEN_LENGTH - run.length) 0, index := run.length
         ID := uninitID },
       { s with currentLine := { s.currentLine with index := pre.length + m + run.length } }) ∧
    s.currentLine.string[pre.length + m + run.length]? = some d := by
  refine ⟨buildToken_digits uninitID s pre m run d post hstr hidx hsize hne hlen hdigits hd, ?_⟩
  have h := getElem?_mid (pre ++ List.replicate m 32 ++ run) d post
  rw [← hstr] at h
  rw [← h]
  congr 1
  simp [Nat.add_assoc]

/-- C20 (witness). The line `  2024;`: the lexeme is `2024`, nothing is printed,
and the cursor is on `;`. -/
theorem C20_witness :
    buildToken 0 (scanOf "  2024;\n") = Except.ok
      ({ string := buf "2024", index := 4, ID := 0 },
       { scanOf "  2024;\n" with currentLine := { lineOf "  2024;\n" with index := 6 } }) ∧
    (scanOf "  2024;\n").currentLine.string[6]? = some 59 :=
  C20_digit_led_lexeme 0 (scanOf "  2024;\n") [] 2 (lit "2024") 59
    (10 :: List.replicate 73 0) (by decide) rfl (by decide) (by decide) (by decide) (by decide)
    (by decide)

/-- C21. Colon and assignment: for every line buffer of at most 81 cells in
which the cursor stands in front of spaces followed by `:` and a further
character `d`, `buildToken` returns; when `d` is `=` the lexeme is `:=` and the
cursor is left two cells behind the position of the `:`, otherwise the lexeme
is `:` and the cursor is left one cell behind it; in both cases the output is
unchanged. -/
theorem C21_colon_and_assignment (uninitID : Int) (s : Scan) (pre : List Nat) (m : Nat)
    (d : Nat) (post : List Nat)
    (hstr : s.currentLine.string = pre ++ List.replicate m 32 ++ 58 :: d :: post)
    (hidx : s.currentLine.index = pre.length)
    (hsize : s.currentLine.string.length ≤ LINE_LENGTH) :
    (d = 61 → buildToken uninitID s = Except.ok
      ({ string := buf ":=", index := 2, ID := uninitID },
       { s with currentLine := { s.currentLine with index := pre.length + m + 2 } })) ∧
    (d ≠ 61 → buildToken uninitID s = Except.ok
      ({ string := buf ":", index := 1, ID := uninitID },
       { s with currentLine := { s.currentLine with index := pre.length + m + 1 } })) := by
  constructor
  · intro hd
    subst hd
    exact buildToken_assign uninitID s pre m post hstr hidx hsize
  · intro hd
    exact buildToken_single uninitID s pre m 58 d post hstr hidx hsize (Or.inr (Or.inr ⟨rfl, hd⟩))

/-- C21 (witness). The line `  := 5`: the lexeme is `:=` and the cursor moves from
the `:` at index 2 to index 4. The line `: INTEGER;`: the lexeme is `:` and the
cursor moves to index 1. -/
theorem C21_witness :
    buildToken 0 (scanOf "  := 5\n") = Except.ok
      ({ string := buf ":=", index := 2, ID := 0 },
       { scanOf "  := 5\n" with currentLine := { lineOf "  := 5\n" with index := 4 } }) ∧
    buildToken 0 (scanOf ": INTEGER;\n") = Except.ok
      ({ string := buf ":", index := 1, ID := 0 },
       { scanOf ": INTEGER;\n" with currentLine := { lineOf ": INTEGER;\n" with index := 1 } }) :=
  ⟨(C21_colon_and_assignment 0 (scanOf "  := 5\n") [] 2 61
      (32 :: 53 :: 10 :: List.replicate 74 0) (by decide) rfl (by decide)).1 rfl,
   (C21_colon_and_assignment 0 (scanOf ": INTEGER;\n") [] 0 32
      (lit "INTEGER;\n" ++ List.replicate 70 0) (by decide) rfl (by decide)).2 (by decide)⟩

/-- C22 (the code at the failing input). The line `AB.C `: `buildToken` stores the
`.` as the last character of the lexeme `AB.` and ends the token, but the
`case '.'` has already moved the cursor behind the `.` when the increment behind
the switch runs, and that increment tests the character behind the `.`: `C` is
neither a space nor a newline, so the cursor moves once more and is left on the
space at index 4, not on `C` at index 3; the next call returns the newline, and
`C` is in no token. In general a `.` at the start of a token leaves the cursor
on the character behind it only if that is a space or a newline, and one cell
further otherwise. -/
theorem C22_dot_skips_next_character :
    (∀ u, buildToken u (scanOf "AB.C \n") = Except.ok
      ({ string := buf "AB.", index := 4, ID := u },
       { scanOf "AB.C \n" with currentLine := { lineOf "AB.C \n" with index := 4 } })) ∧
    (lineOf "AB.C \n").string[3]? = some 67 ∧ (lineOf "AB.C \n").string[4]? = some 32 ∧
    (∀ u, buildToken u
        { scanOf "AB.C \n" with currentLine := { lineOf "AB.C \n" with index := 4 } } =
      Except.ok
        ({ string := buf "\n", index := 0, ID := u },
         { scanOf "AB.C \n" with currentLine := { lineOf "AB.C \n" with index := 5 } })) ∧
    (∀ (u : Int) (s : Scan) (pre : List Nat) (m d : Nat) (post : List Nat),
      s.currentLine.string = pre ++ List.replicate m 32 ++ 46 :: d :: post →
      s.currentLine.index = pre.length → s.currentLine.string.length ≤ LINE_LENGTH →
      (d ≠ 32 ∧ d ≠ 10 → buildToken u s = Except.ok
        ({ string := buf ".", index := 2, ID := u },
         { s with currentLine := { s.currentLine with index := pre.length + m + 2 } })) ∧
      (d = 32 ∨ d = 10 → buildToken u s = Except.ok
        ({ string := buf ".", index := 1, ID := u },
         { s with currentLine := { s.currentLine with index := pre.length + m + 1 } }))) := by
  refine ⟨?_, by decide, by decide, ?_, ?_⟩
  · intro u
    exact buildToken_of_zero u (scanOf "AB.C \n") { string := buf "AB.", index := 4, ID := 0 }
      { scanOf "AB.C \n" with currentLine := { lineOf "AB.C \n" with index := 4 } } (by decide!)
  · intro u
    exact buildToken_of_zero u
      { scanOf "AB.C \n" with currentLine := { lineOf "AB.C \n" with index := 4 } }
      { string := buf "\n", index := 0, ID := 0 }
      { scanOf "AB.C \n" with currentLine := { lineOf "AB.C \n" with index := 5 } } (by decide!)
  · intro u s pre m d post hstr hidx hsize
    exact ⟨fun h => buildToken_dot_skip u s pre m d post hstr hidx hsize h,
      fun h => buildToken_dot_end u s pre m d post hstr hidx hsize h⟩

/-- C23. Single-character punctuation: for every line buffer of at most 81 cells
in which the cursor stands in front of spaces followed by one of
`; , + - * = )`, or by a `(` whose next character is not `*`, and a further
character `d`, whatever it is, `buildToken` returns; the lexeme is exactly that
one character, the cursor is left one cell behind it, and the output is
unchanged. -/
theorem C23_single_character_punctuation (uninitID : Int) (s : Scan) (pre : List Nat) (m : Nat)
    (c d : Nat) (post : List Nat)
    (hstr : s.currentLine.string = pre ++ List.replicate m 32 ++ c :: d :: post)
    (hidx : s.currentLine.index = pre.length)
    (hsize : s.currentLine.string.length ≤ LINE_LENGTH)
    (hcase : (c = 59 ∨ c = 44 ∨ c = 43 ∨ c = 45 ∨ c = 42 ∨ c = 61 ∨ c = 41) ∨
      (c = 40 ∧ d ≠ 42)) :
    buildToken uninitID s = Except.ok
      ({ string := c :: List.replicate (TOKEN_LENGTH - 1) 0, index := 1, ID := uninitID },
       { s with currentLine := { s.currentLine with index := pre.length + m + 1 } }) :=
  buildToken_single uninitID s pre m c d post hstr hidx hsize
    (by rcases hcase with h | h
        · exact Or.inl (by omega)
        · exact Or.inr (Or.inl h))

/-- C23 (witness). The line ` ;X`: the lexeme is `;` although a letter follows, and
the cursor moves from index 1 to index 2. The line `(X)`: the lexeme is `(`. -/
theorem C23_witness :
    buildToken 0 (scanOf " ;X\n") = Except.ok
      ({ string := buf ";", index := 1, ID := 0 },
       { scanOf " ;X\n" with currentLine := { lineOf " ;X\n" with index := 2 } }) ∧
    buildToken 0 (scanOf "(X)\n") = Except.ok
      ({ string := buf "(", index := 1, ID := 0 },
       { scanOf "(X)\n" with currentLine := { lineOf "(X)\n" with index := 1 } }) :=
  ⟨C23_single_character_punctuation 0 (scanOf " ;X\n") [] 1 59 88
      (10 :: List.replicate 77 0) (by decide) rfl (by decide) (Or.inl (Or.inl rfl)),
   C23_single_character_punctuation 0 (scanOf "(X)\n") [] 0 40 88
      (41 :: 10 :: List.replicate 77 0) (by decide) rfl (by decide)
      (Or.inr ⟨rfl, by decide⟩)⟩

/-- C24 (the code at the failing input, and what holds on every line). The line
of thirteen `_` is made of non-NUL characters, ends with its single newline and
holds no `(*`; with the cursor at its start the default branch of the switch
never sets `stop`, the length check does not fire on a character that is not
alphanumeric, and the thirteenth round stores its `_` at `newToken.string[12]`,
outside the token buffer, so the call has no defined result. On every line
buffer of at most 81 cells that ends with its only newline and holds no `(*`, and
for every cursor at or before the newline, this is the only way the call can
fail: it either leaves the token buffer, or it returns with the line unchanged,
the cursor not before its start and not behind the newline, and either moved on
or on the newline; the cells behind the newline are never read, since the
buffer may end with the newline. -/
theorem C24_progress_up_to_token_overflow :
    (0 ∉ lit ruleText ∧ (lit ruleText).count 10 = 1 ∧ (lit ruleText).getLast? = some 10 ∧
      40 ∉ lit ruleText) ∧
    (∀ u, buildToken u (scanOf ruleText) = Except.error Fault.tokenBounds) ∧
    (∀ (u : Int) (s : Scan) (text rest : List Nat),
      s.currentLine.string = text ++ 10 :: rest → 10 ∉ text →
      (∀ j, text[j]? = some 40 → text[j + 1]? ≠ some 42) →
      s.currentLine.string.length ≤ LINE_LENGTH →
      s.currentLine.index ≤ text.length →
      buildToken u s = Except.error Fault.tokenBounds ∨
      ∃ t k out,
        buildToken u s = Except.ok
          (t, { s with currentLine := { s.currentLine with index := k }, output := out }) ∧
        s.currentLine.index ≤ k ∧ k ≤ text.length ∧
        (s.currentLine.index < k ∨ k = text.length)) := by
  refine ⟨by decide, ?_, ?_⟩
  · intro u
    exact buildToken_fault u (scanOf ruleText) Fault.tokenBounds (by decide!)
  · intro u s text rest hstr hnl hcomment hsize hi
    have hat : ∀ j, j < text.length → (text ++ 10 :: rest)[j]? = text[j]? :=
      fun j hj => List.getElem?_append_left hj
    refine buildToken_safe (text ++ 10 :: rest) text.length (getElem?_mid text 10 rest)
      ?_ ?_ (by rw [← hstr]; exact hsize) u s hstr hi
    · intro j hj h
      rw [hat j hj] at h
      exact hnl (List.getElem?_mem h)
    · intro j hj h40 h42
      rw [hat j hj] at h40
      rcases Nat.lt_or_ge (j + 1) text.length with h | h
      · rw [hat (j + 1) h] at h42
        exact hcomment j h40 h42
      · have hj1 : j + 1 = text.length := by omega
        rw [hj1, getElem?_mid] at h42
        exact absurd (Option.some.inj h42) (by decide)

end Scanner
